import Mathlib

/-!
# LibTomCrypt descriptor registry and Fortuna PRNG

A shallow embedding of the registry functions (`register_hash`, `register_prng`,
`find_cipher`, `find_prng`, `cipher_is_valid`) and of the Fortuna generator
(`fortuna.c`), with the properties proved about them.

Conventions of the embedding.

* A pointer is a natural number, `NULL` is `0`.
* A descriptor record is its byte image: the `name` pointer stored in its first
  field and the remaining bytes of the record.  `XMEMCPY` of a whole record into a
  slot is assignment of the byte image to that slot.
* The descriptor tables are the global arrays `hash_descriptor[TAB_SIZE]`,
  `prng_descriptor[TAB_SIZE]`, `cipher_descriptor[TAB_SIZE]`.  The constant
  `TAB_SIZE` is defined in a header that is not among the source files; it is
  a parameter of the table type.
* Functions that write to a table return the table they leave behind.
* The mutex operations guard against interleaving only; the embedding is
  sequential and omits them.
-/

namespace LTC

/-! ## Data model of the registry -/

/-- A machine address; the strings that names point to are read through a memory. -/
abbrev Ptr := Nat

/-- The null pointer. -/
def NULL : Ptr := 0

/-- Byte image of a `struct ltc_hash_descriptor`, `struct ltc_prng_descriptor` or
`struct ltc_cipher_descriptor`: the `name` pointer, then every remaining byte of the
record (sizes, identifiers, function pointers, padding). -/
structure Descriptor where
  name : Ptr
  rest : List Nat
deriving DecidableEq, Repr

/-- A descriptor table: `TAB_SIZE` slots indexed `0 .. TAB_SIZE - 1`. -/
abbrev Table (TAB_SIZE : Nat) := Fin TAB_SIZE → Descriptor

/-- String memory: the NUL-terminated string stored at an address. -/
abbrev StrMem := Ptr → String

/-- Modelled from the spec: the macro `LTC_ARGCHK` is defined in a header that is not
among the source files.  Following "Rejects a null/empty descriptor" and the
`InvalidArgument` kind of the error taxonomy, a failed argument check ends the call at
once: the function body is not run, no value of the body is returned and nothing is
written.  `argchk_failed` is that outcome, `value v` is a normal return of `v`. -/
inductive Ret (α : Type) where
  | argchk_failed : Ret α
  | value (v : α) : Ret α
deriving DecidableEq, Repr

/-- Result codes, in the order of `_crypt_constants` in `crypt_constants.c`. -/
inductive Err where
  | CRYPT_OK
  | CRYPT_ERROR
  | CRYPT_NOP
  | CRYPT_INVALID_KEYSIZE
  | CRYPT_INVALID_ROUNDS
  | CRYPT_FAIL_TESTVECTOR
  | CRYPT_BUFFER_OVERFLOW
  | CRYPT_INVALID_PACKET
  | CRYPT_INVALID_PRNGSIZE
  | CRYPT_ERROR_READPRNG
  | CRYPT_INVALID_CIPHER
  | CRYPT_INVALID_HASH
  | CRYPT_INVALID_PRNG
  | CRYPT_MEM
  | CRYPT_PK_TYPE_MISMATCH
  | CRYPT_PK_NOT_PRIVATE
  | CRYPT_INVALID_ARG
  | CRYPT_FILE_NOTFOUND
  | CRYPT_PK_INVALID_TYPE
  | CRYPT_OVERFLOW
  | CRYPT_PK_ASN1_ERROR
  | CRYPT_INPUT_TOO_LONG
  | CRYPT_PK_INVALID_SIZE
  | CRYPT_INVALID_PRIME_SIZE
  | CRYPT_PK_INVALID_PADDING
  | CRYPT_HASH_OVERFLOW
deriving DecidableEq, Repr

/-- Modelled from the spec: the macro `XMEMCMP` is defined in a header that is not
among the source files.  Applied to two whole descriptor records it is zero exactly
when "an occupied slot's content is byte-identical to the incoming descriptor", that
is, when the byte images are equal. -/
def XMEMCMP (a b : Descriptor) : Int :=
  if a = b then 0 else 1

/-- Modelled from the spec: the macro `XSTRCMP` is defined in a header that is not
among the source files.  It is zero exactly when the two strings are equal, "comparing
names exactly (case-sensitive, byte-exact)". -/
def XSTRCMP (mem : StrMem) (a b : Ptr) : Int :=
  if mem a = mem b then 0 else 1

/-! ## The scanning loop -/

/-- The loop `for (x = ..; x < n; x++) { if (p x) return x; }`, started at index `x`
with `k` iterations left to run: `some x` is the early return, `none` is falling out
of the loop.  A whole loop is `scan p n 0`. -/
def scan {n : Nat} (p : Fin n → Bool) : Nat → Nat → Option (Fin n)
  | 0, _ => none
  | k + 1, x =>
    if h : x < n then
      if p ⟨x, h⟩ then some ⟨x, h⟩ else scan p k (x + 1)
    else none

/-! ## Registry operations -/

/-- Source `register_hash` (crypt_register_hash.c): argument check, the scan for a
byte-identical slot, then the scan for a blank spot. -/
def register_hash {TAB_SIZE : Nat} (hash_descriptor : Table TAB_SIZE)
    (hash : Option Descriptor) : Ret Int × Table TAB_SIZE :=
  match hash with
  | none => (Ret.argchk_failed, hash_descriptor)
  | some d =>
    -- is it already registered?
    match scan (fun x => decide (XMEMCMP (hash_descriptor x) d = 0)) TAB_SIZE 0 with
    | some x => (Ret.value (x.val : Int), hash_descriptor)
    | none =>
      -- find a blank spot
      match scan (fun x => decide ((hash_descriptor x).name = NULL)) TAB_SIZE 0 with
      | some x => (Ret.value (x.val : Int), Function.update hash_descriptor x d)
      | none => (Ret.value (-1), hash_descriptor)

/-- Source `register_prng` (crypt_register_prng.c): the same two scans over
`prng_descriptor`. -/
def register_prng {TAB_SIZE : Nat} (prng_descriptor : Table TAB_SIZE)
    (prng : Option Descriptor) : Ret Int × Table TAB_SIZE :=
  match prng with
  | none => (Ret.argchk_failed, prng_descriptor)
  | some d =>
    -- is it already registered?
    match scan (fun x => decide (XMEMCMP (prng_descriptor x) d = 0)) TAB_SIZE 0 with
    | some x => (Ret.value (x.val : Int), prng_descriptor)
    | none =>
      -- find a blank spot
      match scan (fun x => decide ((prng_descriptor x).name = NULL)) TAB_SIZE 0 with
      | some x => (Ret.value (x.val : Int), Function.update prng_descriptor x d)
      | none => (Ret.value (-1), prng_descriptor)

/-- Source `find_cipher` (crypt_find_cipher.c); `!XSTRCMP(..)` is `XSTRCMP(..) == 0`. -/
def find_cipher {TAB_SIZE : Nat} (mem : StrMem) (cipher_descriptor : Table TAB_SIZE)
    (name : Ptr) : Ret Int × Table TAB_SIZE :=
  if name = NULL then (Ret.argchk_failed, cipher_descriptor)
  else
    match scan (fun x => decide ((cipher_descriptor x).name ≠ NULL) &&
        decide (XSTRCMP mem (cipher_descriptor x).name name = 0)) TAB_SIZE 0 with
    | some x => (Ret.value (x.val : Int), cipher_descriptor)
    | none => (Ret.value (-1), cipher_descriptor)

/-- Source `find_prng` (crypt_find_prng.c). -/
def find_prng {TAB_SIZE : Nat} (mem : StrMem) (prng_descriptor : Table TAB_SIZE)
    (name : Ptr) : Ret Int × Table TAB_SIZE :=
  if name = NULL then (Ret.argchk_failed, prng_descriptor)
  else
    match scan (fun x => decide ((prng_descriptor x).name ≠ NULL) &&
        decide (XSTRCMP mem (prng_descriptor x).name name = 0)) TAB_SIZE 0 with
    | some x => (Ret.value (x.val : Int), prng_descriptor)
    | none => (Ret.value (-1), prng_descriptor)

/-- An array read `table[idx]` with a C `int` index: `none` when the index lies outside
`0 .. TAB_SIZE - 1`, that is, when the read would leave the table. -/
def Table.read {TAB_SIZE : Nat} (t : Table TAB_SIZE) (idx : Int) : Option Descriptor :=
  if h : 0 ≤ idx ∧ idx < (TAB_SIZE : Int) then
    some (t ⟨idx.toNat, by omega⟩)
  else none

/-- Source `cipher_is_valid` (crypt_cipher_is_valid.c).  The three tests are joined by
the short-circuit `||`, so the slot is read only after both bound tests are false.
The first component is `none` if a read outside the table took place. -/
def cipher_is_valid {TAB_SIZE : Nat} (cipher_descriptor : Table TAB_SIZE) (idx : Int) :
    Option Err × Table TAB_SIZE :=
  if idx < 0 then (some Err.CRYPT_INVALID_CIPHER, cipher_descriptor)
  else if idx ≥ (TAB_SIZE : Int) then (some Err.CRYPT_INVALID_CIPHER, cipher_descriptor)
  else
    match cipher_descriptor.read idx with
    | none => (none, cipher_descriptor)
    | some d =>
      if d.name = NULL then (some Err.CRYPT_INVALID_CIPHER, cipher_descriptor)
      else (some Err.CRYPT_OK, cipher_descriptor)

/-- A slot is occupied when its name pointer is not `NULL`. -/
def occupied {TAB_SIZE : Nat} (t : Table TAB_SIZE) (x : Fin TAB_SIZE) : Prop :=
  (t x).name ≠ NULL

instance {TAB_SIZE : Nat} (t : Table TAB_SIZE) (x : Fin TAB_SIZE) : Decidable (occupied t x) := by
  unfold occupied; infer_instance

/-- No two distinct occupied slots hold byte-identical descriptors. -/
def NoDup {TAB_SIZE : Nat} (t : Table TAB_SIZE) : Prop :=
  ∀ x y : Fin TAB_SIZE, occupied t x → occupied t y → t x = t y → x = y

/-- Number of occupied slots of a table. -/
def occupiedCount {TAB_SIZE : Nat} (t : Table TAB_SIZE) : Nat :=
  (List.finRange TAB_SIZE).countP (fun x => decide (occupied t x))

/-- Registering the descriptors of a list one after another with `reg` (one of the
register functions): the values returned, in order, and the table left at the end. -/
def register_seq {TAB_SIZE : Nat}
    (reg : Table TAB_SIZE → Option Descriptor → Ret Int × Table TAB_SIZE) :
    Table TAB_SIZE → List Descriptor → List (Ret Int) × Table TAB_SIZE
  | t, [] => ([], t)
  | t, d :: ds =>
    let r := reg t (some d)
    let rs := register_seq reg r.2 ds
    (r.1 :: rs.1, rs.2)

/-! ## Fortuna: data model

The structures `prng_state` / `struct fortuna_prng` and the primitives `sha256_*`,
`rijndael_*` are declared in headers and files that are not among the source files.
The fields are those `fortuna.c` uses; the primitives are parameters.  Byte buffers
are lists of bytes, `LTC_FORTUNA_POOLS` is a parameter of the state type. -/

/-- The hash and cipher primitives called by `fortuna.c`.  Each gives its result code
and what it leaves in the objects it writes. -/
structure Primitives (HashState SKey : Type) where
  /-- `sha256_init(md)`: result code and the state left in `md`. -/
  sha256_init : Err × HashState
  /-- `sha256_process(md, in, inlen)` on the bytes `in[0 .. inlen)`: result code and the
  state left in `md`. -/
  sha256_process : HashState → List Nat → Err × HashState
  /-- `sha256_done(md, out)`: result code, the state left in `md`, the bytes stored
  at `out`. -/
  sha256_done : HashState → Err × HashState × List Nat
  /-- `rijndael_setup(key, keylen, num_rounds, skey)` on the bytes `key[0 .. keylen)`:
  result code and the schedule left in `skey`. -/
  rijndael_setup : List Nat → Nat → Err × SKey
  /-- `rijndael_ecb_encrypt(pt, ct, skey)` on the block at `pt`: result code and the
  bytes stored at `ct`. -/
  rijndael_ecb_encrypt : List Nat → SKey → Err × List Nat

/-- The reseed rate limit chosen at compile time: `LTC_FORTUNA_RESEED_RATELIMIT_TIMED`,
or else the call counter with its bound `LTC_FORTUNA_WD`. -/
inductive RateLimit where
  | TIMED
  | STATIC (LTC_FORTUNA_WD : Nat)
deriving DecidableEq, Repr

/-- The fields of `prng_state` used by Fortuna: `u.fortuna.*` and `ready`.
`wd` and `reset_cnt` are `ulong64`, `pool_idx` and `pool0_len` are `unsigned long`,
`K` has 32 bytes and `IV` has 16. -/
structure prng_state (POOLS : Nat) (HashState SKey : Type) where
  pool : Fin POOLS → HashState
  skey : SKey
  K : List Nat
  IV : List Nat
  pool_idx : Nat
  pool0_len : Nat
  wd : Nat
  reset_cnt : Nat
  ready : Bool

/-- Storing `bytes` into a buffer at offset `off`. -/
def store (buf : List Nat) (off : Nat) (bytes : List Nat) : List Nat :=
  buf.take off ++ bytes ++ buf.drop (off + bytes.length)

/-- Modelled from the spec: `zeromem` is defined in a file that is not among the source
files.  It "zeroes" the first `len` bytes of the buffer ("zeroes the key", "zeroes the
counter"). -/
def zeromem (buf : List Nat) (len : Nat) : List Nat :=
  store buf 0 (List.replicate len 0)

/-! ## Fortuna: operations -/

/-- The loop of `_fortuna_update_iv`, at index `x` with `k` iterations left. -/
def _fortuna_update_iv_loop : Nat → Nat → List Nat → List Nat
  | 0, _, IV => IV
  | k + 1, x, IV =>
    if x < 16 then
      let IV1 := IV.set x ((IV.getD x 0 + 1) &&& 255)
      if IV1.getD x 0 ≠ 0 then IV1 else _fortuna_update_iv_loop k (x + 1) IV1
    else IV

/-- Source `_fortuna_update_iv`: update the IV. -/
def _fortuna_update_iv (IV : List Nat) : List Nat :=
  _fortuna_update_iv_loop 16 0 IV

/-- The pool loop of `_fortuna_reseed` (lines 129-149), at index `x` with `k`
iterations left: result code (`CRYPT_OK` when the loop ends or breaks), the local
hash state `md`, and the pools. -/
def reseed_pools {POOLS : Nat} {HashState SKey : Type} (P : Primitives HashState SKey)
    (reset_cnt : Nat) :
    Nat → Nat → HashState → (Fin POOLS → HashState) → Err × HashState × (Fin POOLS → HashState)
  | 0, _, md, pool => (Err.CRYPT_OK, md, pool)
  | k + 1, x, md, pool =>
    if h : x < POOLS then
      if x = 0 ∨ (reset_cnt >>> (x - 1)) &&& 1 = 0 then
        -- terminate this hash
        let dn := P.sha256_done (pool ⟨x, h⟩)
        let pool1 := Function.update pool ⟨x, h⟩ dn.2.1
        if dn.1 ≠ Err.CRYPT_OK then (dn.1, md, pool1)
        else
          -- add it to the string
          let pr := P.sha256_process md (dn.2.2.take 32)
          if pr.1 ≠ Err.CRYPT_OK then (pr.1, pr.2, pool1)
          else
            -- reset this pool
            let ini := P.sha256_init
            let pool2 := Function.update pool1 ⟨x, h⟩ ini.2
            if ini.1 ≠ Err.CRYPT_OK then (ini.1, pr.2, pool2)
            else reseed_pools P reset_cnt k (x + 1) pr.2 pool2
      else (Err.CRYPT_OK, md, pool)
    else (Err.CRYPT_OK, md, pool)

/-- Source `_fortuna_reseed`, from line 120 on (after the rate-limit test).  The calls
`sha256_done(&md, tmp)` on the error paths touch only the locals `md` and `tmp`. -/
def reseed_body {POOLS : Nat} {HashState SKey : Type} (P : Primitives HashState SKey)
    (rl : RateLimit) (now : Nat) (prng : prng_state POOLS HashState SKey) :
    Err × prng_state POOLS HashState SKey :=
  -- new K == LTC_SHA256(K || s) where s == LTC_SHA256(P0) || LTC_SHA256(P1) ...
  let md0 := P.sha256_init.2
  let pk := P.sha256_process md0 (prng.K.take 32)
  if pk.1 ≠ Err.CRYPT_OK then (pk.1, prng)
  else
    let reset_cnt := (prng.reset_cnt + 1) % 2 ^ 64
    let lp := reseed_pools P reset_cnt POOLS 0 pk.2 prng.pool
    let prng1 := { prng with pool := lp.2.2 }
    if lp.1 ≠ Err.CRYPT_OK then (lp.1, prng1)
    else
      -- finish key
      let fin := P.sha256_done lp.2.1
      let prng2 := { prng1 with K := store prng1.K 0 fin.2.2 }
      if fin.1 ≠ Err.CRYPT_OK then (fin.1, prng2)
      else
        let su := P.rijndael_setup (prng2.K.take 32) 0
        let prng3 := { prng2 with skey := su.2 }
        if su.1 ≠ Err.CRYPT_OK then (su.1, prng3)
        else
          let prng4 := { prng3 with IV := _fortuna_update_iv prng3.IV }
          -- reset/update internals
          (Err.CRYPT_OK,
            { prng4 with
              pool0_len := 0
              wd := (match rl with
                | RateLimit.TIMED => now
                | RateLimit.STATIC _ => 0)
              reset_cnt := reset_cnt })

/-- Source `_fortuna_reseed`: reseed the PRNG.  `now` is the value that
`_fortuna_current_time()` returns at the call (used in timed mode only). -/
def _fortuna_reseed {POOLS : Nat} {HashState SKey : Type} (P : Primitives HashState SKey)
    (rl : RateLimit) (now : Nat) (prng : prng_state POOLS HashState SKey) :
    Err × prng_state POOLS HashState SKey :=
  match rl with
  | RateLimit.TIMED =>
    if now = prng.wd then (Err.CRYPT_OK, prng) else reseed_body P rl now prng
  | RateLimit.STATIC LTC_FORTUNA_WD =>
    let prng1 := { prng with wd := (prng.wd + 1) % 2 ^ 64 }
    if prng1.wd < LTC_FORTUNA_WD then (Err.CRYPT_OK, prng1) else reseed_body P rl now prng1

/-- The loop `for (y = 0; y < bound; y++) sha256_done(&pool[y], tmp);` of
`fortuna_start`, at index `y` with `k` iterations left. -/
def done_pools {POOLS : Nat} {HashState SKey : Type} (P : Primitives HashState SKey)
    (bound : Nat) : Nat → Nat → (Fin POOLS → HashState) → (Fin POOLS → HashState)
  | 0, _, pool => pool
  | k + 1, y, pool =>
    if h : y < POOLS then
      if y < bound then
        done_pools P bound k (y + 1)
          (Function.update pool ⟨y, h⟩ (P.sha256_done (pool ⟨y, h⟩)).2.1)
      else pool
    else pool

/-- The pool initialisation loop of `fortuna_start` (lines 232-239), at index `x` with
`k` iterations left. -/
def start_pools {POOLS : Nat} {HashState SKey : Type} (P : Primitives HashState SKey) :
    Nat → Nat → (Fin POOLS → HashState) → Err × (Fin POOLS → HashState)
  | 0, _, pool => (Err.CRYPT_OK, pool)
  | k + 1, x, pool =>
    if h : x < POOLS then
      let ini := P.sha256_init
      let pool1 := Function.update pool ⟨x, h⟩ ini.2
      if ini.1 ≠ Err.CRYPT_OK then (ini.1, done_pools P x POOLS 0 pool1)
      else start_pools P k (x + 1) pool1
    else (Err.CRYPT_OK, pool)

/-- Source `fortuna_start`, on a non-null `prng` holding arbitrary contents. -/
def fortuna_start {POOLS : Nat} {HashState SKey : Type} (P : Primitives HashState SKey)
    (prng : prng_state POOLS HashState SKey) : Err × prng_state POOLS HashState SKey :=
  let prng1 := { prng with ready := false }
  -- initialize the pools
  let ip := start_pools P POOLS 0 prng1.pool
  let prng2 := { prng1 with pool := ip.2 }
  if ip.1 ≠ Err.CRYPT_OK then (ip.1, prng2)
  else
    let prng3 := { prng2 with pool_idx := 0, pool0_len := 0, wd := 0, reset_cnt := 0 }
    -- reset bufs
    let prng4 := { prng3 with K := zeromem prng3.K 32 }
    let su := P.rijndael_setup (prng4.K.take 32) 0
    let prng5 := { prng4 with skey := su.2 }
    if su.1 ≠ Err.CRYPT_OK then
      (su.1, { prng5 with pool := done_pools P POOLS POOLS 0 prng5.pool })
    else
      (Err.CRYPT_OK, { prng5 with IV := zeromem prng5.IV 16 })

/-- The loop `while (outlen >= 16)` of `fortuna_read` (lines 402-408): the output
buffer, the offset of the pointer `out` into it, the remaining `outlen`, and the IV. -/
def read_blocks {HashState SKey : Type} (P : Primitives HashState SKey) (skey : SKey)
    (outlen : Nat) (buf : List Nat) (off : Nat) (IV : List Nat) :
    List Nat × Nat × Nat × List Nat :=
  if 16 ≤ outlen then
    -- encrypt the IV and store it
    read_blocks P skey (outlen - 16) (store buf off (P.rijndael_ecb_encrypt IV skey).2)
      (off + 16) (_fortuna_update_iv IV)
  else (buf, off, outlen, IV)
termination_by outlen
decreasing_by omega

/-- Source `fortuna_read`.  `out` and `prng` are `none` for null pointers; `out` holds
the contents of the destination buffer.  The result is the returned count, the
destination buffer and the state after the call. -/
def fortuna_read {POOLS : Nat} {HashState SKey : Type} (P : Primitives HashState SKey)
    (rl : RateLimit) (now : Nat) (out : Option (List Nat)) (outlen : Nat)
    (prng : Option (prng_state POOLS HashState SKey)) :
    Nat × Option (List Nat) × Option (prng_state POOLS HashState SKey) :=
  match out, prng with
  | some buf, some s =>
    if outlen = 0 then (0, out, prng)
    else if s.ready = false then (0, out, prng)
    else
      -- do we have to reseed?
      let rs := if 64 ≤ s.pool0_len then _fortuna_reseed P rl now s else (Err.CRYPT_OK, s)
      if rs.1 ≠ Err.CRYPT_OK then (0, some buf, some rs.2)
      else
        let s1 := rs.2
        -- ensure that one reseed happened before allowing to read
        if s1.reset_cnt = 0 then (0, some buf, some s1)
        else
          -- now generate the blocks required
          let tlen := outlen
          -- handle whole blocks without the extra XMEMCPY
          let wb := read_blocks P s1.skey outlen buf 0 s1.IV
          let outlen1 := wb.2.2.1
          -- left over bytes?
          let lo : List Nat × List Nat :=
            if 0 < outlen1 then
              (store wb.1 wb.2.1 ((P.rijndael_ecb_encrypt wb.2.2.2 s1.skey).2.take outlen1),
                _fortuna_update_iv wb.2.2.2)
            else (wb.1, wb.2.2.2)
          -- generate new key
          let K1 := store s1.K 0 (P.rijndael_ecb_encrypt lo.2 s1.skey).2
          let IV1 := _fortuna_update_iv lo.2
          let K2 := store K1 16 (P.rijndael_ecb_encrypt IV1 s1.skey).2
          let IV2 := _fortuna_update_iv IV1
          let su := P.rijndael_setup (K2.take 32) 0
          let s2 := { s1 with K := K2, IV := IV2, skey := su.2 }
          if su.1 ≠ Err.CRYPT_OK then (0, some lo.1, some s2)
          else (tlen, some lo.1, some s2)
  | _, _ => (0, out, prng)

/-- Source `_fortuna_add`.  `unsigned long` is taken to be 64 bits wide; the casts to
`unsigned char` keep the low eight bits.  The result is `none` when `pool` is not an
index of the array `pool[LTC_FORTUNA_POOLS]`: the C code would then access memory
outside the array. -/
def _fortuna_add {POOLS : Nat} {HashState SKey : Type} (P : Primitives HashState SKey)
    (source pool : Nat) (inp : List Nat) (inlen : Nat)
    (prng : prng_state POOLS HashState SKey) :
    Option (Err × prng_state POOLS HashState SKey) :=
  if h : pool < POOLS then
    -- ensure inlen <= 32
    let inlen1 := if inlen > 32 then 32 else inlen
    -- add s || length(in) || in to pool[pool_idx]
    let tmp := [source % 256, inlen1 % 256]
    let p1 := P.sha256_process (prng.pool ⟨pool, h⟩) (tmp.take 2)
    let prng1 := { prng with pool := Function.update prng.pool ⟨pool, h⟩ p1.2 }
    if p1.1 ≠ Err.CRYPT_OK then some (p1.1, prng1)
    else
      let p2 := P.sha256_process (prng1.pool ⟨pool, h⟩) (inp.take inlen1)
      let prng2 := { prng1 with pool := Function.update prng1.pool ⟨pool, h⟩ p2.2 }
      if p2.1 ≠ Err.CRYPT_OK then some (p2.1, prng2)
      else if pool = 0 then
        some (Err.CRYPT_OK, { prng2 with pool0_len := (prng2.pool0_len + inlen1) % 2 ^ 64 })
      else some (Err.CRYPT_OK, prng2)
  else none

/-- Source `fortuna_add_random_event`, on a non-null `prng`.  `inp` is `none` for a
null pointer `in`. -/
def fortuna_add_random_event {POOLS : Nat} {HashState SKey : Type}
    (P : Primitives HashState SKey) (source pool : Nat) (inp : Option (List Nat))
    (inlen : Nat) (prng : prng_state POOLS HashState SKey) :
    Option (Ret Err × prng_state POOLS HashState SKey) :=
  match inp with
  | none => some (Ret.argchk_failed, prng)
  | some buf =>
    if ¬ (inlen > 0) then some (Ret.argchk_failed, prng)
    else if ¬ (source ≤ 255) then some (Ret.argchk_failed, prng)
    else if ¬ (pool < POOLS) then some (Ret.argchk_failed, prng)
    else
      match _fortuna_add P source pool buf inlen prng with
      | none => none
      | some r => some (Ret.value r.1, r.2)

/-- Source `fortuna_add_entropy`, on a non-null `prng`.  `inp` is `none` for a null
pointer `in`. -/
def fortuna_add_entropy {POOLS : Nat} {HashState SKey : Type}
    (P : Primitives HashState SKey) (inp : Option (List Nat)) (inlen : Nat)
    (prng : prng_state POOLS HashState SKey) :
    Option (Ret Err × prng_state POOLS HashState SKey) :=
  match inp with
  | none => some (Ret.argchk_failed, prng)
  | some buf =>
    if ¬ (inlen > 0) then some (Ret.argchk_failed, prng)
    else
      match _fortuna_add P 0 prng.pool_idx buf inlen prng with
      | none => none
      | some r =>
        if r.1 = Err.CRYPT_OK then
          some (Ret.value r.1, { r.2 with pool_idx := ((r.2.pool_idx + 1) % 2 ^ 64) % POOLS })
        else some (Ret.value r.1, r.2)

/-- The value that `fortuna_ready` stores in `wd` (lines 354-358):
`_fortuna_current_time() - 1` in timed mode, `LTC_FORTUNA_WD` in counter mode, as
`ulong64`. -/
def ready_wd (rl : RateLimit) (now_ready : Nat) : Nat :=
  match rl with
  | RateLimit.TIMED => (now_ready + 2 ^ 64 - 1) % 2 ^ 64
  | RateLimit.STATIC LTC_FORTUNA_WD => LTC_FORTUNA_WD % 2 ^ 64

/-- Source `fortuna_ready`, on a non-null `prng`.  `now_ready` is the value that
`_fortuna_current_time()` returns in `fortuna_ready`, `now_reseed` the value it returns
in the call of `_fortuna_reseed` that follows (timed mode only). -/
def fortuna_ready {POOLS : Nat} {HashState SKey : Type} (P : Primitives HashState SKey)
    (rl : RateLimit) (now_ready now_reseed : Nat) (prng : prng_state POOLS HashState SKey) :
    Err × prng_state POOLS HashState SKey :=
  -- make sure the reseed doesn't fail because of the chosen rate limit
  let prng1 := { prng with wd := ready_wd rl now_ready }
  let rs := _fortuna_reseed P rl now_reseed prng1
  (rs.1, { rs.2 with ready := decide (rs.1 = Err.CRYPT_OK) })

/-- The loop of `fortuna_done` (lines 452-456), at index `x` with `k` iterations left:
the result code and the pools. -/
def fortuna_done_loop {POOLS : Nat} {HashState SKey : Type} (P : Primitives HashState SKey) :
    Nat → Nat → (Fin POOLS → HashState) → Err × (Fin POOLS → HashState)
  | 0, _, pool => (Err.CRYPT_OK, pool)
  | k + 1, x, pool =>
    if h : x < POOLS then
      let dn := P.sha256_done (pool ⟨x, h⟩)
      let pool1 := Function.update pool ⟨x, h⟩ dn.2.1
      if dn.1 ≠ Err.CRYPT_OK then (dn.1, pool1)
      else fortuna_done_loop P k (x + 1) pool1
    else (Err.CRYPT_OK, pool)

/-- Source `fortuna_done`, on a non-null `prng`. -/
def fortuna_done {POOLS : Nat} {HashState SKey : Type} (P : Primitives HashState SKey)
    (prng : prng_state POOLS HashState SKey) : Err × prng_state POOLS HashState SKey :=
  let prng1 := { prng with ready := false }
  -- terminate all the hashes
  let lp := fortuna_done_loop P POOLS 0 prng1.pool
  (lp.1, { prng1 with pool := lp.2 })

/-- Source `fortuna_update_seed`: "Update Seed File"-compliant update of K.  The calls
`sha256_done(&md, tmp)` on the error paths touch only the locals `md` and `tmp`. -/
def fortuna_update_seed {POOLS : Nat} {HashState SKey : Type}
    (P : Primitives HashState SKey) (inp : List Nat) (inlen : Nat)
    (prng : prng_state POOLS HashState SKey) : Err × prng_state POOLS HashState SKey :=
  -- new K = LTC_SHA256(K || in)
  let md0 := P.sha256_init.2
  let p1 := P.sha256_process md0 (prng.K.take 32)
  if p1.1 ≠ Err.CRYPT_OK then (p1.1, prng)
  else
    let p2 := P.sha256_process p1.2 (inp.take inlen)
    if p2.1 ≠ Err.CRYPT_OK then (p2.1, prng)
    else
      -- finish key
      let fin := P.sha256_done p2.2
      let prng1 := { prng with K := store prng.K 0 fin.2.2 }
      if fin.1 ≠ Err.CRYPT_OK then (fin.1, prng1)
      else (Err.CRYPT_OK, { prng1 with IV := _fortuna_update_iv prng1.IV })

/-- The fields of `struct ltc_prng_descriptor` that are not function pointers. -/
structure ltc_prng_descriptor where
  name : String
  export_size : Int
deriving DecidableEq, Repr

/-- Source `fortuna_desc` (lines 48-59): the name and the export size; the other
entries of the initialiser are the addresses of the `fortuna_*` functions. -/
def fortuna_desc : ltc_prng_descriptor :=
  { name := "fortuna", export_size := 64 }

/-- Source `fortuna_import`, on a non-null `prng`.  `inp` is `none` for a null
pointer `in`. -/
def fortuna_import {POOLS : Nat} {HashState SKey : Type} (P : Primitives HashState SKey)
    (inp : Option (List Nat)) (inlen : Nat) (prng : prng_state POOLS HashState SKey) :
    Ret Err × prng_state POOLS HashState SKey :=
  match inp with
  | none => (Ret.argchk_failed, prng)
  | some buf =>
    if (inlen : Int) < fortuna_desc.export_size % 2 ^ 64 then
      (Ret.value Err.CRYPT_INVALID_ARG, prng)
    else
      let st := fortuna_start P prng
      if st.1 ≠ Err.CRYPT_OK then (Ret.value st.1, st.2)
      else
        let us := fortuna_update_seed P buf inlen st.2
        (Ret.value us.1, us.2)

/-- Modelled from the spec: `fortuna_export` is generated by the macro
`_LTC_PRNG_EXPORT`, which is defined in a header that is not among the source files.
Following "export serializes exactly the generator key (fixed size)", "Export format:
exactly 32 bytes representing the generator key, produced in a fixed byte order" and
the error kind "export buffer too small": with room for 32 bytes the key is stored at
`out` and `*outlen` becomes 32; the state is not written.  The result is the code, the
buffer `out`, `*outlen` and the state. -/
def fortuna_export {POOLS : Nat} {HashState SKey : Type} (out : List Nat) (outlen : Nat)
    (prng : prng_state POOLS HashState SKey) :
    Err × List Nat × Nat × prng_state POOLS HashState SKey :=
  if outlen < 32 then (Err.CRYPT_BUFFER_OVERFLOW, out, 32, prng)
  else (Err.CRYPT_OK, store out 0 (prng.K.take 32), 32, prng)

/-! ## Fortuna: sequences of calls -/

/-- A call of one of the public Fortuna operations, with its arguments and the clock
readings it receives. -/
inductive Call where
  | start
  | add_entropy (inp : Option (List Nat)) (inlen : Nat)
  | add_random_event (source pool : Nat) (inp : Option (List Nat)) (inlen : Nat)
  | ready (now_ready now_reseed : Nat)
  | read (out : Option (List Nat)) (outlen : Nat) (now : Nat)
  | update_seed (inp : List Nat) (inlen : Nat)
  | pimport (inp : Option (List Nat)) (inlen : Nat)
  | pexport (out : List Nat) (outlen : Nat)
  | done

/-- The state after one call (`none` when the call leaves the defined behaviour of C,
see `_fortuna_add`). -/
def step {POOLS : Nat} {HashState SKey : Type} (P : Primitives HashState SKey)
    (rl : RateLimit) : Call → prng_state POOLS HashState SKey →
    Option (prng_state POOLS HashState SKey)
  | Call.start, s => some (fortuna_start P s).2
  | Call.add_entropy inp inlen, s =>
    (fortuna_add_entropy P inp inlen s).map (fun r => r.2)
  | Call.add_random_event source pool inp inlen, s =>
    (fortuna_add_random_event P source pool inp inlen s).map (fun r => r.2)
  | Call.ready now_ready now_reseed, s => some (fortuna_ready P rl now_ready now_reseed s).2
  | Call.read out outlen now, s => (fortuna_read P rl now out outlen (some s)).2.2
  | Call.update_seed inp inlen, s => some (fortuna_update_seed P inp inlen s).2
  | Call.pimport inp inlen, s => some (fortuna_import P inp inlen s).2
  | Call.pexport out outlen, s => some (fortuna_export out outlen s).2.2.2
  | Call.done, s => some (fortuna_done P s).2

/-- The state after a sequence of calls. -/
def run {POOLS : Nat} {HashState SKey : Type} (P : Primitives HashState SKey)
    (rl : RateLimit) : prng_state POOLS HashState SKey → List Call →
    Option (prng_state POOLS HashState SKey)
  | s, [] => some s
  | s, c :: cs =>
    match step P rl c s with
    | none => none
    | some s1 => run P rl s1 cs

/-- A state reached from a successful `fortuna_start` through public operations. -/
def Reachable {POOLS : Nat} {HashState SKey : Type} (P : Primitives HashState SKey)
    (rl : RateLimit) (s : prng_state POOLS HashState SKey) : Prop :=
  ∃ (s0 : prng_state POOLS HashState SKey) (calls : List Call),
    (fortuna_start P s0).1 = Err.CRYPT_OK ∧ run P rl (fortuna_start P s0).2 calls = some s

/-- Successive calls of `fortuna_add_entropy` on the given inputs, each of them
returning `CRYPT_OK`: the pool index each call fed, in order, and the final state;
`none` if some call does not return `CRYPT_OK`. -/
def add_entropy_seq {POOLS : Nat} {HashState SKey : Type} (P : Primitives HashState SKey) :
    prng_state POOLS HashState SKey → List (List Nat × Nat) →
    Option (List Nat × prng_state POOLS HashState SKey)
  | s, [] => some ([], s)
  | s, i :: is =>
    match fortuna_add_entropy P (some i.1) i.2 s with
    | none => none
    | some r =>
      if r.1 = Ret.value Err.CRYPT_OK then
        match add_entropy_seq P r.2 is with
        | none => none
        | some rest => some (s.pool_idx :: rest.1, rest.2)
      else none

/-! ## Fortuna: assumptions on the primitives and the clock -/

/-- Every call of a primitive returns `CRYPT_OK`. -/
def Primitives.succeed {HashState SKey : Type} (P : Primitives HashState SKey) : Prop :=
  P.sha256_init.1 = Err.CRYPT_OK ∧
  (∀ md bytes, (P.sha256_process md bytes).1 = Err.CRYPT_OK) ∧
  (∀ md, (P.sha256_done md).1 = Err.CRYPT_OK) ∧
  (∀ key rounds, (P.rijndael_setup key rounds).1 = Err.CRYPT_OK) ∧
  (∀ pt skey, (P.rijndael_ecb_encrypt pt skey).1 = Err.CRYPT_OK)

/-- The block cipher stores one block of 16 bytes at `ct`. -/
def Primitives.block16 {HashState SKey : Type} (P : Primitives HashState SKey) : Prop :=
  ∀ pt skey, (P.rijndael_ecb_encrypt pt skey).2.length = 16

/-- Modelled from the spec: `sha256_done` is defined in a file that is not among the
source files.  Following "Idempotent finalization of already-finalized pools is an
error surfaced to the caller, not silently ignored", finalizing a hash state that a
successful `sha256_done` left behind does not return `CRYPT_OK`. -/
def Primitives.done_rejects_finalized {HashState SKey : Type}
    (P : Primitives HashState SKey) : Prop :=
  ∀ md, (P.sha256_done md).1 = Err.CRYPT_OK →
    (P.sha256_done (P.sha256_done md).2.1).1 ≠ Err.CRYPT_OK

/-- The rate limiter lets the reseed attempt of `fortuna_ready` through: in counter
mode the count `LTC_FORTUNA_WD + 1` does not wrap around, in timed mode the clock
reading in `_fortuna_reseed` is not the quantum before the reading in
`fortuna_ready`. -/
def ready_permits (rl : RateLimit) (now_ready now_reseed : Nat) : Prop :=
  match rl with
  | RateLimit.TIMED => now_reseed ≠ (now_ready + 2 ^ 64 - 1) % 2 ^ 64
  | RateLimit.STATIC LTC_FORTUNA_WD => LTC_FORTUNA_WD + 1 < 2 ^ 64

/-- The rate limiter lets a reseed attempt on state `s` through (lines 109-118). -/
def reseed_permitted {POOLS : Nat} {HashState SKey : Type} (rl : RateLimit) (now : Nat)
    (s : prng_state POOLS HashState SKey) : Prop :=
  match rl with
  | RateLimit.TIMED => now ≠ s.wd
  | RateLimit.STATIC LTC_FORTUNA_WD => ¬ ((s.wd + 1) % 2 ^ 64 < LTC_FORTUNA_WD)

/-! ## Fortuna: the counter, the output stream and the pools of a reseed -/

/-- The value of a byte string read as a little-endian unsigned integer. -/
def iv_value : List Nat → Nat
  | [] => 0
  | b :: bs => b + 256 * iv_value bs

/-- The carry chain of `_fortuna_update_iv` on the bytes from the current index on:
the byte is incremented, and the chain goes on to the next byte while the result is
zero. -/
def iv_carry : List Nat → List Nat
  | [] => []
  | b :: bs =>
    if (b + 1) &&& 255 ≠ 0 then ((b + 1) &&& 255) :: bs
    else ((b + 1) &&& 255) :: iv_carry bs

/-- A well-formed counter `IV[16]`: sixteen bytes. -/
def wf_iv (IV : List Nat) : Prop :=
  IV.length = 16 ∧ ∀ b ∈ IV, b < 256

/-- The output stream of the spec for `m` blocks from the counter `IV`:
`E(c) ‖ E(c+1) ‖ .. ‖ E(c+m-1)`, one block encryption per counter value under the
schedule `skey`; the counter after a block is `_fortuna_update_iv` of the counter
before it. -/
def keystream {HashState SKey : Type} (P : Primitives HashState SKey) (skey : SKey) :
    Nat → List Nat → List Nat
  | 0, _ => []
  | m + 1, IV => (P.rijndael_ecb_encrypt IV skey).2 ++ keystream P skey m (_fortuna_update_iv IV)

/-- The pools that the pool loop of `_fortuna_reseed` (lines 129-149) includes for the
local value `reset_cnt`, in order, from index `x` with `k` iterations left: pool `x`
is included while `x == 0` or bit `x - 1` of `reset_cnt` is zero, and the loop stops at
the first pool that fails this test. -/
def included_from (POOLS : Nat) (reset_cnt : Nat) : Nat → Nat → List (Fin POOLS)
  | 0, _ => []
  | k + 1, x =>
    if h : x < POOLS then
      if x = 0 ∨ (reset_cnt >>> (x - 1)) &&& 1 = 0 then
        ⟨x, h⟩ :: included_from POOLS reset_cnt k (x + 1)
      else []
    else []

/-- The pools included in a reseed whose local value of `reset_cnt` is given. -/
def included_pools (POOLS : Nat) (reset_cnt : Nat) : List (Fin POOLS) :=
  included_from POOLS reset_cnt POOLS 0

/-- The digest of a message hashed in one piece: `sha256_init`, one `sha256_process`,
`sha256_done`. -/
def sha256 {HashState SKey : Type} (P : Primitives HashState SKey) (msg : List Nat) :
    List Nat :=
  (P.sha256_done (P.sha256_process P.sha256_init.2 msg).2).2.2

/-- The hash state after processing a list of chunks one after another. -/
def process_chunks {HashState SKey : Type} (P : Primitives HashState SKey)
    (md : HashState) (chunks : List (List Nat)) : HashState :=
  chunks.foldl (fun m d => (P.sha256_process m d).2) md

/-- Processing a message in two pieces leaves the same hash state as processing it in
one piece. -/
def Primitives.streaming {HashState SKey : Type} (P : Primitives HashState SKey) : Prop :=
  ∀ md a b, (P.sha256_process (P.sha256_process md a).2 b).2 = (P.sha256_process md (a ++ b)).2

/-- The hash stores a digest of 32 bytes at `out`. -/
def Primitives.digest32 {HashState SKey : Type} (P : Primitives HashState SKey) : Prop :=
  ∀ md, (P.sha256_done md).2.2.length = 32

/-! ## Fortuna: the local scratch variables

The contents of the locals `tmp` and `md` at the moment a function returns.  The macro
`LTC_CLEAN_STACK` is a build option; it is a parameter here. -/

/-- What a local scratch variable holds when the function returns. -/
inductive Scratch (α : Type) where
  /-- never written by the function -/
  | untouched : Scratch α
  /-- the value that a primitive stored in it last -/
  | holds (v : α) : Scratch α
  /-- wiped by `zeromem` -/
  | zeroed : Scratch α
deriving DecidableEq, Repr

/-- The local `tmp` of `fortuna_done` after the loop of lines 452-456, at index `x`
with `k` iterations left. -/
def fortuna_done_loop_tmp {POOLS : Nat} {HashState SKey : Type}
    (P : Primitives HashState SKey) :
    Nat → Nat → (Fin POOLS → HashState) → Scratch (List Nat) → Scratch (List Nat)
  | 0, _, _, tmp => tmp
  | k + 1, x, pool, tmp =>
    if h : x < POOLS then
      let dn := P.sha256_done (pool ⟨x, h⟩)
      if dn.1 ≠ Err.CRYPT_OK then Scratch.holds dn.2.2
      else fortuna_done_loop_tmp P k (x + 1) (Function.update pool ⟨x, h⟩ dn.2.1)
        (Scratch.holds dn.2.2)
    else tmp

/-- The local `tmp` of `fortuna_done` when it returns: every path runs through
`LBL_UNLOCK`, where `tmp` is wiped if `LTC_CLEAN_STACK` is defined. -/
def fortuna_done_tmp {POOLS : Nat} {HashState SKey : Type} (P : Primitives HashState SKey)
    (LTC_CLEAN_STACK : Bool) (prng : prng_state POOLS HashState SKey) : Scratch (List Nat) :=
  let tmp := fortuna_done_loop_tmp P POOLS 0 prng.pool Scratch.untouched
  if LTC_CLEAN_STACK then Scratch.zeroed else tmp

/-- The local `tmp` of `fortuna_read` when it returns.  The first `return 0` (line 378)
leaves before `tmp` is used; every other path runs through `LBL_UNLOCK`, where `tmp`
is wiped if `LTC_CLEAN_STACK` is defined.  `tmp` is written only for the left-over
bytes (line 412). -/
def fortuna_read_tmp {POOLS : Nat} {HashState SKey : Type} (P : Primitives HashState SKey)
    (rl : RateLimit) (now : Nat) (LTC_CLEAN_STACK : Bool) (out : Option (List Nat))
    (outlen : Nat) (prng : Option (prng_state POOLS HashState SKey)) : Scratch (List Nat) :=
  match out, prng with
  | some buf, some s =>
    if outlen = 0 then Scratch.untouched
    else
      let tmp : Scratch (List Nat) :=
        if s.ready = false then Scratch.untouched
        else
          let rs := if 64 ≤ s.pool0_len then _fortuna_reseed P rl now s else (Err.CRYPT_OK, s)
          if rs.1 ≠ Err.CRYPT_OK then Scratch.untouched
          else if rs.2.reset_cnt = 0 then Scratch.untouched
          else
            let wb := read_blocks P rs.2.skey outlen buf 0 rs.2.IV
            if 0 < wb.2.2.1 then
              Scratch.holds (P.rijndael_ecb_encrypt wb.2.2.2 rs.2.skey).2
            else Scratch.untouched
      if LTC_CLEAN_STACK then Scratch.zeroed else tmp
  | _, _ => Scratch.untouched

/-- The locals of the pool loop of `_fortuna_reseed` at its exit, at index `x` with `k`
iterations left: the result code, `md` and `tmp`.  On each error path the code calls
`sha256_done(&md, tmp)` before it returns. -/
def reseed_pools_locals {POOLS : Nat} {HashState SKey : Type}
    (P : Primitives HashState SKey) (reset_cnt : Nat) :
    Nat → Nat → HashState → (Fin POOLS → HashState) → Scratch (List Nat) →
    Err × HashState × Scratch (List Nat)
  | 0, _, md, _, tmp => (Err.CRYPT_OK, md, tmp)
  | k + 1, x, md, pool, tmp =>
    if h : x < POOLS then
      if x = 0 ∨ (reset_cnt >>> (x - 1)) &&& 1 = 0 then
        let dn := P.sha256_done (pool ⟨x, h⟩)
        if dn.1 ≠ Err.CRYPT_OK then
          (dn.1, (P.sha256_done md).2.1, Scratch.holds (P.sha256_done md).2.2)
        else
          let pr := P.sha256_process md (dn.2.2.take 32)
          if pr.1 ≠ Err.CRYPT_OK then
            (pr.1, (P.sha256_done pr.2).2.1, Scratch.holds (P.sha256_done pr.2).2.2)
          else
            let ini := P.sha256_init
            if ini.1 ≠ Err.CRYPT_OK then
              (ini.1, (P.sha256_done pr.2).2.1, Scratch.holds (P.sha256_done pr.2).2.2)
            else
              reseed_pools_locals P reset_cnt k (x + 1) pr.2
                (Function.update (Function.update pool ⟨x, h⟩ dn.2.1) ⟨x, h⟩ ini.2)
                (Scratch.holds dn.2.2)
      else (Err.CRYPT_OK, md, tmp)
    else (Err.CRYPT_OK, md, tmp)

/-- The locals `tmp` and `md` of `_fortuna_reseed` after the rate-limit test, when the
function returns: the error paths return at once, only the last lines (170-173) wipe
the locals, and only if `LTC_CLEAN_STACK` is defined. -/
def reseed_body_locals {POOLS : Nat} {HashState SKey : Type} (P : Primitives HashState SKey)
    (LTC_CLEAN_STACK : Bool) (prng : prng_state POOLS HashState SKey) :
    Scratch (List Nat) × Scratch HashState :=
  let md0 := P.sha256_init.2
  let pk := P.sha256_process md0 (prng.K.take 32)
  if pk.1 ≠ Err.CRYPT_OK then
    (Scratch.holds (P.sha256_done pk.2).2.2, Scratch.holds (P.sha256_done pk.2).2.1)
  else
    let reset_cnt := (prng.reset_cnt + 1) % 2 ^ 64
    let lp := reseed_pools_locals P reset_cnt POOLS 0 pk.2 prng.pool Scratch.untouched
    if lp.1 ≠ Err.CRYPT_OK then (lp.2.2, Scratch.holds lp.2.1)
    else
      let fin := P.sha256_done lp.2.1
      if fin.1 ≠ Err.CRYPT_OK then (lp.2.2, Scratch.holds fin.2.1)
      else
        let su := P.rijndael_setup ((store prng.K 0 fin.2.2).take 32) 0
        if su.1 ≠ Err.CRYPT_OK then (lp.2.2, Scratch.holds fin.2.1)
        else if LTC_CLEAN_STACK then (Scratch.zeroed, Scratch.zeroed)
        else (lp.2.2, Scratch.holds fin.2.1)

/-- The locals `tmp` and `md` of `_fortuna_reseed` when it returns; the rate-limit
return (lines 109-118) leaves before they are used. -/
def _fortuna_reseed_locals {POOLS : Nat} {HashState SKey : Type}
    (P : Primitives HashState SKey) (rl : RateLimit) (now : Nat) (LTC_CLEAN_STACK : Bool)
    (prng : prng_state POOLS HashState SKey) : Scratch (List Nat) × Scratch HashState :=
  match rl with
  | RateLimit.TIMED =>
    if now = prng.wd then (Scratch.untouched, Scratch.untouched)
    else reseed_body_locals P LTC_CLEAN_STACK prng
  | RateLimit.STATIC LTC_FORTUNA_WD =>
    let prng1 := { prng with wd := (prng.wd + 1) % 2 ^ 64 }
    if prng1.wd < LTC_FORTUNA_WD then (Scratch.untouched, Scratch.untouched)
    else reseed_body_locals P LTC_CLEAN_STACK prng1

/-! ## The table of constants -/

/-- Source `crypt_constant` (crypt_constants.c): the address of a name and a value. -/
structure crypt_constant where
  name : Ptr
  value : Int
deriving DecidableEq, Repr

/-- Source `crypt_get_constant`.  The entries of `_crypt_constants` depend on build
options and on constants of headers that are not among the source files, so the table
is a parameter.  `valueout` is the contents of `*valueout` before the call; the result
is the returned code and the contents of `*valueout` after the call. -/
def crypt_get_constant {_crypt_constants_len : Nat} (mem : StrMem)
    (_crypt_constants : Fin _crypt_constants_len → crypt_constant) (namein : Ptr)
    (valueout : Int) : Int × Int :=
  match scan (fun i => decide (XSTRCMP mem (_crypt_constants i).name namein = 0))
      _crypt_constants_len 0 with
  | some i => (0, (_crypt_constants i).value)
  | none => (1, valueout)

/-! ## Fortuna: the clock of the timed rate limit -/

/-- What the platform clock delivers to `_fortuna_current_time`, one constructor for
each branch of the `#if`; the fields are the values after the casts to `ulong64`. -/
inductive ClockReading where
  /-- `GetSystemTimeAsFileTime`: 100 ns intervals since 1 January 1601 -/
  | win32 (QuadPart : Nat)
  /-- `clock_gettime(CLOCK_MONOTONIC, &ts)` -/
  | clock_gettime (tv_sec tv_nsec : Nat)
  /-- `gettimeofday(&tv, NULL)` -/
  | gettimeofday (tv_sec tv_usec : Nat)
deriving DecidableEq, Repr

/-- The local `cur_time` of `_fortuna_current_time` before the `return` (lines 80-96):
microseconds, in `ulong64` arithmetic. -/
def cur_time : ClockReading → Nat
  | ClockReading.win32 QuadPart =>
    -- subtract 100ns intervals between 1601-1970, then 100ns intervals > microseconds
    ((QuadPart % 2 ^ 64 + 2 ^ 64 - 116444736000000000) % 2 ^ 64) / 10
  | ClockReading.clock_gettime tv_sec tv_nsec =>
    ((tv_sec % 2 ^ 64) * 1000000 + (tv_nsec % 2 ^ 64) / 1000) % 2 ^ 64
  | ClockReading.gettimeofday tv_sec tv_usec =>
    ((tv_sec % 2 ^ 64) * 1000000 + tv_usec % 2 ^ 64) % 2 ^ 64

/-- Source `_fortuna_current_time`: `return cur_time / 100;`. -/
def _fortuna_current_time (r : ClockReading) : Nat :=
  cur_time r / 100

/-- A small stand-in for the primitives, for evaluating the operations on concrete
states: the hash state is the list of bytes absorbed, the key schedule is the key. -/
def toyPrimitives : Primitives (List Nat) (List Nat) where
  sha256_init := (Err.CRYPT_OK, [])
  sha256_process := fun md bytes => (Err.CRYPT_OK, md ++ bytes)
  sha256_done := fun md => (Err.CRYPT_OK, md, (List.range 32).map (fun i => (md.sum + i) % 256))
  rijndael_setup := fun key _ => (Err.CRYPT_OK, key)
  rijndael_ecb_encrypt := fun pt skey =>
    (Err.CRYPT_OK, (List.range 16).map (fun i => (pt.getD i 0 + skey.getD i 0 + i) % 256))

/-- A state with every field cleared and four pools. -/
def zeroState : prng_state 4 (List Nat) (List Nat) where
  pool := fun _ => []
  skey := []
  K := List.replicate 32 0
  IV := List.replicate 16 0
  pool_idx := 0
  pool0_len := 0
  wd := 0
  reset_cnt := 0
  ready := false

/-- A ready state that has been reseeded once: key and schedule `0, 1, .., 31`, counter
1, nothing in pool 0. -/
def readyState : prng_state 4 (List Nat) (List Nat) where
  pool := fun _ => []
  skey := List.range 32
  K := List.range 32
  IV := 1 :: List.replicate 15 0
  pool_idx := 0
  pool0_len := 0
  wd := 0
  reset_cnt := 1
  ready := true

/-- The state `readyState` with 64 bytes counted in pool 0. -/
def fullState : prng_state 4 (List Nat) (List Nat) :=
  { readyState with pool0_len := 64 }

/-- A stand-in for the primitives whose hash states remember that they were finalized
(`none`): processing or finalizing such a state is an error. -/
def strictPrimitives : Primitives (Option (List Nat)) (List Nat) where
  sha256_init := (Err.CRYPT_OK, some [])
  sha256_process := fun md bytes =>
    match md with
    | some l => (Err.CRYPT_OK, some (l ++ bytes))
    | none => (Err.CRYPT_INVALID_ARG, none)
  sha256_done := fun md =>
    match md with
    | some l => (Err.CRYPT_OK, none, (List.range 32).map (fun i => (l.sum + i) % 256))
    | none => (Err.CRYPT_INVALID_ARG, none, [])
  rijndael_setup := fun key _ => (Err.CRYPT_OK, key)
  rijndael_ecb_encrypt := fun pt skey =>
    (Err.CRYPT_OK, (List.range 16).map (fun i => (pt.getD i 0 + skey.getD i 0 + i) % 256))

/-- A started state over `strictPrimitives`: four empty pools. -/
def strictState : prng_state 4 (Option (List Nat)) (List Nat) where
  pool := fun _ => some []
  skey := List.replicate 32 0
  K := List.replicate 32 0
  IV := List.replicate 16 0
  pool_idx := 0
  pool0_len := 0
  wd := 0
  reset_cnt := 0
  ready := false

/-- Two entropy injection calls: three bytes through `fortuna_add_entropy`, one byte
from source 7 into pool 0 through `fortuna_add_random_event`. -/
def demoCalls : List Call :=
  [Call.add_entropy (some [1, 2, 3]) 3, Call.add_random_event 7 0 (some [9]) 1]

/-- The state after `fortuna_start` on the cleared state. -/
def demoS1 : prng_state 4 (List Nat) (List Nat) :=
  (fortuna_start toyPrimitives zeroState).2

/-- The state after the calls `demoCalls` on `demoS1`. -/
def demoS2 : prng_state 4 (List Nat) (List Nat) :=
  (run toyPrimitives (RateLimit.STATIC 10) demoS1 demoCalls).getD demoS1

/-- The record of the Fortuna descriptor `fortuna_desc`: its name at address 1. -/
def descA : Descriptor := { name := 1, rest := [64] }

/-- A second record carrying the same name pointer and other contents. -/
def descB : Descriptor := { name := 1, rest := [32] }

/-- A record whose name pointer is `NULL` and whose other bytes are not all zero. -/
def descNoName : Descriptor := { name := NULL, rest := [7] }

/-- A record with a name at address 2. -/
def descC : Descriptor := { name := 2, rest := [16] }

/-- A cleared slot. -/
def emptySlot : Descriptor := { name := NULL, rest := [0] }

/-- A table of two cleared slots. -/
def emptyTable2 : Table 2 := fun _ => emptySlot

/-- A table of two slots: `descA` in slot 0, slot 1 cleared. -/
def tableA : Table 2 := fun x => if x = 0 then descA else emptySlot

/-- A table of two slots holding `descA` and `descB`. -/
def tableAB : Table 2 := fun x => if x = 0 then descA else descB

/-- A string memory: "fortuna" at address 1, "sprng" at address 2. -/
def strMem : StrMem := fun p => if p = 1 then "fortuna" else if p = 2 then "sprng" else ""

/-- A buffer of 64 bytes to import. -/
def importBuf : List Nat := List.replicate 64 1

/-- A state that has not been reseeded, with one byte in each pool and the rate-limit
count at 9. -/
def pooledState : prng_state 4 (List Nat) (List Nat) :=
  { zeroState with pool := fun i => [i.val + 5], wd := 9 }

/-- The state `strictState` with every pool finalized. -/
def finalizedState : prng_state 4 (Option (List Nat)) (List Nat) :=
  { strictState with pool := fun _ => none }

/-- A string memory for the table of constants. -/
def constMem : StrMem := fun p =>
  if p = 1 then "CRYPT_OK" else if p = 2 then "CRYPT_ERROR" else
  if p = 3 then "CRYPT_NOP" else if p = 4 then "NO_SUCH_CONSTANT" else ""

/-- The first three entries of `_crypt_constants`. -/
def constTable : Fin 3 → crypt_constant := fun i =>
  if i = 0 then ⟨1, 0⟩ else if i = 1 then ⟨2, 1⟩ else ⟨3, 2⟩

/-- The state after `fortuna_start` and `fortuna_ready` on `zeroState`, counter rate
limit 10. -/
def startedReadyState : prng_state 4 (List Nat) (List Nat) :=
  (fortuna_ready toyPrimitives (RateLimit.STATIC 10) 0 0
    (fortuna_start toyPrimitives zeroState).2).2

@[simp]
theorem XMEMCMP_eq_zero (a b : Descriptor) : XMEMCMP a b = 0 ↔ a = b := by
  unfold XMEMCMP
  by_cases h : a = b <;> simp [h]

@[simp]
theorem XSTRCMP_eq_zero (mem : StrMem) (a b : Ptr) : XSTRCMP mem a b = 0 ↔ mem a = mem b := by
  unfold XSTRCMP
  by_cases h : mem a = mem b <;> simp [h]

theorem scan_some_iff {n : Nat} (p : Fin n → Bool) (k x : Nat) (hk : k + x = n) (i : Fin n) :
    scan p k x = some i ↔ (x ≤ i.val ∧ p i = true ∧ ∀ j : Fin n, x ≤ j.val → j.val < i.val → p j = false) := by
  induction k generalizing x with
  | zero =>
    simp only [scan]
    constructor
    · intro h; cases h
    · rintro ⟨h, _, _⟩; have := i.isLt; omega
  | succ k ih =>
    have hx : x < n := by omega
    simp only [scan, hx, dite_true]
    by_cases hp : p ⟨x, hx⟩ = true
    · simp only [hp, if_true, Option.some.injEq]
      constructor
      · rintro rfl
        exact ⟨le_refl _, hp, fun j h1 h2 => by simp at h2; omega⟩
      · rintro ⟨h1, _, h3⟩
        by_contra hne
        have hlt : x < i.val := by
          rcases Nat.lt_or_ge x i.val with h | h
          · exact h
          · exfalso; apply hne; apply Fin.ext; simp; omega
        have := h3 ⟨x, hx⟩ (le_refl _) hlt
        rw [hp] at this; cases this
    · have hpf : p ⟨x, hx⟩ = false := by simpa using hp
      simp only [hpf, Bool.false_eq_true, if_false]
      rw [ih (x + 1) (by omega)]
      constructor
      · rintro ⟨h1, h2, h3⟩
        refine ⟨by omega, h2, fun j hj1 hj2 => ?_⟩
        by_cases hjx : j.val = x
        · have : j = ⟨x, hx⟩ := Fin.ext hjx
          rw [this]; exact hpf
        · exact h3 j (by omega) hj2
      · rintro ⟨h1, h2, h3⟩
        have hne : x ≠ i.val := by
          intro he
          have : i = ⟨x, hx⟩ := Fin.ext he.symm
          rw [this, hpf] at h2; cases h2
        exact ⟨by omega, h2, fun j hj1 hj2 => h3 j (by omega) hj2⟩

theorem scan_none_iff {n : Nat} (p : Fin n → Bool) (k x : Nat) (hk : k + x = n) :
    scan p k x = none ↔ ∀ j : Fin n, x ≤ j.val → p j = false := by
  induction k generalizing x with
  | zero =>
    simp only [scan, true_iff]
    intro j hj; have := j.isLt; omega
  | succ k ih =>
    have hx : x < n := by omega
    simp only [scan, hx, dite_true]
    by_cases hp : p ⟨x, hx⟩ = true
    · simp only [hp, if_true]
      constructor
      · intro h; cases h
      · intro h; have := h ⟨x, hx⟩ (le_refl _); rw [hp] at this; cases this
    · have hpf : p ⟨x, hx⟩ = false := by simpa using hp
      simp only [hpf, Bool.false_eq_true, if_false]
      rw [ih (x + 1) (by omega)]
      constructor
      · intro h j hj
        by_cases hjx : j.val = x
        · have : j = ⟨x, hx⟩ := Fin.ext hjx
          rw [this]; exact hpf
        · exact h j (by omega)
      · intro h j hj; exact h j (by omega)

/-- A whole loop returns `some i` exactly when `i` is the first index satisfying the test. -/
theorem scan_eq_some {n : Nat} (p : Fin n → Bool) (i : Fin n) :
    scan p n 0 = some i ↔ (p i = true ∧ ∀ j : Fin n, j < i → p j = false) := by
  rw [scan_some_iff p n 0 (by omega) i]
  constructor
  · rintro ⟨_, h2, h3⟩; exact ⟨h2, fun j hj => h3 j (Nat.zero_le _) hj⟩
  · rintro ⟨h2, h3⟩; exact ⟨Nat.zero_le _, h2, fun j _ hj => h3 j hj⟩

/-- A whole loop falls through exactly when no index satisfies the test. -/
theorem scan_eq_none {n : Nat} (p : Fin n → Bool) :
    scan p n 0 = none ↔ ∀ j : Fin n, p j = false := by
  rw [scan_none_iff p n 0 (by omega)]
  constructor
  · intro h j; exact h j (Nat.zero_le _)
  · intro h j _; exact h j

theorem register_prng_eq_register_hash {n : Nat} (t : Table n) (d : Option Descriptor) :
    register_prng t d = register_hash t d := rfl

theorem find_prng_eq_find_cipher {n : Nat} (mem : StrMem) (t : Table n) (name : Ptr) :
    find_prng mem t name = find_cipher mem t name := rfl

/-- The three ways `register_hash` ends on a non-null descriptor. -/
theorem register_hash_cases {n : Nat} (t : Table n) (d : Descriptor) :
    (∃ i : Fin n, t i = d ∧ (∀ j : Fin n, j < i → t j ≠ d) ∧
        register_hash t (some d) = (Ret.value (i.val : Int), t)) ∨
    ((∀ x : Fin n, t x ≠ d) ∧ ∃ i : Fin n, (t i).name = NULL ∧
        (∀ j : Fin n, j < i → (t j).name ≠ NULL) ∧
        register_hash t (some d) = (Ret.value (i.val : Int), Function.update t i d)) ∨
    ((∀ x : Fin n, t x ≠ d) ∧ (∀ x : Fin n, (t x).name ≠ NULL) ∧
        register_hash t (some d) = (Ret.value (-1), t)) := by
  cases h1 : scan (fun x => decide (XMEMCMP (t x) d = 0)) n 0 with
  | some i =>
    left
    rw [scan_eq_some] at h1
    refine ⟨i, by simpa using h1.1, fun j hj => by simpa using h1.2 j hj, ?_⟩
    have h1' : scan (fun x => decide (XMEMCMP (t x) d = 0)) n 0 = some i := by
      rw [scan_eq_some]; exact h1
    simp only [register_hash, h1']
  | none =>
    right
    have hno : ∀ x : Fin n, t x ≠ d := by
      rw [scan_eq_none] at h1
      intro x; simpa using h1 x
    cases h2 : scan (fun x => decide ((t x).name = NULL)) n 0 with
    | some i =>
      left
      refine ⟨hno, i, ?_, ?_, ?_⟩
      · rw [scan_eq_some] at h2; simpa using h2.1
      · rw [scan_eq_some] at h2; intro j hj; simpa using h2.2 j hj
      · simp only [register_hash, h1, h2]
    | none =>
      right
      refine ⟨hno, ?_, ?_⟩
      · rw [scan_eq_none] at h2; intro x; simpa using h2 x
      · simp only [register_hash, h1, h2]

theorem register_hash_found {n : Nat} (t : Table n) (d : Descriptor) (i : Fin n)
    (h1 : t i = d) (h2 : ∀ j : Fin n, j < i → t j ≠ d) :
    register_hash t (some d) = (Ret.value (i.val : Int), t) := by
  have hs : scan (fun x => decide (XMEMCMP (t x) d = 0)) n 0 = some i := by
    rw [scan_eq_some]
    exact ⟨by simpa using h1, fun j hj => by simpa using h2 j hj⟩
  simp only [register_hash, hs]

theorem register_hash_insert {n : Nat} (t : Table n) (d : Descriptor) (i : Fin n)
    (hno : ∀ x : Fin n, t x ≠ d) (h1 : (t i).name = NULL)
    (h2 : ∀ j : Fin n, j < i → (t j).name ≠ NULL) :
    register_hash t (some d) = (Ret.value (i.val : Int), Function.update t i d) := by
  have hs1 : scan (fun x => decide (XMEMCMP (t x) d = 0)) n 0 = none := by
    rw [scan_eq_none]; intro j; simpa using hno j
  have hs2 : scan (fun x => decide ((t x).name = NULL)) n 0 = some i := by
    rw [scan_eq_some]
    exact ⟨by simpa using h1, fun j hj => by simpa using h2 j hj⟩
  simp only [register_hash, hs1, hs2]

theorem register_hash_full {n : Nat} (t : Table n) (d : Descriptor)
    (hno : ∀ x : Fin n, t x ≠ d) (hfull : ∀ x : Fin n, (t x).name ≠ NULL) :
    register_hash t (some d) = (Ret.value (-1), t) := by
  have hs1 : scan (fun x => decide (XMEMCMP (t x) d = 0)) n 0 = none := by
    rw [scan_eq_none]; intro j; simpa using hno j
  have hs2 : scan (fun x => decide ((t x).name = NULL)) n 0 = none := by
    rw [scan_eq_none]; intro j; simpa using hfull j
  simp only [register_hash, hs1, hs2]

/-- Both register functions have the body of `register_hash`. -/
theorem reg_is_register_hash {n : Nat}
    (reg : Table n → Option Descriptor → Ret Int × Table n)
    (hreg : reg = register_hash ∨ reg = register_prng) : reg = register_hash := by
  rcases hreg with h | h
  · exact h
  · rw [h]; funext t d; rfl

/-- Both find functions have the body of `find_cipher`. -/
theorem find_is_find_cipher {n : Nat}
    (find : StrMem → Table n → Ptr → Ret Int × Table n)
    (hfind : find = find_cipher ∨ find = find_prng) : find = find_cipher := by
  rcases hfind with h | h
  · exact h
  · rw [h]; funext mem t name; rfl

theorem ret_value_inj {a b : Int} (h : (Ret.value a : Ret Int) = Ret.value b) : a = b := by
  cases h; rfl

theorem register_hash_idem {n : Nat} (t t1 : Table n) (d : Descriptor) (i : Int)
    (hi : 0 ≤ i) (h : register_hash t (some d) = (Ret.value i, t1)) :
    register_hash t1 (some d) = (Ret.value i, t1) := by
  rcases register_hash_cases t d with ⟨i0, h1, h2, h3⟩ | ⟨hno, i0, h1, h2, h3⟩ | ⟨_, _, h3⟩
  · rw [h3] at h
    have e1 : (i0.val : Int) = i := ret_value_inj (congrArg Prod.fst h)
    have e2 : t = t1 := congrArg Prod.snd h
    subst e2; subst e1
    exact h3
  · rw [h3] at h
    have e1 : (i0.val : Int) = i := ret_value_inj (congrArg Prod.fst h)
    have e2 : Function.update t i0 d = t1 := congrArg Prod.snd h
    subst e2; subst e1
    apply register_hash_found
    · simp
    · intro j hj
      have hne : j ≠ i0 := Fin.ne_of_lt hj
      rw [Function.update_noteq hne]
      exact hno j
  · rw [h3] at h
    have e1 : (-1 : Int) = i := ret_value_inj (congrArg Prod.fst h)
    omega

theorem register_hash_nodup {n : Nat} (t : Table n) (d : Option Descriptor)
    (h : NoDup t) : NoDup (register_hash t d).2 := by
  cases d with
  | none => exact h
  | some d =>
    rcases register_hash_cases t d with ⟨i0, _, _, h3⟩ | ⟨hno, i0, _, _, h3⟩ | ⟨_, _, h3⟩
    · rw [h3]; exact h
    · rw [h3]
      show NoDup (Function.update t i0 d)
      intro x y hx hy hxy
      simp only [occupied] at hx hy
      by_cases ex : x = i0
      · by_cases ey : y = i0
        · rw [ex, ey]
        · exfalso
          rw [ex, Function.update_same, Function.update_noteq ey] at hxy
          exact hno y hxy.symm
      · by_cases ey : y = i0
        · exfalso
          rw [ey, Function.update_same, Function.update_noteq ex] at hxy
          exact hno x hxy
        · rw [Function.update_noteq ex] at hx hxy
          rw [Function.update_noteq ey] at hy hxy
          exact h x y hx hy hxy
    · rw [h3]; exact h

/-- Registering a list of fresh, named descriptors into a table whose first `k` slots
are occupied and whose other slots are empty fills the slots `k, k + 1, ..` in order. -/
theorem register_seq_fill {n : Nat} (ds : List Descriptor) :
    ∀ (t : Table n) (k : Nat), k + ds.length ≤ n →
      (∀ x : Fin n, x.val < k → (t x).name ≠ NULL) →
      (∀ x : Fin n, k ≤ x.val → (t x).name = NULL) →
      (∀ d ∈ ds, d.name ≠ NULL) → ds.Nodup →
      (∀ d ∈ ds, ∀ x : Fin n, x.val < k → t x ≠ d) →
      (register_seq register_hash t ds).1 =
          (List.range' k ds.length).map (fun j => Ret.value (j : Int)) ∧
      (∀ x : Fin n, x.val < k → (register_seq register_hash t ds).2 x = t x) ∧
      (∀ x : Fin n, k ≤ x.val → x.val < k + ds.length →
          (register_seq register_hash t ds).2 x ∈ ds) ∧
      (∀ x : Fin n, x.val < k + ds.length →
          ((register_seq register_hash t ds).2 x).name ≠ NULL) := by
  induction ds with
  | nil =>
    intro t k _ hocc _ _ _ _
    refine ⟨rfl, fun x _ => rfl, ?_, ?_⟩
    · intro x h1 h2; simp at h2; omega
    · intro x hx; simp at hx; exact hocc x hx
  | cons d ds ih =>
    intro t k hlen hocc hemp hname hnd hfresh
    simp only [List.length_cons] at hlen
    have hk : k < n := by omega
    have hdname : d.name ≠ NULL := hname d (List.mem_cons_self _ _)
    have hno : ∀ x : Fin n, t x ≠ d := by
      intro x
      by_cases hx : x.val < k
      · exact hfresh d (List.mem_cons_self _ _) x hx
      · intro e
        have := hemp x (by omega)
        rw [e] at this
        exact hdname this
    have hins := register_hash_insert t d ⟨k, hk⟩ hno (hemp ⟨k, hk⟩ (le_refl _))
      (fun j hj => hocc j hj)
    have hnd2 := List.nodup_cons.mp hnd
    have hstep := ih (Function.update t ⟨k, hk⟩ d) (k + 1) (by omega)
      (by
        intro x hx
        by_cases e : x = ⟨k, hk⟩
        · rw [e, Function.update_same]; exact hdname
        · rw [Function.update_noteq e]
          apply hocc
          have : x.val ≠ k := fun h => e (Fin.ext h)
          omega)
      (by
        intro x hx
        have e : x ≠ ⟨k, hk⟩ := by
          intro h; rw [h] at hx; simp at hx
        rw [Function.update_noteq e]
        exact hemp x (by omega))
      (fun d1 hd1 => hname d1 (List.mem_cons_of_mem _ hd1))
      hnd2.2
      (by
        intro d1 hd1 x hx
        by_cases e : x = ⟨k, hk⟩
        · rw [e, Function.update_same]
          intro h; rw [h] at hnd2; exact hnd2.1 hd1
        · rw [Function.update_noteq e]
          apply hfresh d1 (List.mem_cons_of_mem _ hd1)
          have : x.val ≠ k := fun h => e (Fin.ext h)
          omega)
    obtain ⟨s1, s2, s3, s4⟩ := hstep
    have hunf : register_seq register_hash t (d :: ds) =
        ((register_hash t (some d)).1 ::
          (register_seq register_hash (register_hash t (some d)).2 ds).1,
          (register_seq register_hash (register_hash t (some d)).2 ds).2) := rfl
    rw [hunf, hins]
    refine ⟨?_, ?_, ?_, ?_⟩
    · show Ret.value (k : Int) :: (register_seq register_hash (Function.update t ⟨k, hk⟩ d) ds).1 = _
      rw [s1]
      simp [List.range'_succ]
    · intro x hx
      show (register_seq register_hash (Function.update t ⟨k, hk⟩ d) ds).2 x = t x
      rw [s2 x (by omega)]
      have e : x ≠ ⟨k, hk⟩ := by
        intro h; rw [h] at hx; simp at hx
      rw [Function.update_noteq e]
    · intro x h1 h2
      show (register_seq register_hash (Function.update t ⟨k, hk⟩ d) ds).2 x ∈ d :: ds
      by_cases e : x.val = k
      · rw [s2 x (by omega)]
        have e2 : x = ⟨k, hk⟩ := Fin.ext e
        rw [e2, Function.update_same]
        exact List.mem_cons_self _ _
      · apply List.mem_cons_of_mem
        apply s3 x (by omega)
        simp only [List.length_cons] at h2
        omega
    · intro x hx
      show ((register_seq register_hash (Function.update t ⟨k, hk⟩ d) ds).2 x).name ≠ NULL
      apply s4 x
      simp only [List.length_cons] at hx
      omega

/-- The two ways `find_cipher` ends on a non-null name. -/
theorem find_cipher_cases {n : Nat} (mem : StrMem) (t : Table n) (name : Ptr)
    (hname : name ≠ NULL) :
    (∃ i : Fin n, (occupied t i ∧ mem (t i).name = mem name) ∧
        (∀ j : Fin n, j < i → ¬ (occupied t j ∧ mem (t j).name = mem name)) ∧
        find_cipher mem t name = (Ret.value (i.val : Int), t)) ∨
    ((∀ x : Fin n, ¬ (occupied t x ∧ mem (t x).name = mem name)) ∧
        find_cipher mem t name = (Ret.value (-1), t)) := by
  cases h1 : scan (fun x => decide ((t x).name ≠ NULL) &&
      decide (XSTRCMP mem (t x).name name = 0)) n 0 with
  | some i =>
    left
    have h1c := h1
    rw [scan_eq_some] at h1
    refine ⟨i, ?_, ?_, ?_⟩
    · simpa [occupied] using h1.1
    · intro j hj
      have := h1.2 j hj
      simpa [occupied] using this
    · simp only [find_cipher, hname, if_false, h1c]
  | none =>
    right
    have h1c := h1
    rw [scan_eq_none] at h1
    refine ⟨?_, ?_⟩
    · intro x
      have := h1 x
      simpa [occupied] using this
    · simp only [find_cipher, hname, if_false, h1c]

theorem fin_cast_inj {n : Nat} {a b : Fin n} (h : ((a.val : Nat) : Int) = (b.val : Int)) :
    a = b := by
  apply Fin.ext; omega

theorem fin_cast_ne_neg_one {n : Nat} (a : Fin n) : ((a.val : Nat) : Int) ≠ -1 := by
  omega

/-! ## Registry: the claims -/

/-- C1. Re-registration is idempotent: if `register_hash` (likewise `register_prng`)
of a descriptor `d` on a table `t` returns an index `i >= 0` and leaves the table
`t1`, then registering `d` again on `t1` returns the same `i` and leaves `t1`
unchanged, so the number of occupied slots does not grow. -/
theorem register_idempotent {n : Nat}
    (reg : Table n → Option Descriptor → Ret Int × Table n)
    (hreg : reg = register_hash ∨ reg = register_prng)
    (t t1 : Table n) (d : Descriptor) (i : Int) (hi : 0 ≤ i)
    (h : reg t (some d) = (Ret.value i, t1)) :
    reg t1 (some d) = (Ret.value i, t1) ∧
      occupiedCount (reg t1 (some d)).2 = occupiedCount t1 := by
  have e := reg_is_register_hash reg hreg
  subst e
  have h2 := register_hash_idem t t1 d i hi h
  exact ⟨h2, by rw [h2]⟩

/-- C2. When no slot of `t` is byte-identical to `d` and some slot is empty, register
returns the smallest index `i` whose slot is empty, the table left behind holds `d` at
slot `i`, and every other slot is unchanged. -/
theorem register_first_empty {n : Nat}
    (reg : Table n → Option Descriptor → Ret Int × Table n)
    (hreg : reg = register_hash ∨ reg = register_prng)
    (t : Table n) (d : Descriptor)
    (hno : ∀ x : Fin n, t x ≠ d) (hemp : ∃ x : Fin n, (t x).name = NULL) :
    ∃ i : Fin n, (t i).name = NULL ∧ (∀ j : Fin n, j < i → (t j).name ≠ NULL) ∧
      (reg t (some d)).1 = Ret.value (i.val : Int) ∧
      (reg t (some d)).2 i = d ∧
      ∀ j : Fin n, j ≠ i → (reg t (some d)).2 j = t j := by
  have e := reg_is_register_hash reg hreg
  subst e
  rcases register_hash_cases t d with ⟨i0, h1, _, _⟩ | ⟨_, i0, h1, h2, h3⟩ | ⟨_, hfull, _⟩
  · exact absurd h1 (hno i0)
  · refine ⟨i0, h1, h2, ?_, ?_, ?_⟩
    · rw [h3]
    · rw [h3]; simp
    · intro j hj; rw [h3]; exact Function.update_noteq hj d t
  · obtain ⟨x, hx⟩ := hemp
    exact absurd hx (hfull x)

/-- C3. When every slot of `t` is occupied and none is byte-identical to `d`, register
returns -1 and leaves the table unchanged. -/
theorem register_table_full {n : Nat}
    (reg : Table n → Option Descriptor → Ret Int × Table n)
    (hreg : reg = register_hash ∨ reg = register_prng)
    (t : Table n) (d : Descriptor)
    (hfull : ∀ x : Fin n, (t x).name ≠ NULL) (hno : ∀ x : Fin n, t x ≠ d) :
    reg t (some d) = (Ret.value (-1), t) := by
  have e := reg_is_register_hash reg hreg
  subst e
  exact register_hash_full t d hno hfull

/-- C4. Starting from a table whose slots are all empty, registering `TAB_SIZE`
pairwise distinct descriptors with non-null names one after another returns the
indices `0, 1, .., TAB_SIZE - 1` in that order, and registering one further descriptor
distinct from all of them then returns -1. -/
theorem register_up_to_capacity {n : Nat}
    (reg : Table n → Option Descriptor → Ret Int × Table n)
    (hreg : reg = register_hash ∨ reg = register_prng)
    (t0 : Table n) (h0 : ∀ x : Fin n, (t0 x).name = NULL)
    (ds : List Descriptor) (hlen : ds.length = n) (hnd : ds.Nodup)
    (hname : ∀ d ∈ ds, d.name ≠ NULL) :
    (register_seq reg t0 ds).1 = (List.range n).map (fun k => Ret.value (k : Int)) ∧
      ∀ e : Descriptor, e ∉ ds →
        (reg (register_seq reg t0 ds).2 (some e)).1 = Ret.value (-1) := by
  have e := reg_is_register_hash reg hreg
  subst e
  obtain ⟨s1, _, s3, s4⟩ := register_seq_fill ds t0 0 (by omega)
    (fun x hx => by omega) (fun x _ => h0 x) hname hnd (fun d _ x hx => by omega)
  refine ⟨?_, ?_⟩
  · rw [s1, hlen, List.range_eq_range']
  · intro e he
    rw [register_hash_full _ e]
    · intro x hx
      have := s3 x (Nat.zero_le _) (by have := x.isLt; omega)
      rw [hx] at this
      exact he this
    · intro x
      exact s4 x (by have := x.isLt; omega)

/-- C5. Register preserves the no-duplicates invariant: if no two occupied slots of `t`
hold byte-identical descriptors, the same is true of the table after register, for
every argument (a null pointer included). -/
theorem register_preserves_nodup {n : Nat}
    (reg : Table n → Option Descriptor → Ret Int × Table n)
    (hreg : reg = register_hash ∨ reg = register_prng)
    (t : Table n) (d : Option Descriptor) (h : NoDup t) :
    NoDup (reg t d).2 := by
  have e := reg_is_register_hash reg hreg
  subst e
  exact register_hash_nodup t d h

/-- C6, as stated, fails: with `descA` ("fortuna", other contents) in slot 0 and slot 1
empty, `register_prng` of `descB` (same name, not byte-identical) returns 1, and
`find_prng` of that name on the resulting table returns 0. -/
theorem find_after_register_counterexample :
    descB.name ≠ NULL ∧
    register_prng tableA (some descB) = (Ret.value 1, tableAB) ∧
    (0 : Int) ≤ 1 ∧
    find_prng strMem tableAB descB.name = (Ret.value 0, tableAB) ∧
    (Ret.value 0 : Ret Int) ≠ Ret.value 1 := by
  refine ⟨by decide, ?_, by decide, ?_, by decide⟩
  · apply Prod.ext
    · decide
    · funext x
      fin_cases x <;> rfl
  · apply Prod.ext
    · decide
    · rfl

/-- C6, amended. If `register_prng` of a descriptor `d` with a non-null name returns an
index `i >= 0` and leaves the table `t1`, then `find_prng` of `d.name` on `t1` returns
the smallest index `j` of an occupied slot carrying that name; `j <= i`, and `j = i`
exactly when no occupied slot of `t` below `i` carries a name equal to that of `d`. -/
theorem find_after_register {n : Nat} (mem : StrMem) (t t1 : Table n) (d : Descriptor)
    (i : Int) (hname : d.name ≠ NULL) (hi : 0 ≤ i)
    (h : register_prng t (some d) = (Ret.value i, t1)) :
    ∃ j : Fin n, find_prng mem t1 d.name = (Ret.value (j.val : Int), t1) ∧
      (j.val : Int) ≤ i ∧ occupied t1 j ∧ mem (t1 j).name = mem d.name ∧
      (∀ x : Fin n, x < j → ¬ (occupied t1 x ∧ mem (t1 x).name = mem d.name)) ∧
      ((j.val : Int) = i ↔
        ∀ x : Fin n, (x.val : Int) < i → ¬ (occupied t x ∧ mem (t x).name = mem d.name)) := by
  rw [register_prng_eq_register_hash] at h
  rw [find_prng_eq_find_cipher]
  -- the slot `i0` that register returned holds `d`, and the slots below it are those of `t`
  have key : ∃ i0 : Fin n, (i0.val : Int) = i ∧ t1 i0 = d ∧
      ∀ x : Fin n, x < i0 → t1 x = t x := by
    rcases register_hash_cases t d with ⟨i0, h1, _, h3⟩ | ⟨_, i0, _, _, h3⟩ | ⟨_, _, h3⟩
    · rw [h3] at h
      have e1 : (i0.val : Int) = i := ret_value_inj (congrArg Prod.fst h)
      have e2 : t = t1 := congrArg Prod.snd h
      subst e2
      exact ⟨i0, e1, h1, fun _ _ => rfl⟩
    · rw [h3] at h
      have e1 : (i0.val : Int) = i := ret_value_inj (congrArg Prod.fst h)
      have e2 : Function.update t i0 d = t1 := congrArg Prod.snd h
      subst e2
      exact ⟨i0, e1, by simp, fun x hx => Function.update_noteq (Fin.ne_of_lt hx) d t⟩
    · rw [h3] at h
      have e1 : (-1 : Int) = i := ret_value_inj (congrArg Prod.fst h)
      omega
  obtain ⟨i0, e1, hd, hbelow⟩ := key
  have hq : occupied t1 i0 ∧ mem (t1 i0).name = mem d.name := by
    rw [occupied, hd]; exact ⟨hname, rfl⟩
  rcases find_cipher_cases mem t1 d.name hname with ⟨j, hj1, hj2, hj3⟩ | ⟨hnone, _⟩
  · have hle : j ≤ i0 := by
      by_contra hlt
      exact hj2 i0 (lt_of_not_ge hlt) hq
    have hle2 : j.val ≤ i0.val := hle
    refine ⟨j, hj3, by omega, hj1.1, hj1.2, hj2, ?_⟩
    constructor
    · intro hji x hx
      have hji2 : j = i0 := fin_cast_inj (by omega)
      have hxj : x < j := by
        rw [hji2]; show x.val < i0.val; omega
      have := hj2 x hxj
      rw [hji2] at hxj
      rw [occupied, hbelow x hxj] at this
      exact this
    · intro hall
      rw [← e1]
      by_contra hne
      have hlt : j < i0 := by
        show j.val < i0.val
        have : j.val ≠ i0.val := fun e => hne (by omega)
        omega
      have := hall j (by have : j.val < i0.val := hlt; omega)
      rw [occupied, ← hbelow j hlt] at this
      exact this hj1
  · exact absurd hq (hnone i0)

/-- C7. `find_cipher` (and `find_prng`) of a non-null name returns the smallest index
whose slot is occupied and whose name equals the given name byte for byte, returns -1
exactly when no occupied slot has that name, and leaves the table unchanged. -/
theorem find_first_match {n : Nat}
    (find : StrMem → Table n → Ptr → Ret Int × Table n)
    (hfind : find = find_cipher ∨ find = find_prng)
    (mem : StrMem) (t : Table n) (name : Ptr) (hname : name ≠ NULL) :
    (find mem t name).2 = t ∧
    (∀ i : Fin n, (find mem t name).1 = Ret.value (i.val : Int) ↔
      ((occupied t i ∧ mem (t i).name = mem name) ∧
        ∀ j : Fin n, j < i → ¬ (occupied t j ∧ mem (t j).name = mem name))) ∧
    ((find mem t name).1 = Ret.value (-1) ↔
      ∀ x : Fin n, ¬ (occupied t x ∧ mem (t x).name = mem name)) ∧
    ((find mem t name).1 = Ret.value (-1) ∨
      ∃ i : Fin n, (find mem t name).1 = Ret.value (i.val : Int)) := by
  have e := find_is_find_cipher find hfind
  subst e
  rcases find_cipher_cases mem t name hname with ⟨i0, h1, h2, h3⟩ | ⟨hnone, h3⟩
  · rw [h3]
    refine ⟨rfl, ?_, ?_, Or.inr ⟨i0, rfl⟩⟩
    · intro i
      constructor
      · intro h
        have e : i0 = i := fin_cast_inj (ret_value_inj h)
        subst e
        exact ⟨h1, h2⟩
      · rintro ⟨g1, g2⟩
        have e : i0 = i := by
          rcases lt_trichotomy i0 i with hlt | heq | hgt
          · exact absurd h1 (g2 i0 hlt)
          · exact heq
          · exact absurd g1 (h2 i hgt)
        rw [e]
    · constructor
      · intro h
        exact absurd (ret_value_inj h) (fin_cast_ne_neg_one i0)
      · intro h
        exact absurd h1 (h i0)
  · rw [h3]
    refine ⟨rfl, ?_, ?_, Or.inl rfl⟩
    · intro i
      constructor
      · intro h
        exact absurd (ret_value_inj h).symm (fin_cast_ne_neg_one i)
      · rintro ⟨g1, _⟩
        exact absurd g1 (hnone i)
    · exact ⟨fun _ => hnone, fun _ => rfl⟩

/-- C8. `cipher_is_valid(idx)` returns `CRYPT_OK` if and only if `0 <= idx < TAB_SIZE`
and slot `idx` is occupied; for every other `idx`, negative or `>= TAB_SIZE` included,
it returns `CRYPT_INVALID_CIPHER`; it never reads outside the table (the result is
never `none`) and it leaves the table unchanged. -/
theorem cipher_is_valid_iff {n : Nat} (t : Table n) (idx : Int) :
    (cipher_is_valid t idx).2 = t ∧
    ((cipher_is_valid t idx).1 = some Err.CRYPT_OK ↔
      ∃ x : Fin n, (x.val : Int) = idx ∧ (t x).name ≠ NULL) ∧
    ((cipher_is_valid t idx).1 = some Err.CRYPT_INVALID_CIPHER ↔
      ¬ ∃ x : Fin n, (x.val : Int) = idx ∧ (t x).name ≠ NULL) ∧
    (idx < 0 ∨ (n : Int) ≤ idx → (cipher_is_valid t idx).1 = some Err.CRYPT_INVALID_CIPHER) := by
  by_cases h1 : idx < 0
  · have hv : cipher_is_valid t idx = (some Err.CRYPT_INVALID_CIPHER, t) := by
      simp only [cipher_is_valid, h1, if_true]
    have hne : ¬ ∃ x : Fin n, (x.val : Int) = idx ∧ (t x).name ≠ NULL := by
      rintro ⟨x, hx, _⟩; omega
    rw [hv]
    exact ⟨rfl, ⟨fun h => (by cases h), fun h => absurd h hne⟩, ⟨fun _ => hne, fun _ => rfl⟩,
      fun _ => rfl⟩
  · by_cases h2 : idx ≥ (n : Int)
    · have hv : cipher_is_valid t idx = (some Err.CRYPT_INVALID_CIPHER, t) := by
        simp only [cipher_is_valid, h1, h2, if_true, if_false]
      have hne : ¬ ∃ x : Fin n, (x.val : Int) = idx ∧ (t x).name ≠ NULL := by
        rintro ⟨x, hx, _⟩; have := x.isLt; omega
      rw [hv]
      exact ⟨rfl, ⟨fun h => (by cases h), fun h => absurd h hne⟩, ⟨fun _ => hne, fun _ => rfl⟩,
        fun _ => rfl⟩
    · have hb : 0 ≤ idx ∧ idx < (n : Int) := by omega
      have hlt : idx.toNat < n := by omega
      have hr : t.read idx = some (t ⟨idx.toNat, hlt⟩) := by
        simp only [Table.read, hb, and_self, dite_true]
      have hcast : ((idx.toNat : Nat) : Int) = idx := by omega
      by_cases h3 : (t ⟨idx.toNat, hlt⟩).name = NULL
      · have hv : cipher_is_valid t idx = (some Err.CRYPT_INVALID_CIPHER, t) := by
          simp only [cipher_is_valid, h1, h2, if_false, hr, h3, if_true]
        have hne : ¬ ∃ x : Fin n, (x.val : Int) = idx ∧ (t x).name ≠ NULL := by
          rintro ⟨x, hx, hx2⟩
          have e : x = ⟨idx.toNat, hlt⟩ := by apply Fin.ext; simp; omega
          rw [e] at hx2
          exact hx2 h3
        rw [hv]
        exact ⟨rfl, ⟨fun h => (by cases h), fun h => absurd h hne⟩,
          ⟨fun _ => hne, fun _ => rfl⟩, fun _ => rfl⟩
      · have hv : cipher_is_valid t idx = (some Err.CRYPT_OK, t) := by
          simp only [cipher_is_valid, h1, h2, if_false, hr, h3]
        have hex : ∃ x : Fin n, (x.val : Int) = idx ∧ (t x).name ≠ NULL :=
          ⟨⟨idx.toNat, hlt⟩, hcast, h3⟩
        rw [hv]
        refine ⟨rfl, ⟨fun _ => hex, fun _ => rfl⟩, ⟨fun h => (by cases h), fun h => absurd hex h⟩, ?_⟩
        intro h; omega

/-- C9, as stated, fails: a descriptor whose name is `NULL` is not rejected.  On a table
of two cleared slots, registering `descNoName` returns the slot index 0 and writes the
record into slot 0. -/
theorem register_null_name_counterexample :
    descNoName.name = NULL ∧
    (register_hash emptyTable2 (some descNoName)).1 = Ret.value 0 ∧
    (register_hash emptyTable2 (some descNoName)).2 0 = descNoName ∧
    (register_hash emptyTable2 (some descNoName)).2 ≠ emptyTable2 ∧
    (register_prng emptyTable2 (some descNoName)).1 = Ret.value 0 ∧
    (register_prng emptyTable2 (some descNoName)).2 ≠ emptyTable2 := by
  have h : register_hash emptyTable2 (some descNoName) =
      (Ret.value 0, Function.update emptyTable2 0 descNoName) := rfl
  have hne : Function.update emptyTable2 0 descNoName ≠ emptyTable2 := by
    intro e
    have := congrFun e 0
    simp [emptyTable2, emptySlot, descNoName] at this
  refine ⟨rfl, ?_, ?_, ?_, ?_, ?_⟩
  · rw [h]
  · rw [h]; rfl
  · rw [h]; exact hne
  · rw [register_prng_eq_register_hash, h]
  · rw [register_prng_eq_register_hash, h]; exact hne

/-- C9, amended. Register rejects a null descriptor pointer: the argument check fails,
no slot index is returned and the table is unchanged.  A non-null descriptor is not
rejected for having a `NULL` name: whenever the table holds a byte-identical slot or an
empty slot, register returns a slot index. -/
theorem register_rejects_null {n : Nat}
    (reg : Table n → Option Descriptor → Ret Int × Table n)
    (hreg : reg = register_hash ∨ reg = register_prng) (t : Table n) :
    reg t none = (Ret.argchk_failed, t) ∧
    ∀ d : Descriptor, d.name = NULL →
      ((∃ x : Fin n, t x = d) ∨ (∃ x : Fin n, (t x).name = NULL)) →
      ∃ i : Fin n, (reg t (some d)).1 = Ret.value (i.val : Int) := by
  have e := reg_is_register_hash reg hreg
  subst e
  refine ⟨rfl, ?_⟩
  intro d _ hslot
  rcases register_hash_cases t d with ⟨i0, _, _, h3⟩ | ⟨_, i0, _, _, h3⟩ | ⟨hno, hfull, _⟩
  · exact ⟨i0, by rw [h3]⟩
  · exact ⟨i0, by rw [h3]⟩
  · rcases hslot with ⟨x, hx⟩ | ⟨x, hx⟩
    · exact absurd hx (hno x)
    · exact absurd hx (hfull x)

/-! ## Fortuna: the claims -/

/-- Reading from a state that is not ready, or that is ready with fewer than 64 bytes
in pool 0 and no reseed so far, returns 0 and changes nothing. -/
theorem fortuna_read_unseeded {POOLS : Nat} {HashState SKey : Type}
    (P : Primitives HashState SKey) (rl : RateLimit) (now : Nat)
    (buf : List Nat) (outlen : Nat) (s : prng_state POOLS HashState SKey)
    (h : s.ready = false ∨ (s.ready = true ∧ s.pool0_len < 64 ∧ s.reset_cnt = 0)) :
    fortuna_read P rl now (some buf) outlen (some s) = (0, some buf, some s) := by
  unfold fortuna_read
  by_cases h0 : outlen = 0
  · simp only [h0, if_true]
  · simp only [h0, if_false]
    rcases h with h | ⟨h1, h2, h3⟩
    · simp only [h, if_true]
    · have h64 : ¬ 64 ≤ s.pool0_len := by omega
      simp [h1, h64, h3]

/-- The state left by `fortuna_start` is not ready, whatever the result code. -/
theorem fortuna_start_not_ready {POOLS : Nat} {HashState SKey : Type}
    (P : Primitives HashState SKey) (s0 : prng_state POOLS HashState SKey) :
    (fortuna_start P s0).2.ready = false := by
  unfold fortuna_start
  simp only
  split
  · rfl
  · split <;> rfl

/-- C10. Read refuses an unseeded generator: if `s.ready` is false, or `s.ready` is
true with `pool0_len < 64` and `reset_cnt == 0`, then `fortuna_read` of any length
returns 0, leaves the output buffer as it was and leaves the whole state (key, counter,
pools, `pool0_len`, `reset_cnt`, rate-limit state) unchanged; the state produced by
`fortuna_start` is such a state. -/
theorem fortuna_read_refuses_unseeded {POOLS : Nat} {HashState SKey : Type}
    (P : Primitives HashState SKey) (rl : RateLimit) (now : Nat)
    (buf : List Nat) (outlen : Nat) (s : prng_state POOLS HashState SKey)
    (h : s.ready = false ∨ (s.ready = true ∧ s.pool0_len < 64 ∧ s.reset_cnt = 0)) :
    fortuna_read P rl now (some buf) outlen (some s) = (0, some buf, some s) ∧
    ∀ s0 : prng_state POOLS HashState SKey,
      fortuna_read P rl now (some buf) outlen (some (fortuna_start P s0).2) =
        (0, some buf, some (fortuna_start P s0).2) :=
  ⟨fortuna_read_unseeded P rl now buf outlen s h,
    fun s0 => fortuna_read_unseeded P rl now buf outlen _
      (Or.inl (fortuna_start_not_ready P s0))⟩

/-! ## The claims at concrete inputs -/

theorem update_emptyTable2 : Function.update emptyTable2 0 descA = tableA := by
  funext x
  fin_cases x <;> rfl

/-- Registering `descA` on the cleared table gives index 0 and `tableA`; registering it
again on `tableA` gives index 0 and `tableA`. -/
theorem register_idempotent_witness :
    register_hash emptyTable2 (some descA) = (Ret.value 0, tableA) ∧
    (register_hash tableA (some descA) = (Ret.value 0, tableA) ∧
      occupiedCount (register_hash tableA (some descA)).2 = occupiedCount tableA) :=
  ⟨Prod.ext rfl update_emptyTable2,
    register_idempotent register_hash (Or.inl rfl) emptyTable2 tableA descA 0 (by decide)
      (Prod.ext rfl update_emptyTable2)⟩

/-- On `tableA`, `descC` is new and slot 1 is empty. -/
theorem register_first_empty_witness :
    ∃ i : Fin 2, (tableA i).name = NULL ∧ (∀ j : Fin 2, j < i → (tableA j).name ≠ NULL) ∧
      (register_prng tableA (some descC)).1 = Ret.value (i.val : Int) ∧
      (register_prng tableA (some descC)).2 i = descC ∧
      ∀ j : Fin 2, j ≠ i → (register_prng tableA (some descC)).2 j = tableA j :=
  register_first_empty register_prng (Or.inr rfl) tableA descC (by decide) ⟨1, rfl⟩

/-- The table `tableAB` is full and does not hold `descC`. -/
theorem register_table_full_witness :
    register_hash tableAB (some descC) = (Ret.value (-1), tableAB) :=
  register_table_full register_hash (Or.inl rfl) tableAB descC (by decide) (by decide)

/-- Filling a table of two slots with `descA` and `descC`. -/
theorem register_up_to_capacity_witness :
    (register_seq register_hash emptyTable2 [descA, descC]).1 =
        (List.range 2).map (fun k => Ret.value (k : Int)) ∧
      ∀ e : Descriptor, e ∉ [descA, descC] →
        (register_hash (register_seq register_hash emptyTable2 [descA, descC]).2 (some e)).1 =
          Ret.value (-1) :=
  register_up_to_capacity register_hash (Or.inl rfl) emptyTable2 (fun _ => rfl)
    [descA, descC] rfl (by decide) (by decide)

/-- The table `tableA` has no duplicates, and none after registering `descB`. -/
theorem register_preserves_nodup_witness :
    NoDup tableA ∧ NoDup (register_hash tableA (some descB)).2 :=
  have h : NoDup tableA := by unfold NoDup occupied; decide
  ⟨h, register_preserves_nodup register_hash (Or.inl rfl) tableA (some descB) h⟩

/-- Registering `descA` on the cleared table and looking its name up. -/
theorem find_after_register_witness :
    ∃ j : Fin 2, find_prng strMem tableA descA.name = (Ret.value (j.val : Int), tableA) ∧
      (j.val : Int) ≤ 0 ∧ occupied tableA j ∧ strMem (tableA j).name = strMem descA.name ∧
      (∀ x : Fin 2, x < j →
        ¬ (occupied tableA x ∧ strMem (tableA x).name = strMem descA.name)) ∧
      ((j.val : Int) = 0 ↔
        ∀ x : Fin 2, (x.val : Int) < 0 →
          ¬ (occupied emptyTable2 x ∧ strMem (emptyTable2 x).name = strMem descA.name)) :=
  find_after_register strMem emptyTable2 tableA descA 0 (by decide) (by decide)
    (Prod.ext rfl update_emptyTable2)

/-- Looking up the name at address 1 in `tableAB`. -/
theorem find_first_match_witness :
    (1 : Ptr) ≠ NULL ∧ (find_cipher strMem tableAB 1).2 = tableAB ∧
      (find_cipher strMem tableAB 1).1 = Ret.value 0 :=
  have h := find_first_match find_cipher (Or.inl rfl) strMem tableAB 1 (by decide)
  ⟨by decide, h.1,
    (h.2.1 0).mpr ⟨⟨by decide, rfl⟩, fun j hj => absurd hj (Fin.not_lt_zero j)⟩⟩

/-- A null descriptor pointer, and a record with a `NULL` name, on the cleared table. -/
theorem register_rejects_null_witness :
    register_hash emptyTable2 none = (Ret.argchk_failed, emptyTable2) ∧
      ∃ i : Fin 2, (register_hash emptyTable2 (some descNoName)).1 = Ret.value (i.val : Int) :=
  have h := register_rejects_null register_hash (Or.inl rfl) emptyTable2
  ⟨h.1, h.2 descNoName rfl (Or.inr ⟨0, rfl⟩)⟩

/-- A read of four bytes from the cleared state, which is not ready. -/
theorem fortuna_read_refuses_unseeded_witness :
    zeroState.ready = false ∧
    fortuna_read toyPrimitives (RateLimit.STATIC 10) 0 (some [9, 9, 9, 9]) 4 (some zeroState) =
      (0, some [9, 9, 9, 9], some zeroState) :=
  ⟨rfl, (fortuna_read_refuses_unseeded toyPrimitives (RateLimit.STATIC 10) 0 [9, 9, 9, 9] 4
    zeroState (Or.inl rfl)).1⟩

/-! ## Facts about buffers and the block loop of `fortuna_read` -/

theorem store_length (buf : List Nat) (off : Nat) (bytes : List Nat)
    (h : off + bytes.length ≤ buf.length) : (store buf off bytes).length = buf.length := by
  unfold store
  simp only [List.length_append, List.length_take, List.length_drop]
  omega

theorem store_drop (buf : List Nat) (off : Nat) (bytes : List Nat) (k : Nat)
    (h : off ≤ buf.length) (hk : off + bytes.length ≤ k) :
    (store buf off bytes).drop k = buf.drop k := by
  unfold store
  have h1 : (List.take off buf ++ bytes).length = off + bytes.length := by
    simp only [List.length_append, List.length_take]; omega
  rw [List.drop_append_eq_append_drop]
  have h2 : List.drop k (List.take off buf ++ bytes) = [] := by
    apply List.drop_eq_nil_of_le; omega
  rw [h2, h1, List.nil_append, List.drop_drop]
  congr 1
  omega

/-- The counters of the loop over whole blocks, whatever the cipher stores. -/
theorem read_blocks_counts {HashState SKey : Type} (P : Primitives HashState SKey)
    (skey : SKey) :
    ∀ (outlen : Nat) (buf : List Nat) (off : Nat) (IV : List Nat),
      (read_blocks P skey outlen buf off IV).2.1 = off + 16 * (outlen / 16) ∧
      (read_blocks P skey outlen buf off IV).2.2.1 = outlen % 16 ∧
      (read_blocks P skey outlen buf off IV).2.2.2 =
        Nat.iterate _fortuna_update_iv (outlen / 16) IV := by
  intro outlen
  induction outlen using Nat.strong_induction_on with
  | _ outlen ih =>
    intro buf off IV
    by_cases h16 : 16 ≤ outlen
    · rw [read_blocks, if_pos h16]
      obtain ⟨a4, a5, a6⟩ := ih (outlen - 16) (by omega)
        (store buf off (P.rijndael_ecb_encrypt IV skey).2) (off + 16) (_fortuna_update_iv IV)
      have e2 : outlen / 16 = (outlen - 16) / 16 + 1 := by omega
      refine ⟨?_, ?_, ?_⟩
      · rw [a4]; omega
      · rw [a5]; omega
      · rw [a6, e2, Function.iterate_succ_apply]
    · rw [read_blocks, if_neg h16]
      have e0 : outlen / 16 = 0 := by omega
      refine ⟨by simp [e0], by simp; omega, by simp [e0]⟩

/-- The counter after the output blocks of a read of `outlen` bytes: one step per
block, the partial last block included. -/
theorem read_iv_after_output {HashState SKey : Type} (P : Primitives HashState SKey)
    (skey : SKey) (outlen : Nat) (buf : List Nat) (IV : List Nat) :
    (if 0 < (read_blocks P skey outlen buf 0 IV).2.2.1 then
        _fortuna_update_iv (read_blocks P skey outlen buf 0 IV).2.2.2
      else (read_blocks P skey outlen buf 0 IV).2.2.2) =
      Nat.iterate _fortuna_update_iv ((outlen + 15) / 16) IV := by
  obtain ⟨_, a5, a6⟩ := read_blocks_counts P skey outlen buf 0 IV
  rw [a5, a6]
  by_cases h : 0 < outlen % 16
  · have e : (outlen + 15) / 16 = outlen / 16 + 1 := by omega
    rw [if_pos h, e, Function.iterate_succ_apply']
  · have e : (outlen + 15) / 16 = outlen / 16 := by omega
    rw [if_neg h, e]

/-! ## Facts about the reseed -/

theorem reseed_pools_ok {POOLS : Nat} {HashState SKey : Type} (P : Primitives HashState SKey)
    (hP : P.succeed) (rc : Nat) :
    ∀ (k x : Nat) (md : HashState) (pool : Fin POOLS → HashState),
      (reseed_pools P rc k x md pool).1 = Err.CRYPT_OK := by
  obtain ⟨h1, h2, h3, _, _⟩ := hP
  intro k
  induction k with
  | zero => intro x md pool; rfl
  | succ k ih =>
    intro x md pool
    unfold reseed_pools
    by_cases hx : x < POOLS
    · simp only [hx, dite_true]
      by_cases hc : x = 0 ∨ (rc >>> (x - 1)) &&& 1 = 0
      · simp only [hc, if_true, h3, h2, h1, ne_eq, not_true_eq_false, if_false]
        exact ih _ _ _
      · simp only [hc, if_false]
    · simp only [hx, dite_false]

/-- What `reseed_body` does to the counters and flags, by result code. -/
theorem reseed_body_fields {POOLS : Nat} {HashState SKey : Type}
    (P : Primitives HashState SKey) (rl : RateLimit) (now : Nat)
    (s : prng_state POOLS HashState SKey) :
    (reseed_body P rl now s).2.ready = s.ready ∧
    (reseed_body P rl now s).2.pool_idx = s.pool_idx ∧
    ((reseed_body P rl now s).1 = Err.CRYPT_OK →
      (reseed_body P rl now s).2.reset_cnt = (s.reset_cnt + 1) % 2 ^ 64 ∧
      (reseed_body P rl now s).2.pool0_len = 0) ∧
    ((reseed_body P rl now s).1 ≠ Err.CRYPT_OK →
      (reseed_body P rl now s).2.reset_cnt = s.reset_cnt ∧
      (reseed_body P rl now s).2.pool0_len = s.pool0_len ∧
      (reseed_body P rl now s).2.wd = s.wd) := by
  unfold reseed_body
  simp only
  split_ifs <;> simp_all

theorem reseed_body_ok {POOLS : Nat} {HashState SKey : Type}
    (P : Primitives HashState SKey) (hP : P.succeed) (rl : RateLimit) (now : Nat)
    (s : prng_state POOLS HashState SKey) :
    (reseed_body P rl now s).1 = Err.CRYPT_OK := by
  have hp := @reseed_pools_ok POOLS HashState SKey P hP
  obtain ⟨_, h2, h3, h4, _⟩ := hP
  unfold reseed_body
  simp only [h2, h3, h4, hp, ne_eq, not_true_eq_false, if_false]

/-- The reseed attempt that the rate limiter lets through runs `reseed_body`. -/
theorem reseed_of_permitted {POOLS : Nat} {HashState SKey : Type}
    (P : Primitives HashState SKey) (rl : RateLimit) (now : Nat)
    (s : prng_state POOLS HashState SKey) (h : reseed_permitted rl now s) :
    ∃ s1 : prng_state POOLS HashState SKey,
      _fortuna_reseed P rl now s = reseed_body P rl now s1 ∧
      s1.reset_cnt = s.reset_cnt ∧ s1.ready = s.ready ∧ s1.pool_idx = s.pool_idx ∧
      s1.pool0_len = s.pool0_len := by
  cases rl with
  | TIMED =>
    refine ⟨s, ?_, rfl, rfl, rfl, rfl⟩
    have h1 : ¬ now = s.wd := h
    simp only [_fortuna_reseed, h1, if_false]
  | STATIC wdmax =>
    refine ⟨{ s with wd := (s.wd + 1) % 2 ^ 64 }, ?_, rfl, rfl, rfl, rfl⟩
    have h1 : ¬ ((s.wd + 1) % 2 ^ 64 < wdmax) := h
    simp only [_fortuna_reseed, h1, if_false]

/-- The reseed attempt that the rate limiter stops returns `CRYPT_OK` and changes at
most `wd`. -/
theorem reseed_of_not_permitted {POOLS : Nat} {HashState SKey : Type}
    (P : Primitives HashState SKey) (rl : RateLimit) (now : Nat)
    (s : prng_state POOLS HashState SKey) (h : ¬ reseed_permitted rl now s) :
    (_fortuna_reseed P rl now s).1 = Err.CRYPT_OK ∧
    (_fortuna_reseed P rl now s).2 =
      { s with wd := (match rl with
          | RateLimit.TIMED => s.wd
          | RateLimit.STATIC _ => (s.wd + 1) % 2 ^ 64) } := by
  cases rl with
  | TIMED =>
    have h1 : now = s.wd := by
      by_contra hne; exact h hne
    simp only [_fortuna_reseed, h1, if_true, and_self]
  | STATIC wdmax =>
    have h1 : (s.wd + 1) % 2 ^ 64 < wdmax := by
      by_contra hne; exact h hne
    simp only [_fortuna_reseed, h1, if_true, and_self]

/-- What `_fortuna_reseed` does to the counters and flags. -/
theorem reseed_fields {POOLS : Nat} {HashState SKey : Type}
    (P : Primitives HashState SKey) (rl : RateLimit) (now : Nat)
    (s : prng_state POOLS HashState SKey) :
    (_fortuna_reseed P rl now s).2.ready = s.ready ∧
    (_fortuna_reseed P rl now s).2.pool_idx = s.pool_idx ∧
    (((_fortuna_reseed P rl now s).2.reset_cnt = s.reset_cnt ∧
        (_fortuna_reseed P rl now s).2.pool0_len = s.pool0_len) ∨
      ((_fortuna_reseed P rl now s).1 = Err.CRYPT_OK ∧
        (_fortuna_reseed P rl now s).2.reset_cnt = (s.reset_cnt + 1) % 2 ^ 64 ∧
        (_fortuna_reseed P rl now s).2.pool0_len = 0)) := by
  by_cases h : reseed_permitted rl now s
  · obtain ⟨s1, e, c1, c2, c3, c4⟩ := reseed_of_permitted P rl now s h
    obtain ⟨f1, f2, f3, f4⟩ := reseed_body_fields P rl now s1
    rw [e]
    refine ⟨by rw [f1, c2], by rw [f2, c3], ?_⟩
    by_cases hok : (reseed_body P rl now s1).1 = Err.CRYPT_OK
    · right
      obtain ⟨g1, g2⟩ := f3 hok
      exact ⟨hok, by rw [g1, c1], g2⟩
    · left
      obtain ⟨g1, g2, _⟩ := f4 hok
      exact ⟨by rw [g1, c1], by rw [g2, c4]⟩
  · obtain ⟨_, e⟩ := reseed_of_not_permitted P rl now s h
    rw [e]
    exact ⟨rfl, rfl, Or.inl ⟨rfl, rfl⟩⟩

/-! ## Facts about `fortuna_read` -/

/-- The state after optional reseed, as `fortuna_read` computes it (lines 386-391). -/
theorem fortuna_read_early {POOLS : Nat} {HashState SKey : Type}
    (P : Primitives HashState SKey) (rl : RateLimit) (now : Nat)
    (buf : List Nat) (outlen : Nat) (s : prng_state POOLS HashState SKey)
    (hn : outlen ≠ 0) (hr : s.ready = true)
    (h : (if 64 ≤ s.pool0_len then _fortuna_reseed P rl now s else (Err.CRYPT_OK, s)).1 ≠
          Err.CRYPT_OK ∨
        (if 64 ≤ s.pool0_len then _fortuna_reseed P rl now s else (Err.CRYPT_OK, s)).2.reset_cnt
          = 0) :
    fortuna_read P rl now (some buf) outlen (some s) =
      (0, some buf, some
        (if 64 ≤ s.pool0_len then _fortuna_reseed P rl now s else (Err.CRYPT_OK, s)).2) := by
  unfold fortuna_read
  simp only [hn, if_false, hr]
  rcases h with h | h
  · simp [h]
  · by_cases h1 : (if 64 ≤ s.pool0_len then _fortuna_reseed P rl now s
        else (Err.CRYPT_OK, s)).1 = Err.CRYPT_OK
    · simp [h1, h]
    · simp [h1]

/-- The generating path of `fortuna_read` (lines 398-426): the state `s1` after the
optional reseed is seeded; `IVa` is the counter after the output blocks. -/
theorem fortuna_read_generate {POOLS : Nat} {HashState SKey : Type}
    (P : Primitives HashState SKey) (rl : RateLimit) (now : Nat)
    (buf : List Nat) (outlen : Nat) (s s1 : prng_state POOLS HashState SKey)
    (hn : outlen ≠ 0) (hr : s.ready = true)
    (hrs : (if 64 ≤ s.pool0_len then _fortuna_reseed P rl now s else (Err.CRYPT_OK, s)) =
      (Err.CRYPT_OK, s1))
    (hc : s1.reset_cnt ≠ 0) :
    fortuna_read P rl now (some buf) outlen (some s) =
      ((if (P.rijndael_setup
            ((store (store s1.K 0
              (P.rijndael_ecb_encrypt
                (Nat.iterate _fortuna_update_iv ((outlen + 15) / 16) s1.IV) s1.skey).2) 16
              (P.rijndael_ecb_encrypt
                (_fortuna_update_iv
                  (Nat.iterate _fortuna_update_iv ((outlen + 15) / 16) s1.IV)) s1.skey).2).take
                32) 0).1 ≠ Err.CRYPT_OK then 0 else outlen),
        some (if 0 < (read_blocks P s1.skey outlen buf 0 s1.IV).2.2.1 then
            store (read_blocks P s1.skey outlen buf 0 s1.IV).1
              (read_blocks P s1.skey outlen buf 0 s1.IV).2.1
              ((P.rijndael_ecb_encrypt (read_blocks P s1.skey outlen buf 0 s1.IV).2.2.2
                s1.skey).2.take (read_blocks P s1.skey outlen buf 0 s1.IV).2.2.1)
          else (read_blocks P s1.skey outlen buf 0 s1.IV).1),
        some { s1 with
          K := store (store s1.K 0
              (P.rijndael_ecb_encrypt
                (Nat.iterate _fortuna_update_iv ((outlen + 15) / 16) s1.IV) s1.skey).2) 16
              (P.rijndael_ecb_encrypt
                (_fortuna_update_iv
                  (Nat.iterate _fortuna_update_iv ((outlen + 15) / 16) s1.IV)) s1.skey).2
          IV := _fortuna_update_iv (_fortuna_update_iv
              (Nat.iterate _fortuna_update_iv ((outlen + 15) / 16) s1.IV))
          skey := (P.rijndael_setup
            ((store (store s1.K 0
              (P.rijndael_ecb_encrypt
                (Nat.iterate _fortuna_update_iv ((outlen + 15) / 16) s1.IV) s1.skey).2) 16
              (P.rijndael_ecb_encrypt
                (_fortuna_update_iv
                  (Nat.iterate _fortuna_update_iv ((outlen + 15) / 16) s1.IV)) s1.skey).2).take
                32) 0).2 }) := by
  have hiv := read_iv_after_output P s1.skey outlen buf s1.IV
  unfold fortuna_read
  simp only [hn, if_false, hr, hrs, ne_eq, not_true_eq_false, hc]
  by_cases h0 : 0 < (read_blocks P s1.skey outlen buf 0 s1.IV).2.2.1
  · rw [if_pos h0] at hiv
    simp only [h0, if_true, hiv]
    split_ifs <;> simp_all
  · rw [if_neg h0] at hiv
    simp only [h0, if_false, hiv]
    split_ifs <;> simp_all

/-- What a read on a ready state with `outlen ≠ 0` leaves in the fields that the key
ratchet does not write: they are those of the state after the optional reseed. -/
theorem fortuna_read_frame {POOLS : Nat} {HashState SKey : Type}
    (P : Primitives HashState SKey) (rl : RateLimit) (now : Nat)
    (buf : List Nat) (outlen : Nat) (s : prng_state POOLS HashState SKey)
    (hn : outlen ≠ 0) (hr : s.ready = true) :
    ∃ s2 : prng_state POOLS HashState SKey,
      (fortuna_read P rl now (some buf) outlen (some s)).2.2 = some s2 ∧
      s2.reset_cnt =
        (if 64 ≤ s.pool0_len then _fortuna_reseed P rl now s
          else (Err.CRYPT_OK, s)).2.reset_cnt ∧
      s2.pool0_len =
        (if 64 ≤ s.pool0_len then _fortuna_reseed P rl now s
          else (Err.CRYPT_OK, s)).2.pool0_len ∧
      s2.pool_idx =
        (if 64 ≤ s.pool0_len then _fortuna_reseed P rl now s
          else (Err.CRYPT_OK, s)).2.pool_idx ∧
      s2.ready =
        (if 64 ≤ s.pool0_len then _fortuna_reseed P rl now s
          else (Err.CRYPT_OK, s)).2.ready := by
  by_cases h : (if 64 ≤ s.pool0_len then _fortuna_reseed P rl now s
        else (Err.CRYPT_OK, s)).1 ≠ Err.CRYPT_OK ∨
      (if 64 ≤ s.pool0_len then _fortuna_reseed P rl now s
        else (Err.CRYPT_OK, s)).2.reset_cnt = 0
  · rw [fortuna_read_early P rl now buf outlen s hn hr h]
    exact ⟨_, rfl, rfl, rfl, rfl, rfl⟩
  · have h1 : (if 64 ≤ s.pool0_len then _fortuna_reseed P rl now s
        else (Err.CRYPT_OK, s)).1 = Err.CRYPT_OK := by
      by_contra hne; exact h (Or.inl hne)
    have h2 : (if 64 ≤ s.pool0_len then _fortuna_reseed P rl now s
        else (Err.CRYPT_OK, s)).2.reset_cnt ≠ 0 := fun e => h (Or.inr e)
    have hrs : (if 64 ≤ s.pool0_len then _fortuna_reseed P rl now s
        else (Err.CRYPT_OK, s)) = (Err.CRYPT_OK,
          (if 64 ≤ s.pool0_len then _fortuna_reseed P rl now s
            else (Err.CRYPT_OK, s)).2) := Prod.ext h1 rfl
    rw [fortuna_read_generate P rl now buf outlen s _ hn hr hrs h2]
    exact ⟨_, rfl, rfl, rfl, rfl, rfl⟩

/-- A read of at least one byte from a ready state with 64 or more bytes in pool 0,
when the rate limiter stops the reseed attempt: the reseed count and the length of
pool 0 stay as they were. -/
theorem fortuna_read_reseed_stopped {POOLS : Nat} {HashState SKey : Type}
    (P : Primitives HashState SKey) (rl : RateLimit) (now : Nat)
    (buf : List Nat) (outlen : Nat) (s : prng_state POOLS HashState SKey)
    (hn : 1 ≤ outlen) (hr : s.ready = true) (h64 : 64 ≤ s.pool0_len)
    (hstop : ¬ reseed_permitted rl now s) :
    ∃ s2 : prng_state POOLS HashState SKey,
      (fortuna_read P rl now (some buf) outlen (some s)).2.2 = some s2 ∧
      s2.reset_cnt = s.reset_cnt ∧ s2.pool0_len = s.pool0_len := by
  obtain ⟨s2, e, c1, c2, _, _⟩ := fortuna_read_frame P rl now buf outlen s (by omega) hr
  obtain ⟨_, e2⟩ := reseed_of_not_permitted P rl now s hstop
  rw [if_pos h64, e2] at c1 c2
  exact ⟨s2, e, c1, c2⟩

/-- A read of at least one byte from a ready state with 64 or more bytes in pool 0,
when the rate limiter lets the reseed attempt through and the reseed succeeds. -/
theorem fortuna_read_reseed_done {POOLS : Nat} {HashState SKey : Type}
    (P : Primitives HashState SKey) (rl : RateLimit) (now : Nat)
    (buf : List Nat) (outlen : Nat) (s : prng_state POOLS HashState SKey)
    (hn : 1 ≤ outlen) (hr : s.ready = true) (h64 : 64 ≤ s.pool0_len)
    (hperm : reseed_permitted rl now s)
    (hok : (_fortuna_reseed P rl now s).1 = Err.CRYPT_OK) :
    ∃ s2 : prng_state POOLS HashState SKey,
      (fortuna_read P rl now (some buf) outlen (some s)).2.2 = some s2 ∧
      s2.reset_cnt = (s.reset_cnt + 1) % 2 ^ 64 ∧ s2.pool0_len = 0 := by
  obtain ⟨s2, e, c1, c2, _, _⟩ := fortuna_read_frame P rl now buf outlen s (by omega) hr
  obtain ⟨s1, e1, d1, _, _, _⟩ := reseed_of_permitted P rl now s hperm
  obtain ⟨_, _, f3, _⟩ := reseed_body_fields P rl now s1
  rw [e1] at hok
  obtain ⟨g1, g2⟩ := f3 hok
  rw [if_pos h64, e1] at c1 c2
  exact ⟨s2, e, by rw [c1, g1, d1], by rw [c2, g2]⟩

/-! ## Facts about entropy injection -/

/-- The fields that `_fortuna_add` never writes. -/
theorem fortuna_add_frame {POOLS : Nat} {HashState SKey : Type}
    (P : Primitives HashState SKey) (source pool : Nat) (inp : List Nat) (inlen : Nat)
    (s s1 : prng_state POOLS HashState SKey) (e : Err)
    (h : _fortuna_add P source pool inp inlen s = some (e, s1)) :
    pool < POOLS ∧ s1.reset_cnt = s.reset_cnt ∧ s1.ready = s.ready ∧ s1.K = s.K ∧
    s1.IV = s.IV ∧ s1.skey = s.skey ∧ s1.wd = s.wd ∧ s1.pool_idx = s.pool_idx ∧
    (∀ q : Fin POOLS, q.val ≠ pool → s1.pool q = s.pool q) ∧
    (pool ≠ 0 → s1.pool0_len = s.pool0_len) := by
  unfold _fortuna_add at h
  by_cases hp : pool < POOLS
  · simp only [hp, dite_true] at h
    have hupd : ∀ (q : Fin POOLS) (f : Fin POOLS → HashState) (v : HashState),
        q.val ≠ pool → Function.update f ⟨pool, hp⟩ v q = f q := by
      intro q f v hq
      apply Function.update_noteq
      intro hq2; apply hq; rw [hq2]
    split_ifs at h <;>
      (simp only [Option.some.injEq, Prod.mk.injEq] at h
       obtain ⟨_, rfl⟩ := h
       refine ⟨hp, rfl, rfl, rfl, rfl, rfl, rfl, rfl, ?_, ?_⟩
       · intro q hq
         simp [hupd q _ _ hq]
       · intro h0
         first
           | rfl
           | exact absurd (by assumption) h0)
  · simp only [hp, dite_false] at h
    cases h

/-- A call of `_fortuna_add` whose two `sha256_process` calls succeed. -/
theorem fortuna_add_ok {POOLS : Nat} {HashState SKey : Type}
    (P : Primitives HashState SKey) (source pool : Nat) (inp : List Nat) (inlen : Nat)
    (s : prng_state POOLS HashState SKey) (hs : source ≤ 255) (hp : pool < POOLS)
    (hproc : ∀ md bytes, (P.sha256_process md bytes).1 = Err.CRYPT_OK) :
    _fortuna_add P source pool inp inlen s = some (Err.CRYPT_OK,
      { s with
        pool := Function.update s.pool ⟨pool, hp⟩
          (P.sha256_process (P.sha256_process (s.pool ⟨pool, hp⟩) [source, min inlen 32]).2
            (inp.take (min inlen 32))).2
        pool0_len := if pool = 0 then (s.pool0_len + min inlen 32) % 2 ^ 64
          else s.pool0_len }) := by
  have hmin : (if inlen > 32 then 32 else inlen) = min inlen 32 := by
    by_cases h : inlen > 32
    · rw [if_pos h]; omega
    · rw [if_neg h]; omega
  have h1 : source % 256 = source := by omega
  have h2 : min inlen 32 % 256 = min inlen 32 := by omega
  unfold _fortuna_add
  simp only [hp, dite_true, hmin, h1, h2, hproc, ne_eq, not_true_eq_false, if_false,
    Function.update_same, Function.update_idem, List.take]
  by_cases h0 : pool = 0
  · simp only [h0, if_true]
  · simp only [h0, if_false]

/-- The fields that `fortuna_add_random_event` never writes. -/
theorem fortuna_add_random_event_frame {POOLS : Nat} {HashState SKey : Type}
    (P : Primitives HashState SKey) (source pool : Nat) (inp : Option (List Nat))
    (inlen : Nat) (s s1 : prng_state POOLS HashState SKey) (r : Ret Err)
    (h : fortuna_add_random_event P source pool inp inlen s = some (r, s1)) :
    s1.reset_cnt = s.reset_cnt ∧ s1.ready = s.ready ∧ s1.K = s.K ∧
    s1.IV = s.IV ∧ s1.skey = s.skey ∧ s1.wd = s.wd ∧ s1.pool_idx = s.pool_idx := by
  unfold fortuna_add_random_event at h
  cases inp with
  | none =>
    simp only [Option.some.injEq, Prod.mk.injEq] at h
    obtain ⟨_, rfl⟩ := h
    exact ⟨rfl, rfl, rfl, rfl, rfl, rfl, rfl⟩
  | some buf =>
    have hargs : ∀ v : Ret Err × prng_state POOLS HashState SKey,
        v = (Ret.argchk_failed, s) → some v = some (r, s1) →
        s1.reset_cnt = s.reset_cnt ∧ s1.ready = s.ready ∧ s1.K = s.K ∧
        s1.IV = s.IV ∧ s1.skey = s.skey ∧ s1.wd = s.wd ∧ s1.pool_idx = s.pool_idx := by
      intro v hv h2
      rw [hv] at h2
      simp only [Option.some.injEq, Prod.mk.injEq] at h2
      obtain ⟨_, rfl⟩ := h2
      exact ⟨rfl, rfl, rfl, rfl, rfl, rfl, rfl⟩
    by_cases h1 : inlen > 0
    · by_cases h2 : source ≤ 255
      · by_cases h3 : pool < POOLS
        · simp only [h1, h2, h3, not_true_eq_false, if_false] at h
          cases ha : _fortuna_add P source pool buf inlen s with
          | none => rw [ha] at h; cases h
          | some v =>
            rw [ha] at h
            simp only [Option.some.injEq, Prod.mk.injEq] at h
            obtain ⟨_, rfl⟩ := h
            obtain ⟨_, c1, c2, c3, c4, c5, c6, c7, _, _⟩ :=
              fortuna_add_frame P source pool buf inlen s v.2 v.1 ha
            exact ⟨c1, c2, c3, c4, c5, c6, c7⟩
        · simp only [h1, h2, h3, not_true_eq_false, not_false_eq_true, if_false, if_true] at h
          exact hargs _ rfl h
      · simp only [h1, h2, not_true_eq_false, not_false_eq_true, if_false, if_true] at h
        exact hargs _ rfl h
    · simp only [h1, not_false_eq_true, if_true] at h
      exact hargs _ rfl h

/-- The fields that `fortuna_add_entropy` never writes, and what it does to
`pool_idx`. -/
theorem fortuna_add_entropy_frame {POOLS : Nat} {HashState SKey : Type}
    (P : Primitives HashState SKey) (inp : Option (List Nat))
    (inlen : Nat) (s s1 : prng_state POOLS HashState SKey) (r : Ret Err)
    (h : fortuna_add_entropy P inp inlen s = some (r, s1)) :
    s1.reset_cnt = s.reset_cnt ∧ s1.ready = s.ready ∧ s1.K = s.K ∧
    s1.IV = s.IV ∧ s1.skey = s.skey ∧ s1.wd = s.wd ∧
    ((r ≠ Ret.value Err.CRYPT_OK ∧ s1.pool_idx = s.pool_idx) ∨
      (r = Ret.value Err.CRYPT_OK ∧ s.pool_idx < POOLS ∧
        s1.pool_idx = (s.pool_idx + 1) % 2 ^ 64 % POOLS)) := by
  unfold fortuna_add_entropy at h
  cases inp with
  | none =>
    simp only [Option.some.injEq, Prod.mk.injEq] at h
    obtain ⟨rfl, rfl⟩ := h
    exact ⟨rfl, rfl, rfl, rfl, rfl, rfl, Or.inl ⟨by simp, rfl⟩⟩
  | some buf =>
    by_cases h1 : inlen > 0
    · simp only [h1, not_true_eq_false, if_false] at h
      cases ha : _fortuna_add P 0 s.pool_idx buf inlen s with
      | none => rw [ha] at h; cases h
      | some v =>
        rw [ha] at h
        obtain ⟨hp, c1, c2, c3, c4, c5, c6, c7, _, _⟩ :=
          fortuna_add_frame P 0 s.pool_idx buf inlen s v.2 v.1 ha
        simp only at h
        by_cases hv : v.1 = Err.CRYPT_OK
        · simp only [hv, if_true, Option.some.injEq, Prod.mk.injEq] at h
          obtain ⟨rfl, rfl⟩ := h
          refine ⟨c1, c2, c3, c4, c5, c6, Or.inr ⟨rfl, hp, ?_⟩⟩
          show (v.2.pool_idx + 1) % 2 ^ 64 % POOLS = (s.pool_idx + 1) % 2 ^ 64 % POOLS
          rw [c7]
        · simp only [hv, if_false, Option.some.injEq, Prod.mk.injEq] at h
          obtain ⟨rfl, rfl⟩ := h
          refine ⟨c1, c2, c3, c4, c5, c6, Or.inl ⟨?_, c7⟩⟩
          intro e
          injection e with e
          exact hv e
    · simp only [h1, not_false_eq_true, if_true, Option.some.injEq, Prod.mk.injEq] at h
      obtain ⟨rfl, rfl⟩ := h
      exact ⟨rfl, rfl, rfl, rfl, rfl, rfl, Or.inl ⟨by simp, rfl⟩⟩

/-- With at most `2 ^ 64` pools the increment of a valid pool index does not wrap. -/
theorem pool_idx_succ_mod (idx POOLS : Nat) (h : idx < POOLS) (hP : POOLS ≤ 2 ^ 64) :
    (idx + 1) % 2 ^ 64 % POOLS = (idx + 1) % POOLS := by
  by_cases hlt : idx + 1 < 2 ^ 64
  · rw [Nat.mod_eq_of_lt hlt]
  · have e1 : idx + 1 = 2 ^ 64 := by omega
    have e2 : POOLS = 2 ^ 64 := by omega
    rw [e1, e2, Nat.mod_self]
    rfl

/-! ## Facts about the lifecycle operations -/

/-- The counters and flags after a successful `fortuna_start`. -/
theorem fortuna_start_ok {POOLS : Nat} {HashState SKey : Type}
    (P : Primitives HashState SKey) (s : prng_state POOLS HashState SKey)
    (h : (fortuna_start P s).1 = Err.CRYPT_OK) :
    (fortuna_start P s).2.ready = false ∧ (fortuna_start P s).2.pool_idx = 0 ∧
    (fortuna_start P s).2.pool0_len = 0 ∧ (fortuna_start P s).2.wd = 0 ∧
    (fortuna_start P s).2.reset_cnt = 0 ∧ (fortuna_start P s).2.K = zeromem s.K 32 ∧
    (fortuna_start P s).2.IV = zeromem s.IV 16 := by
  unfold fortuna_start at h ⊢
  simp only at h ⊢
  split_ifs at h ⊢ <;> simp_all

/-- The pool index after `fortuna_start`, whatever the result code. -/
theorem fortuna_start_pool_idx {POOLS : Nat} {HashState SKey : Type}
    (P : Primitives HashState SKey) (s : prng_state POOLS HashState SKey) :
    (fortuna_start P s).2.pool_idx = 0 ∨ (fortuna_start P s).2.pool_idx = s.pool_idx := by
  unfold fortuna_start
  simp only
  split_ifs <;> simp

/-- With succeeding primitives a reseed attempt returns `CRYPT_OK`. -/
theorem reseed_ok {POOLS : Nat} {HashState SKey : Type}
    (P : Primitives HashState SKey) (hP : P.succeed) (rl : RateLimit) (now : Nat)
    (s : prng_state POOLS HashState SKey) :
    (_fortuna_reseed P rl now s).1 = Err.CRYPT_OK := by
  by_cases h : reseed_permitted rl now s
  · obtain ⟨s1, e, _⟩ := reseed_of_permitted P rl now s h
    rw [e]
    exact reseed_body_ok P hP rl now s1
  · exact (reseed_of_not_permitted P rl now s h).1

/-- The state that `fortuna_ready` hands to the reseed passes the rate limiter. -/
theorem ready_reseed_permitted {POOLS : Nat} {HashState SKey : Type}
    (rl : RateLimit) (now_ready now_reseed : Nat) (s : prng_state POOLS HashState SKey)
    (hperm : ready_permits rl now_ready now_reseed) :
    reseed_permitted rl now_reseed
      { s with wd := ready_wd rl now_ready } := by
  cases rl with
  | TIMED => exact hperm
  | STATIC wdmax =>
    have h : wdmax + 1 < 2 ^ 64 := hperm
    show ¬ ((wdmax % 2 ^ 64 + 1) % 2 ^ 64 < wdmax)
    have e1 : wdmax % 2 ^ 64 = wdmax := Nat.mod_eq_of_lt (by omega)
    rw [e1, Nat.mod_eq_of_lt h]
    omega

/-- The general shape of `fortuna_ready`: the code is that of the reseed attempt and
`ready` records whether it was `CRYPT_OK`; the reseed count moves as in the reseed. -/
theorem fortuna_ready_shape {POOLS : Nat} {HashState SKey : Type}
    (P : Primitives HashState SKey) (rl : RateLimit) (now_ready now_reseed : Nat)
    (s : prng_state POOLS HashState SKey) :
    (fortuna_ready P rl now_ready now_reseed s).1 =
      (_fortuna_reseed P rl now_reseed
        { s with wd := ready_wd rl now_ready }).1 ∧
    ((fortuna_ready P rl now_ready now_reseed s).2.ready = true ↔
      (fortuna_ready P rl now_ready now_reseed s).1 = Err.CRYPT_OK) ∧
    ((fortuna_ready P rl now_ready now_reseed s).1 ≠ Err.CRYPT_OK →
      (fortuna_ready P rl now_ready now_reseed s).2.ready = false) := by
  unfold fortuna_ready
  simp

theorem store_two_blocks (K c1 c2 : List Nat) (hK : K.length = 32) (h1 : c1.length = 16)
    (h2 : c2.length = 16) : store (store K 0 c1) 16 c2 = c1 ++ c2 := by
  have e1 : store K 0 c1 = c1 ++ K.drop 16 := by
    unfold store; simp [h1]
  rw [e1]
  unfold store
  have e2 : List.take 16 (c1 ++ List.drop 16 K) = c1 := by
    rw [List.take_append_of_le_length (by omega)]
    exact List.take_of_length_le (by omega)
  have e3 : List.drop (16 + c2.length) (c1 ++ List.drop 16 K) = [] := by
    apply List.drop_eq_nil_of_le
    simp only [List.length_append, List.length_drop]
    omega
  rw [e2, e3, List.append_nil]

/-- C13, as stated, fails for `outlen = 0`: on the ready, seeded state `readyState` a
read of length 0 returns at once and leaves the whole state, key and counter included,
as it was; the counter is not advanced past two blocks. -/
theorem fortuna_read_zero_counterexample :
    readyState.ready = true ∧ readyState.reset_cnt ≠ 0 ∧
    fortuna_read toyPrimitives (RateLimit.STATIC 10) 0 (some []) 0 (some readyState) =
      (0, some [], some readyState) ∧
    _fortuna_update_iv (_fortuna_update_iv readyState.IV) ≠ readyState.IV := by
  refine ⟨rfl, by decide, ?_, by decide⟩
  unfold fortuna_read
  simp

/-- C13, amended. The key ratchet happens on every read of at least one byte that
reaches the generator: for a ready state `s`, with `s1` the seeded state after the
optional reseed, `fortuna_read` replaces the key by the two blocks encrypted from the
counter that follows the output blocks, advances the counter past them and re-derives
the cipher schedule from the new key.  A read of length 0 returns at once and leaves
the state as it was. -/
theorem fortuna_read_ratchet {POOLS : Nat} {HashState SKey : Type}
    (P : Primitives HashState SKey) (rl : RateLimit) (now : Nat)
    (buf : List Nat) (outlen : Nat) (s s1 : prng_state POOLS HashState SKey)
    (hn : 1 ≤ outlen) (hr : s.ready = true)
    (hrs : (if 64 ≤ s.pool0_len then _fortuna_reseed P rl now s else (Err.CRYPT_OK, s)) =
      (Err.CRYPT_OK, s1))
    (hc : s1.reset_cnt ≠ 0) :
    (∃ s2 : prng_state POOLS HashState SKey,
      (fortuna_read P rl now (some buf) outlen (some s)).2.2 = some s2 ∧
      s2.K = store (store s1.K 0
          (P.rijndael_ecb_encrypt
            (Nat.iterate _fortuna_update_iv ((outlen + 15) / 16) s1.IV) s1.skey).2) 16
          (P.rijndael_ecb_encrypt
            (_fortuna_update_iv (Nat.iterate _fortuna_update_iv ((outlen + 15) / 16) s1.IV))
            s1.skey).2 ∧
      (s1.K.length = 32 → P.block16 →
        s2.K = (P.rijndael_ecb_encrypt
            (Nat.iterate _fortuna_update_iv ((outlen + 15) / 16) s1.IV) s1.skey).2 ++
          (P.rijndael_ecb_encrypt
            (_fortuna_update_iv (Nat.iterate _fortuna_update_iv ((outlen + 15) / 16) s1.IV))
            s1.skey).2) ∧
      s2.IV = _fortuna_update_iv (_fortuna_update_iv
          (Nat.iterate _fortuna_update_iv ((outlen + 15) / 16) s1.IV)) ∧
      s2.skey = (P.rijndael_setup (s2.K.take 32) 0).2) ∧
    fortuna_read P rl now (some buf) 0 (some s) = (0, some buf, some s) := by
  have hgen := fortuna_read_generate P rl now buf outlen s s1 (by omega) hr hrs hc
  have hst := congrArg (fun r => r.2.2) hgen
  simp only at hst
  refine ⟨⟨_, hst, rfl, ?_, rfl, rfl⟩, ?_⟩
  · intro hK hb
    exact store_two_blocks _ _ _ hK (hb _ _) (hb _ _)
  · unfold fortuna_read
    simp

/-- C14, as stated, fails: on `fullState` (ready, 64 bytes in pool 0, reseed count 1,
rate-limit count 0) with the counter rate limit 10, a read of one byte leaves the
reseed count at 1 and the length of pool 0 at 64. -/
theorem fortuna_read_threshold_counterexample :
    fullState.ready = true ∧ 64 ≤ fullState.pool0_len ∧ fullState.reset_cnt = 1 ∧
    ∃ s2 : prng_state 4 (List Nat) (List Nat),
      (fortuna_read toyPrimitives (RateLimit.STATIC 10) 0 (some [0]) 1 (some fullState)).2.2 =
        some s2 ∧
      s2.reset_cnt = 1 ∧ s2.pool0_len = 64 := by
  refine ⟨rfl, by decide, rfl, ?_⟩
  have hstop : ¬ reseed_permitted (RateLimit.STATIC 10) 0 fullState := by
    show ¬ ¬ ((fullState.wd + 1) % 2 ^ 64 < 10)
    decide
  exact fortuna_read_reseed_stopped toyPrimitives (RateLimit.STATIC 10) 0 [0] 1 fullState
    (by decide) rfl (by decide) hstop

/-- C14, amended. For a ready instance whose `pool0_len` is at least 64, the next
`fortuna_read` of at least one byte attempts a reseed without any call of
`fortuna_ready`.  When the rate limiter lets the attempt through and the reseed
succeeds, the reseed count afterwards is the count before plus one (modulo `2 ^ 64`,
so strictly greater unless it wraps) and `pool0_len` is 0; when the rate limiter stops
the attempt, the reseed count and `pool0_len` are unchanged. -/
theorem fortuna_read_threshold_reseed {POOLS : Nat} {HashState SKey : Type}
    (P : Primitives HashState SKey) (rl : RateLimit) (now : Nat)
    (buf : List Nat) (outlen : Nat) (s : prng_state POOLS HashState SKey)
    (hn : 1 ≤ outlen) (hr : s.ready = true) (h64 : 64 ≤ s.pool0_len) :
    (reseed_permitted rl now s → (_fortuna_reseed P rl now s).1 = Err.CRYPT_OK →
      ∃ s2 : prng_state POOLS HashState SKey,
        (fortuna_read P rl now (some buf) outlen (some s)).2.2 = some s2 ∧
        s2.reset_cnt = (s.reset_cnt + 1) % 2 ^ 64 ∧ s2.pool0_len = 0 ∧
        (s.reset_cnt + 1 < 2 ^ 64 → s.reset_cnt < s2.reset_cnt)) ∧
    (¬ reseed_permitted rl now s →
      ∃ s2 : prng_state POOLS HashState SKey,
        (fortuna_read P rl now (some buf) outlen (some s)).2.2 = some s2 ∧
        s2.reset_cnt = s.reset_cnt ∧ s2.pool0_len = s.pool0_len) := by
  constructor
  · intro hperm hok
    obtain ⟨s2, e, c1, c2⟩ := fortuna_read_reseed_done P rl now buf outlen s hn hr h64 hperm hok
    refine ⟨s2, e, c1, c2, ?_⟩
    intro hlt
    rw [c1, Nat.mod_eq_of_lt hlt]
    omega
  · intro hstop
    exact fortuna_read_reseed_stopped P rl now buf outlen s hn hr h64 hstop

/-! ## Fortuna: entropy injection -/

/-- C15. Each entropy contribution is truncated to 32 bytes: for an input of length
`inlen >= 1`, a source `<= 255` and a pool `< LTC_FORTUNA_POOLS`, `_fortuna_add`
(also when reached through `fortuna_add_random_event`) extends the running hash of that
pool with the two bytes `source`, `min inlen 32` and then with the first `min inlen 32`
input bytes; `pool0_len` grows by `min inlen 32` (in `unsigned long` arithmetic) when
the pool is pool 0 and is unchanged otherwise; no other pool and no other field of the
state is changed. -/
theorem fortuna_add_truncates {POOLS : Nat} {HashState SKey : Type}
    (P : Primitives HashState SKey) (source pool : Nat) (inp : List Nat) (inlen : Nat)
    (s : prng_state POOLS HashState SKey) (hL : 1 ≤ inlen) (hs : source ≤ 255)
    (hp : pool < POOLS)
    (hproc : ∀ md bytes, (P.sha256_process md bytes).1 = Err.CRYPT_OK) :
    _fortuna_add P source pool inp inlen s = some (Err.CRYPT_OK,
      { s with
        pool := Function.update s.pool ⟨pool, hp⟩
          (P.sha256_process (P.sha256_process (s.pool ⟨pool, hp⟩) [source, min inlen 32]).2
            (inp.take (min inlen 32))).2
        pool0_len := if pool = 0 then (s.pool0_len + min inlen 32) % 2 ^ 64
          else s.pool0_len }) ∧
    fortuna_add_random_event P source pool (some inp) inlen s = some (Ret.value Err.CRYPT_OK,
      { s with
        pool := Function.update s.pool ⟨pool, hp⟩
          (P.sha256_process (P.sha256_process (s.pool ⟨pool, hp⟩) [source, min inlen 32]).2
            (inp.take (min inlen 32))).2
        pool0_len := if pool = 0 then (s.pool0_len + min inlen 32) % 2 ^ 64
          else s.pool0_len }) ∧
    (s.pool0_len + min inlen 32 < 2 ^ 64 →
      (s.pool0_len + min inlen 32) % 2 ^ 64 = s.pool0_len + min inlen 32) := by
  have h := fortuna_add_ok P source pool inp inlen s hs hp hproc
  refine ⟨h, ?_, fun hlt => Nat.mod_eq_of_lt hlt⟩
  have h1 : inlen > 0 := by omega
  unfold fortuna_add_random_event
  simp only [h1, hs, hp, not_true_eq_false, if_false, h]

/-- One call of `fortuna_add_entropy` on a valid pool index with succeeding
`sha256_process`. -/
theorem fortuna_add_entropy_ok {POOLS : Nat} {HashState SKey : Type}
    (P : Primitives HashState SKey) (inp : List Nat) (inlen : Nat)
    (s : prng_state POOLS HashState SKey) (hL : 1 ≤ inlen) (hidx : s.pool_idx < POOLS)
    (hproc : ∀ md bytes, (P.sha256_process md bytes).1 = Err.CRYPT_OK) :
    fortuna_add_entropy P (some inp) inlen s = some (Ret.value Err.CRYPT_OK,
      { s with
        pool := Function.update s.pool ⟨s.pool_idx, hidx⟩
          (P.sha256_process (P.sha256_process (s.pool ⟨s.pool_idx, hidx⟩) [0, min inlen 32]).2
            (inp.take (min inlen 32))).2
        pool0_len := if s.pool_idx = 0 then (s.pool0_len + min inlen 32) % 2 ^ 64
          else s.pool0_len
        pool_idx := (s.pool_idx + 1) % 2 ^ 64 % POOLS }) := by
  have h := fortuna_add_ok P 0 s.pool_idx inp inlen s (by omega) hidx hproc
  have h1 : inlen > 0 := by omega
  unfold fortuna_add_entropy
  simp only [h1, not_true_eq_false, if_false, h, if_true]

/-- A read leaves the pool index as it was. -/
theorem fortuna_read_pool_idx {POOLS : Nat} {HashState SKey : Type}
    (P : Primitives HashState SKey) (rl : RateLimit) (now : Nat)
    (out : Option (List Nat)) (outlen : Nat) (s s2 : prng_state POOLS HashState SKey)
    (h : (fortuna_read P rl now out outlen (some s)).2.2 = some s2) :
    s2.pool_idx = s.pool_idx := by
  cases out with
  | none =>
    have e : fortuna_read P rl now none outlen (some s) = (0, none, some s) := by
      unfold fortuna_read; rfl
    rw [e] at h
    simp only [Option.some.injEq] at h
    rw [← h]
  | some buf =>
    by_cases hn : outlen = 0
    · have e : fortuna_read P rl now (some buf) outlen (some s) = (0, some buf, some s) := by
        unfold fortuna_read; simp [hn]
      rw [e] at h
      simp only [Option.some.injEq] at h
      rw [← h]
    · by_cases hr : s.ready = true
      · obtain ⟨s3, e, _, _, c3, _⟩ := fortuna_read_frame P rl now buf outlen s hn hr
        rw [e] at h
        simp only [Option.some.injEq] at h
        rw [← h, c3]
        by_cases h64 : 64 ≤ s.pool0_len
        · rw [if_pos h64]; exact (reseed_fields P rl now s).2.1
        · rw [if_neg h64]
      · have hr2 : s.ready = false := by
          cases hb : s.ready
          · rfl
          · exact absurd hb hr
        have e : fortuna_read P rl now (some buf) outlen (some s) = (0, some buf, some s) := by
          unfold fortuna_read; simp [hn, hr2]
        rw [e] at h
        simp only [Option.some.injEq] at h
        rw [← h]

theorem fortuna_update_seed_pool_idx {POOLS : Nat} {HashState SKey : Type}
    (P : Primitives HashState SKey) (inp : List Nat) (inlen : Nat)
    (s : prng_state POOLS HashState SKey) :
    (fortuna_update_seed P inp inlen s).2.pool_idx = s.pool_idx := by
  unfold fortuna_update_seed
  simp only
  split_ifs <;> rfl

/-- Every public call keeps a valid pool index valid. -/
theorem step_pool_idx {POOLS : Nat} {HashState SKey : Type}
    (P : Primitives HashState SKey) (rl : RateLimit) (hpools : 0 < POOLS) (c : Call)
    (s s1 : prng_state POOLS HashState SKey) (h : step P rl c s = some s1)
    (hs : s.pool_idx < POOLS) : s1.pool_idx < POOLS := by
  cases c with
  | start =>
    simp only [step, Option.some.injEq] at h
    subst h
    rcases fortuna_start_pool_idx P s with e | e
    · rw [e]; exact hpools
    · rw [e]; exact hs
  | add_entropy inp inlen =>
    simp only [step, Option.map_eq_some'] at h
    obtain ⟨v, hv, rfl⟩ := h
    obtain ⟨_, _, _, _, _, _, c7⟩ := fortuna_add_entropy_frame P inp inlen s v.2 v.1 hv
    rcases c7 with ⟨_, e⟩ | ⟨_, _, e⟩
    · rw [e]; exact hs
    · rw [e]; exact Nat.mod_lt _ hpools
  | add_random_event source pool inp inlen =>
    simp only [step, Option.map_eq_some'] at h
    obtain ⟨v, hv, rfl⟩ := h
    obtain ⟨_, _, _, _, _, _, c7⟩ :=
      fortuna_add_random_event_frame P source pool inp inlen s v.2 v.1 hv
    rw [c7]; exact hs
  | ready now_ready now_reseed =>
    simp only [step, Option.some.injEq] at h
    subst h
    have e : (fortuna_ready P rl now_ready now_reseed s).2.pool_idx =
        (_fortuna_reseed P rl now_reseed { s with wd := ready_wd rl now_ready }).2.pool_idx := rfl
    rw [e, (reseed_fields P rl now_reseed _).2.1]
    exact hs
  | read out outlen now =>
    simp only [step] at h
    rw [fortuna_read_pool_idx P rl now out outlen s s1 h]
    exact hs
  | update_seed inp inlen =>
    simp only [step, Option.some.injEq] at h
    subst h
    rw [fortuna_update_seed_pool_idx]
    exact hs
  | pimport inp inlen =>
    simp only [step, Option.some.injEq] at h
    subst h
    unfold fortuna_import
    cases inp with
    | none => exact hs
    | some buf =>
      simp only
      split_ifs
      · exact hs
      · rcases fortuna_start_pool_idx P s with e | e
        · rw [e]; exact hpools
        · rw [e]; exact hs
      · rw [fortuna_update_seed_pool_idx]
        rcases fortuna_start_pool_idx P s with e | e
        · rw [e]; exact hpools
        · rw [e]; exact hs
  | pexport out outlen =>
    simp only [step, Option.some.injEq] at h
    subst h
    unfold fortuna_export
    split_ifs <;> exact hs
  | done =>
    simp only [step, Option.some.injEq] at h
    subst h
    exact hs

theorem run_pool_idx {POOLS : Nat} {HashState SKey : Type}
    (P : Primitives HashState SKey) (rl : RateLimit) (hpools : 0 < POOLS)
    (calls : List Call) :
    ∀ (s s1 : prng_state POOLS HashState SKey), run P rl s calls = some s1 →
      s.pool_idx < POOLS → s1.pool_idx < POOLS := by
  induction calls with
  | nil =>
    intro s s1 h hs
    simp only [run, Option.some.injEq] at h
    rw [← h]; exact hs
  | cons c cs ih =>
    intro s s1 h hs
    simp only [run] at h
    cases hc : step P rl c s with
    | none => rw [hc] at h; cases h
    | some s2 =>
      rw [hc] at h
      exact ih s2 s1 h (step_pool_idx P rl hpools c s s2 hc hs)

/-- Successive successful calls of `fortuna_add_entropy` from a valid pool index feed
consecutive pools modulo the number of pools. -/
theorem add_entropy_seq_fed {POOLS : Nat} {HashState SKey : Type}
    (P : Primitives HashState SKey) (hP2 : POOLS ≤ 2 ^ 64) (inputs : List (List Nat × Nat)) :
    ∀ (s s1 : prng_state POOLS HashState SKey) (fed : List Nat),
      s.pool_idx < POOLS → add_entropy_seq P s inputs = some (fed, s1) →
      fed = (List.range inputs.length).map (fun i => (s.pool_idx + i) % POOLS) ∧
      s1.pool_idx = (s.pool_idx + inputs.length) % POOLS := by
  induction inputs with
  | nil =>
    intro s s1 fed hs h
    simp only [add_entropy_seq, Option.some.injEq, Prod.mk.injEq] at h
    obtain ⟨rfl, rfl⟩ := h
    exact ⟨rfl, by simp [Nat.mod_eq_of_lt hs]⟩
  | cons i is ih =>
    intro s s1 fed hs h
    simp only [add_entropy_seq] at h
    cases ha : fortuna_add_entropy P (some i.1) i.2 s with
    | none => rw [ha] at h; cases h
    | some r =>
      rw [ha] at h
      simp only at h
      by_cases hr : r.1 = Ret.value Err.CRYPT_OK
      · rw [if_pos hr] at h
        cases hseq : add_entropy_seq P r.2 is with
        | none => rw [hseq] at h; cases h
        | some rest =>
          rw [hseq] at h
          simp only [Option.some.injEq, Prod.mk.injEq] at h
          obtain ⟨rfl, rfl⟩ := h
          obtain ⟨_, _, _, _, _, _, c7⟩ := fortuna_add_entropy_frame P (some i.1) i.2 s r.2 r.1 ha
          rcases c7 with ⟨hne, _⟩ | ⟨_, _, e⟩
          · exact absurd hr hne
          · rw [pool_idx_succ_mod _ _ hs hP2] at e
            have hlt : r.2.pool_idx < POOLS := by
              rw [e]; exact Nat.mod_lt _ (by omega)
            obtain ⟨f1, f2⟩ := ih r.2 rest.2 rest.1 hlt (by rw [hseq])
            constructor
            · rw [f1, List.length_cons, List.range_succ_eq_map, List.map_cons, List.map_map]
              congr 1
              · simp [Nat.mod_eq_of_lt hs]
              · apply List.map_congr_left
                intro a _
                simp only [Function.comp, e]
                rw [Nat.mod_add_mod]
                congr 1
                omega
            · rw [f2, e, Nat.mod_add_mod, List.length_cons]
              congr 1
              omega
      · rw [if_neg hr] at h
        cases h

/-- C16. `fortuna_add_entropy` tags the source as 0 and targets the pool `pool_idx`,
and a successful call leaves `pool_idx' = (pool_idx + 1) mod LTC_FORTUNA_POOLS`;
`pool_idx < LTC_FORTUNA_POOLS` holds in every state reachable from a successful
`fortuna_start`; and `k` consecutive successful calls after `fortuna_start` feed the
pools `0, 1, .., (k - 1) mod LTC_FORTUNA_POOLS` in that order. -/
theorem fortuna_add_entropy_round_robin {POOLS : Nat} {HashState SKey : Type}
    (P : Primitives HashState SKey) (rl : RateLimit)
    (hpools : 0 < POOLS) (hP2 : POOLS ≤ 2 ^ 64) :
    (∀ (inp : List Nat) (inlen : Nat) (s : prng_state POOLS HashState SKey)
        (hidx : s.pool_idx < POOLS), 1 ≤ inlen →
        (∀ md bytes, (P.sha256_process md bytes).1 = Err.CRYPT_OK) →
        fortuna_add_entropy P (some inp) inlen s = some (Ret.value Err.CRYPT_OK,
          { s with
            pool := Function.update s.pool ⟨s.pool_idx, hidx⟩
              (P.sha256_process
                (P.sha256_process (s.pool ⟨s.pool_idx, hidx⟩) [0, min inlen 32]).2
                (inp.take (min inlen 32))).2
            pool0_len := if s.pool_idx = 0 then (s.pool0_len + min inlen 32) % 2 ^ 64
              else s.pool0_len
            pool_idx := (s.pool_idx + 1) % POOLS })) ∧
    (∀ (inp : Option (List Nat)) (inlen : Nat) (s s1 : prng_state POOLS HashState SKey),
        fortuna_add_entropy P inp inlen s = some (Ret.value Err.CRYPT_OK, s1) →
        s.pool_idx < POOLS ∧ s1.pool_idx = (s.pool_idx + 1) % POOLS) ∧
    (∀ s : prng_state POOLS HashState SKey, Reachable P rl s → s.pool_idx < POOLS) ∧
    (∀ (s0 s1 : prng_state POOLS HashState SKey) (inputs : List (List Nat × Nat))
        (fed : List Nat), (fortuna_start P s0).1 = Err.CRYPT_OK →
        add_entropy_seq P (fortuna_start P s0).2 inputs = some (fed, s1) →
        fed = (List.range inputs.length).map (fun i => i % POOLS) ∧
        s1.pool_idx = inputs.length % POOLS) := by
  refine ⟨?_, ?_, ?_, ?_⟩
  · intro inp inlen s hidx hL hproc
    rw [fortuna_add_entropy_ok P inp inlen s hL hidx hproc, pool_idx_succ_mod _ _ hidx hP2]
  · intro inp inlen s s1 h
    obtain ⟨_, _, _, _, _, _, c7⟩ := fortuna_add_entropy_frame P inp inlen s s1 _ h
    rcases c7 with ⟨hne, _⟩ | ⟨_, hlt, e⟩
    · exact absurd rfl hne
    · exact ⟨hlt, by rw [e, pool_idx_succ_mod _ _ hlt hP2]⟩
  · rintro s ⟨s0, calls, hok, hrun⟩
    apply run_pool_idx P rl hpools calls _ s hrun
    rw [(fortuna_start_ok P s0 hok).2.1]
    exact hpools
  · intro s0 s1 inputs fed hok hseq
    have h0 := (fortuna_start_ok P s0 hok).2.1
    obtain ⟨f1, f2⟩ := add_entropy_seq_fed P hP2 inputs _ s1 fed (by rw [h0]; exact hpools) hseq
    rw [h0] at f1 f2
    simp only [Nat.zero_add] at f1 f2
    exact ⟨f1, f2⟩

/-! ## Fortuna: lifecycle -/

/-- The loop of `fortuna_done`, when it ends with `CRYPT_OK`: every pool from `x` on was
finalized successfully and holds the state that `sha256_done` left. -/
theorem fortuna_done_loop_ok {POOLS : Nat} {HashState SKey : Type}
    (P : Primitives HashState SKey) :
    ∀ (k x : Nat) (pool : Fin POOLS → HashState), k + x = POOLS →
      (fortuna_done_loop P k x pool).1 = Err.CRYPT_OK →
      (∀ j : Fin POOLS, j.val < x → (fortuna_done_loop P k x pool).2 j = pool j) ∧
      (∀ j : Fin POOLS, x ≤ j.val → (P.sha256_done (pool j)).1 = Err.CRYPT_OK ∧
        (fortuna_done_loop P k x pool).2 j = (P.sha256_done (pool j)).2.1) := by
  intro k
  induction k with
  | zero =>
    intro x pool hk _
    refine ⟨fun _ _ => rfl, ?_⟩
    intro j hj
    have := j.isLt
    omega
  | succ k ih =>
    intro x pool hk hok
    have hx : x < POOLS := by omega
    unfold fortuna_done_loop at hok ⊢
    simp only [hx, dite_true] at hok ⊢
    by_cases hd : (P.sha256_done (pool ⟨x, hx⟩)).1 = Err.CRYPT_OK
    · simp only [hd, ne_eq, not_true_eq_false, if_false] at hok ⊢
      obtain ⟨i1, i2⟩ := ih (x + 1)
        (Function.update pool ⟨x, hx⟩ (P.sha256_done (pool ⟨x, hx⟩)).2.1) (by omega) hok
      constructor
      · intro j hj
        rw [i1 j (by omega)]
        apply Function.update_noteq
        intro e; rw [e] at hj; simp at hj
      · intro j hj
        by_cases e : j.val = x
        · have e2 : j = ⟨x, hx⟩ := Fin.ext e
          rw [i1 j (by omega), e2, Function.update_same]
          exact ⟨hd, rfl⟩
        · have hne : j ≠ ⟨x, hx⟩ := fun e2 => e (by rw [e2])
          have := i2 j (by omega)
          rw [Function.update_noteq hne] at this
          exact this
    · simp only [hd, ne_eq, not_false_eq_true, if_true] at hok

/-- The loop of `fortuna_done` stops at pool 0 when finalizing it fails. -/
theorem fortuna_done_loop_first {POOLS : Nat} {HashState SKey : Type}
    (P : Primitives HashState SKey) (k : Nat) (hk : 0 < k) (pool : Fin POOLS → HashState)
    (h0 : 0 < POOLS) (hbad : (P.sha256_done (pool ⟨0, h0⟩)).1 ≠ Err.CRYPT_OK) :
    (fortuna_done_loop P k 0 pool).1 = (P.sha256_done (pool ⟨0, h0⟩)).1 := by
  cases k with
  | zero => omega
  | succ k =>
    unfold fortuna_done_loop
    simp only [h0, dite_true, hbad, ne_eq, not_false_eq_true, if_true]

/-- C18. Under the spec's contract for `sha256_done` (finalizing an already finalized
state is an error), calling `fortuna_done` a second time on an instance that a
successful `fortuna_done` terminated does not return `CRYPT_OK`. -/
theorem fortuna_done_twice {POOLS : Nat} {HashState SKey : Type}
    (P : Primitives HashState SKey) (hfin : P.done_rejects_finalized) (hpools : 0 < POOLS)
    (s : prng_state POOLS HashState SKey)
    (h : (fortuna_done P s).1 = Err.CRYPT_OK) :
    (fortuna_done P (fortuna_done P s).2).1 ≠ Err.CRYPT_OK := by
  have hloop : (fortuna_done_loop P POOLS 0 s.pool).1 = Err.CRYPT_OK := h
  obtain ⟨_, h2⟩ := fortuna_done_loop_ok P POOLS 0 s.pool (by omega) hloop
  obtain ⟨d1, d2⟩ := h2 ⟨0, hpools⟩ (Nat.le_refl _)
  have hbad := hfin _ d1
  show (fortuna_done_loop P POOLS 0 (fortuna_done_loop P POOLS 0 s.pool).2).1 ≠ Err.CRYPT_OK
  rw [fortuna_done_loop_first P POOLS hpools _ hpools (by rw [d2]; exact hbad), d2]
  exact hbad

/-- C19, as stated, fails on the descriptor: the export size that `fortuna_desc` records
is 64, not 32. -/
theorem fortuna_export_size_counterexample :
    fortuna_desc.export_size = 64 ∧ fortuna_desc.export_size ≠ 32 := by
  decide

/-- C19, amended. With room for 32 bytes `fortuna_export` stores exactly 32 bytes, the
current key `K` in its stored byte order, reports the length 32 and leaves the state
unchanged (no generator output is consumed); the export size recorded in the Fortuna
descriptor is 64. -/
theorem fortuna_export_key {POOLS : Nat} {HashState SKey : Type}
    (out : List Nat) (outlen : Nat) (s : prng_state POOLS HashState SKey)
    (hroom : 32 ≤ outlen) (hK : s.K.length = 32) (hout : 32 ≤ out.length) :
    (fortuna_export out outlen s).1 = Err.CRYPT_OK ∧
    (fortuna_export out outlen s).2.1.take 32 = s.K ∧
    (fortuna_export out outlen s).2.1.drop 32 = out.drop 32 ∧
    (fortuna_export out outlen s).2.2.1 = 32 ∧
    (fortuna_export out outlen s).2.2.2 = s ∧
    fortuna_desc.export_size = 64 := by
  have hlt : ¬ outlen < 32 := by omega
  have hKt : s.K.take 32 = s.K := List.take_of_length_le (by omega)
  have e : fortuna_export out outlen s = (Err.CRYPT_OK, store out 0 s.K, 32, s) := by
    unfold fortuna_export
    simp only [hlt, if_false, hKt]
  rw [e]
  refine ⟨rfl, ?_, ?_, rfl, rfl, by decide⟩
  · unfold store
    simp only [List.take_zero, List.nil_append, Nat.zero_add]
    rw [List.take_append_of_le_length (by omega)]
    exact List.take_of_length_le (by omega)
  · rw [store_drop _ _ _ _ (by omega) (by omega)]

theorem start_pools_ok {POOLS : Nat} {HashState SKey : Type}
    (P : Primitives HashState SKey) (hP : P.succeed) :
    ∀ (k x : Nat) (pool : Fin POOLS → HashState),
      (start_pools P k x pool).1 = Err.CRYPT_OK := by
  intro k
  induction k with
  | zero => intro x pool; rfl
  | succ k ih =>
    intro x pool
    unfold start_pools
    by_cases hx : x < POOLS
    · simp only [hx, dite_true, hP.1, ne_eq, not_true_eq_false, if_false]
      exact ih _ _
    · simp only [hx, dite_false]

/-- With succeeding primitives `fortuna_start` returns `CRYPT_OK`. -/
theorem fortuna_start_succeeds {POOLS : Nat} {HashState SKey : Type}
    (P : Primitives HashState SKey) (hP : P.succeed) (s : prng_state POOLS HashState SKey) :
    (fortuna_start P s).1 = Err.CRYPT_OK := by
  have h1 := @start_pools_ok POOLS HashState SKey P hP
  have h2 := hP.2.2.2.1
  unfold fortuna_start
  simp only [h1, h2, ne_eq, not_true_eq_false, if_false]

/-- With succeeding primitives `fortuna_update_seed` returns `CRYPT_OK`. -/
theorem fortuna_update_seed_succeeds {POOLS : Nat} {HashState SKey : Type}
    (P : Primitives HashState SKey) (hP : P.succeed) (inp : List Nat) (inlen : Nat)
    (s : prng_state POOLS HashState SKey) :
    (fortuna_update_seed P inp inlen s).1 = Err.CRYPT_OK := by
  obtain ⟨_, h2, h3, _, _⟩ := hP
  unfold fortuna_update_seed
  simp only [h2, h3, ne_eq, not_true_eq_false, if_false]

/-- C20. `fortuna_import` fails with `CRYPT_INVALID_ARG`, without modifying any field
of the state, whenever `inlen` is smaller than the export size of the Fortuna
descriptor (64); whenever `inlen` is at least that size and the primitives succeed, it
returns `CRYPT_OK`. -/
theorem fortuna_import_size_check {POOLS : Nat} {HashState SKey : Type}
    (P : Primitives HashState SKey) (inp : List Nat) (inlen : Nat)
    (s : prng_state POOLS HashState SKey) :
    ((inlen : Int) < fortuna_desc.export_size →
      fortuna_import P (some inp) inlen s = (Ret.value Err.CRYPT_INVALID_ARG, s)) ∧
    (fortuna_desc.export_size ≤ (inlen : Int) → P.succeed →
      (fortuna_import P (some inp) inlen s).1 = Ret.value Err.CRYPT_OK) ∧
    fortuna_desc.export_size = 64 := by
  have hsize : fortuna_desc.export_size % 2 ^ 64 = fortuna_desc.export_size := by decide
  refine ⟨?_, ?_, by decide⟩
  · intro h
    unfold fortuna_import
    simp only [hsize, h, if_true]
  · intro h hP
    have hnot : ¬ ((inlen : Int) < fortuna_desc.export_size) := by omega
    unfold fortuna_import
    simp only [hsize, hnot, if_false, fortuna_start_succeeds P hP s, ne_eq,
      not_true_eq_false, fortuna_update_seed_succeeds P hP]

/-! ## The Fortuna claims at concrete inputs -/

theorem toyPrimitives_succeed : toyPrimitives.succeed :=
  ⟨rfl, fun _ _ => rfl, fun _ => rfl, fun _ _ => rfl, fun _ _ => rfl⟩

theorem toyPrimitives_block16 : toyPrimitives.block16 := by
  intro pt skey
  simp [toyPrimitives]

theorem some_getD {α : Type} (o : Option α) (d : α) (h : o.isSome = true) :
    o = some (o.getD d) := by
  cases o with
  | none => cases h
  | some a => rfl

/-- A read of one byte from `readyState`. -/
theorem fortuna_read_ratchet_witness :
    (∃ s2 : prng_state 4 (List Nat) (List Nat),
      (fortuna_read toyPrimitives (RateLimit.STATIC 10) 0 (some [0]) 1 (some readyState)).2.2 =
        some s2 ∧
      s2.K = store (store readyState.K 0
          (toyPrimitives.rijndael_ecb_encrypt
            (Nat.iterate _fortuna_update_iv ((1 + 15) / 16) readyState.IV) readyState.skey).2) 16
          (toyPrimitives.rijndael_ecb_encrypt
            (_fortuna_update_iv (Nat.iterate _fortuna_update_iv ((1 + 15) / 16) readyState.IV))
            readyState.skey).2 ∧
      (readyState.K.length = 32 → toyPrimitives.block16 →
        s2.K = (toyPrimitives.rijndael_ecb_encrypt
            (Nat.iterate _fortuna_update_iv ((1 + 15) / 16) readyState.IV) readyState.skey).2 ++
          (toyPrimitives.rijndael_ecb_encrypt
            (_fortuna_update_iv (Nat.iterate _fortuna_update_iv ((1 + 15) / 16) readyState.IV))
            readyState.skey).2) ∧
      s2.IV = _fortuna_update_iv (_fortuna_update_iv
          (Nat.iterate _fortuna_update_iv ((1 + 15) / 16) readyState.IV)) ∧
      s2.skey = (toyPrimitives.rijndael_setup (s2.K.take 32) 0).2) ∧
    fortuna_read toyPrimitives (RateLimit.STATIC 10) 0 (some [0]) 0 (some readyState) =
      (0, some [0], some readyState) :=
  fortuna_read_ratchet toyPrimitives (RateLimit.STATIC 10) 0 [0] 1 readyState readyState
    (by decide) rfl rfl (by decide)

/-- A read of one byte from `fullState` with the counter rate limit 1, which lets the
reseed attempt through. -/
theorem fortuna_read_threshold_reseed_witness :
    ∃ s2 : prng_state 4 (List Nat) (List Nat),
      (fortuna_read toyPrimitives (RateLimit.STATIC 1) 0 (some [0]) 1 (some fullState)).2.2 =
        some s2 ∧
      s2.reset_cnt = (fullState.reset_cnt + 1) % 2 ^ 64 ∧ s2.pool0_len = 0 ∧
      (fullState.reset_cnt + 1 < 2 ^ 64 → fullState.reset_cnt < s2.reset_cnt) :=
  (fortuna_read_threshold_reseed toyPrimitives (RateLimit.STATIC 1) 0 [0] 1 fullState
    (by decide) rfl (by decide)).1
    (by show ¬ ((fullState.wd + 1) % 2 ^ 64 < 1); decide)
    (reseed_ok toyPrimitives toyPrimitives_succeed (RateLimit.STATIC 1) 0 fullState)

/-- An event of 40 bytes from source 7 for pool 0 of the cleared state. -/
theorem fortuna_add_truncates_witness :
    fortuna_add_random_event toyPrimitives 7 0 (some (List.range 40)) 40 zeroState =
      some (Ret.value Err.CRYPT_OK,
        { zeroState with
          pool := Function.update zeroState.pool ⟨0, by decide⟩
            (toyPrimitives.sha256_process
              (toyPrimitives.sha256_process (zeroState.pool ⟨0, by decide⟩) [7, min 40 32]).2
              ((List.range 40).take (min 40 32))).2
          pool0_len := if 0 = 0 then (zeroState.pool0_len + min 40 32) % 2 ^ 64
            else zeroState.pool0_len }) :=
  (fortuna_add_truncates toyPrimitives 7 0 (List.range 40) 40 zeroState (by decide)
    (by decide) (by decide) (fun _ _ => rfl)).2.1

/-- The state `demoS2`, reached from `fortuna_start` by two injection calls, has a valid
pool index. -/
theorem fortuna_add_entropy_round_robin_witness : demoS2.pool_idx < 4 :=
  (fortuna_add_entropy_round_robin toyPrimitives (RateLimit.STATIC 10) (by decide)
    (by decide)).2.2.1 demoS2
    ⟨zeroState, demoCalls,
      fortuna_start_succeeds toyPrimitives toyPrimitives_succeed zeroState,
      some_getD _ _ rfl⟩

theorem strictPrimitives_done_rejects : strictPrimitives.done_rejects_finalized := by
  intro md
  cases md with
  | none => intro h; cases h
  | some l => intro _ h; cases h

/-- Terminating `strictState` twice. -/
theorem fortuna_done_twice_witness :
    (fortuna_done strictPrimitives strictState).1 = Err.CRYPT_OK ∧
    (fortuna_done strictPrimitives (fortuna_done strictPrimitives strictState).2).1 ≠
      Err.CRYPT_OK :=
  ⟨rfl, fortuna_done_twice strictPrimitives strictPrimitives_done_rejects (by decide)
    strictState rfl⟩

/-- Exporting from `readyState` into a buffer of 40 bytes. -/
theorem fortuna_export_key_witness :
    (fortuna_export (List.replicate 40 0) 40 readyState).1 = Err.CRYPT_OK ∧
    (fortuna_export (List.replicate 40 0) 40 readyState).2.1.take 32 = readyState.K ∧
    (fortuna_export (List.replicate 40 0) 40 readyState).2.1.drop 32 =
      (List.replicate 40 0).drop 32 ∧
    (fortuna_export (List.replicate 40 0) 40 readyState).2.2.1 = 32 ∧
    (fortuna_export (List.replicate 40 0) 40 readyState).2.2.2 = readyState ∧
    fortuna_desc.export_size = 64 :=
  fortuna_export_key (List.replicate 40 0) 40 readyState (by decide) (by decide) (by decide)

/-- Importing 40 bytes (too short) and 64 bytes into the cleared state. -/
theorem fortuna_import_size_check_witness :
    fortuna_import toyPrimitives (some (List.replicate 40 1)) 40 zeroState =
      (Ret.value Err.CRYPT_INVALID_ARG, zeroState) ∧
    (fortuna_import toyPrimitives (some (List.replicate 64 1)) 64 zeroState).1 =
      Ret.value Err.CRYPT_OK :=
  ⟨(fortuna_import_size_check toyPrimitives (List.replicate 40 1) 40 zeroState).1 (by decide),
    (fortuna_import_size_check toyPrimitives (List.replicate 64 1) 64 zeroState).2.1
      (by decide) toyPrimitives_succeed⟩

/-! ## Facts about the counter -/

theorem update_iv_loop_past (k : Nat) :
    ∀ (x : Nat) (IV : List Nat), IV.length ≤ x → _fortuna_update_iv_loop k x IV = IV := by
  induction k with
  | zero => intro x IV _; rfl
  | succ k ih =>
    intro x IV hx
    unfold _fortuna_update_iv_loop
    by_cases h16 : x < 16
    · have hset : ∀ v, IV.set x v = IV := fun v => List.set_eq_of_length_le hx
      have hget : IV.getD x 0 = 0 := by
        rw [List.getD_eq_getElem?_getD, List.getElem?_eq_none hx]; rfl
      simp only [h16, if_true, hset, hget, ne_eq, not_true_eq_false, if_false]
      exact ih (x + 1) IV (by omega)
    · simp only [h16, if_false]

/-- The index loop of `_fortuna_update_iv` is the carry chain on the bytes from the
current index on. -/
theorem update_iv_loop_carry (suf : List Nat) :
    ∀ (pre : List Nat) (k : Nat), suf.length ≤ k → pre.length + suf.length ≤ 16 →
      _fortuna_update_iv_loop k pre.length (pre ++ suf) = pre ++ iv_carry suf := by
  induction suf with
  | nil =>
    intro pre k _ _
    rw [update_iv_loop_past k pre.length (pre ++ []) (by simp)]
    rfl
  | cons b suf ih =>
    intro pre k hk hlen
    simp only [List.length_cons] at hk hlen
    obtain ⟨k1, rfl⟩ : ∃ k1, k = k1 + 1 := ⟨k - 1, by omega⟩
    have h16 : pre.length < 16 := by omega
    have hget : (pre ++ b :: suf).getD pre.length 0 = b := by
      rw [List.getD_eq_getElem?_getD, List.getElem?_append_right (le_refl _)]
      simp
    have hset : (pre ++ b :: suf).set pre.length ((b + 1) &&& 255) =
        pre ++ ((b + 1) &&& 255) :: suf := by
      simp
    have hget2 : (pre ++ ((b + 1) &&& 255) :: suf).getD pre.length 0 = (b + 1) &&& 255 := by
      rw [List.getD_eq_getElem?_getD, List.getElem?_append_right (le_refl _)]
      simp
    unfold _fortuna_update_iv_loop
    simp only [h16, if_true, hget, hset, hget2]
    by_cases hv : (b + 1) &&& 255 ≠ 0
    · simp only [hv, if_true, iv_carry, ne_eq, not_false_eq_true]
    · have h := ih (pre ++ [(b + 1) &&& 255]) k1 (by omega) (by simp; omega)
      simp only [List.length_append, List.length_singleton, List.append_assoc,
        List.singleton_append] at h
      simp only [hv, if_false, iv_carry]
      rw [h]

theorem iv_value_lt (l : List Nat) (h : ∀ b ∈ l, b < 256) : iv_value l < 256 ^ l.length := by
  induction l with
  | nil => simp [iv_value]
  | cons b bs ih =>
    have hb := h b (List.mem_cons_self _ _)
    have := ih (fun c hc => h c (List.mem_cons_of_mem _ hc))
    simp only [iv_value, List.length_cons, pow_succ]
    omega

/-- The carry chain adds one modulo `256 ^ length`, keeps the length and the byte
range. -/
theorem iv_carry_value (l : List Nat) (h : ∀ b ∈ l, b < 256) :
    iv_value (iv_carry l) = (iv_value l + 1) % 256 ^ l.length ∧
    (iv_carry l).length = l.length ∧ (∀ b ∈ iv_carry l, b < 256) := by
  induction l with
  | nil => simp [iv_carry, iv_value]
  | cons b bs ih =>
    have hb := h b (List.mem_cons_self _ _)
    have hbs : ∀ c ∈ bs, c < 256 := fun c hc => h c (List.mem_cons_of_mem _ hc)
    obtain ⟨i1, i2, i3⟩ := ih hbs
    have hlt := iv_value_lt bs hbs
    have hand : (b + 1) &&& 255 = (b + 1) % 256 := Nat.and_pow_two_sub_one_eq_mod (b + 1) 8
    have hpos : 0 < 256 ^ bs.length := Nat.pow_pos (by decide)
    by_cases hv : (b + 1) &&& 255 ≠ 0
    · simp only [iv_carry, hv, if_true, ne_eq, not_false_eq_true]
      rw [hand] at hv ⊢
      have hb2 : b + 1 < 256 := by omega
      refine ⟨?_, by simp, ?_⟩
      · simp only [iv_value, List.length_cons, pow_succ]
        rw [Nat.mod_eq_of_lt hb2, Nat.mod_eq_of_lt (by omega)]
        omega
      · intro c hc
        simp only [List.mem_cons] at hc
        rcases hc with rfl | hc
        · omega
        · exact hbs c hc
    · simp only [iv_carry, hv, if_false]
      rw [hand] at hv ⊢
      have hb2 : b = 255 := by omega
      subst hb2
      refine ⟨?_, by simp [i2], ?_⟩
      · simp only [iv_value, List.length_cons, pow_succ, i1]
        have e : 255 + 256 * iv_value bs + 1 = 256 * (iv_value bs + 1) := by omega
        rw [e, Nat.mul_comm (256 ^ bs.length) 256, Nat.mul_mod_mul_left]
        omega
      · intro c hc
        simp only [List.mem_cons] at hc
        rcases hc with rfl | hc
        · omega
        · exact i3 c hc

/-- The counter update on a well-formed counter: `_fortuna_update_iv` adds one modulo
`2 ^ 128` to the little-endian value and leaves a well-formed counter. -/
theorem update_iv_value (IV : List Nat) (h : wf_iv IV) :
    iv_value (_fortuna_update_iv IV) = (iv_value IV + 1) % 2 ^ 128 ∧
    wf_iv (_fortuna_update_iv IV) := by
  obtain ⟨hlen, hb⟩ := h
  have e : _fortuna_update_iv IV = iv_carry IV := by
    have := update_iv_loop_carry IV [] 16 (by omega) (by simp; omega)
    simpa [_fortuna_update_iv] using this
  obtain ⟨c1, c2, c3⟩ := iv_carry_value IV hb
  rw [e]
  refine ⟨?_, ⟨by rw [c2, hlen], c3⟩⟩
  rw [c1, hlen]
  norm_num

/-- Iterating the counter update `i` times adds `i` modulo `2 ^ 128`. -/
theorem update_iv_iterate (i : Nat) :
    ∀ IV : List Nat, wf_iv IV →
      iv_value (Nat.iterate _fortuna_update_iv i IV) = (iv_value IV + i) % 2 ^ 128 ∧
      wf_iv (Nat.iterate _fortuna_update_iv i IV) := by
  induction i with
  | zero =>
    intro IV h
    refine ⟨?_, h⟩
    have := iv_value_lt IV h.2
    rw [h.1] at this
    simp only [Function.iterate_zero, id_eq, Nat.add_zero]
    rw [Nat.mod_eq_of_lt]
    have e : (256 : Nat) ^ 16 = 2 ^ 128 := by norm_num
    omega
  | succ i ih =>
    intro IV h
    obtain ⟨u1, u2⟩ := update_iv_value IV h
    obtain ⟨j1, j2⟩ := ih (_fortuna_update_iv IV) u2
    rw [Function.iterate_succ_apply]
    refine ⟨?_, j2⟩
    rw [j1, u1, Nat.mod_add_mod]
    congr 1
    omega

/-! ## Facts about the output stream -/

theorem keystream_length {HashState SKey : Type} (P : Primitives HashState SKey)
    (hb : P.block16) (skey : SKey) (m : Nat) :
    ∀ IV : List Nat, (keystream P skey m IV).length = 16 * m := by
  induction m with
  | zero => intro IV; rfl
  | succ m ih =>
    intro IV
    simp only [keystream, List.length_append, hb IV skey, ih]
    omega

theorem keystream_succ_right {HashState SKey : Type} (P : Primitives HashState SKey)
    (skey : SKey) (m : Nat) :
    ∀ IV : List Nat, keystream P skey (m + 1) IV =
      keystream P skey m IV ++
        (P.rijndael_ecb_encrypt (Nat.iterate _fortuna_update_iv m IV) skey).2 := by
  induction m with
  | zero => intro IV; simp [keystream]
  | succ m ih =>
    intro IV
    have h := ih (_fortuna_update_iv IV)
    calc keystream P skey (m + 1 + 1) IV
        = (P.rijndael_ecb_encrypt IV skey).2 ++
            keystream P skey (m + 1) (_fortuna_update_iv IV) := rfl
      _ = (P.rijndael_ecb_encrypt IV skey).2 ++
            (keystream P skey m (_fortuna_update_iv IV) ++
              (P.rijndael_ecb_encrypt
                (Nat.iterate _fortuna_update_iv m (_fortuna_update_iv IV)) skey).2) := by
          rw [h]
      _ = keystream P skey (m + 1) IV ++
            (P.rijndael_ecb_encrypt (Nat.iterate _fortuna_update_iv (m + 1) IV) skey).2 := by
          rw [Function.iterate_succ_apply, ← List.append_assoc]
          rfl

/-- The output stream is the concatenation of the blocks `E(c), E(c+1), ..`: block `i`
encrypts the counter after `i` updates. -/
theorem keystream_blocks {HashState SKey : Type} (P : Primitives HashState SKey)
    (skey : SKey) (m : Nat) (IV : List Nat) :
    keystream P skey m IV =
      ((List.range m).map (fun i =>
        (P.rijndael_ecb_encrypt (Nat.iterate _fortuna_update_iv i IV) skey).2)).flatten := by
  induction m with
  | zero => rfl
  | succ m ih =>
    rw [keystream_succ_right, ih, List.range_succ, List.map_append, List.flatten_append]
    simp

/-- The buffer after the loop over whole blocks. -/
theorem read_blocks_content {HashState SKey : Type} (P : Primitives HashState SKey)
    (hb : P.block16) (skey : SKey) :
    ∀ (outlen : Nat) (buf : List Nat) (off : Nat) (IV : List Nat),
      off + outlen ≤ buf.length →
      (read_blocks P skey outlen buf off IV).1 =
        buf.take off ++ keystream P skey (outlen / 16) IV ++
          buf.drop (off + 16 * (outlen / 16)) := by
  intro outlen
  induction outlen using Nat.strong_induction_on with
  | _ outlen ih =>
    intro buf off IV hlen
    by_cases h16 : 16 ≤ outlen
    · rw [read_blocks, if_pos h16]
      have hl := hb IV skey
      have hsl : (store buf off (P.rijndael_ecb_encrypt IV skey).2).length = buf.length :=
        store_length _ _ _ (by omega)
      rw [ih (outlen - 16) (by omega) _ (off + 16) (_fortuna_update_iv IV) (by omega)]
      have e2 : outlen / 16 = (outlen - 16) / 16 + 1 := by omega
      rw [e2, store_drop _ _ _ _ (by omega) (by omega)]
      have e3 : (store buf off (P.rijndael_ecb_encrypt IV skey).2).take (off + 16) =
          buf.take off ++ (P.rijndael_ecb_encrypt IV skey).2 := by
        unfold store
        rw [List.take_append_of_le_length (by simp; omega)]
        apply List.take_of_length_le
        simp; omega
      rw [e3]
      have e4 : off + 16 + 16 * ((outlen - 16) / 16) = off + 16 * ((outlen - 16) / 16 + 1) := by
        omega
      rw [e4]
      simp only [keystream, List.append_assoc]
    · rw [read_blocks, if_neg h16]
      have e0 : outlen / 16 = 0 := by omega
      simp [e0, keystream]

/-- The output buffer after the generating path of a read: the first `outlen` bytes of
the output stream, then the bytes of the buffer from `outlen` on. -/
theorem read_output {HashState SKey : Type} (P : Primitives HashState SKey)
    (hb : P.block16) (skey : SKey) (outlen : Nat) (buf : List Nat) (IV : List Nat)
    (hlen : outlen ≤ buf.length) :
    (if 0 < (read_blocks P skey outlen buf 0 IV).2.2.1 then
        store (read_blocks P skey outlen buf 0 IV).1 (read_blocks P skey outlen buf 0 IV).2.1
          ((P.rijndael_ecb_encrypt (read_blocks P skey outlen buf 0 IV).2.2.2 skey).2.take
            (read_blocks P skey outlen buf 0 IV).2.2.1)
      else (read_blocks P skey outlen buf 0 IV).1) =
      (keystream P skey ((outlen + 15) / 16) IV).take outlen ++ buf.drop outlen := by
  obtain ⟨a4, a5, a6⟩ := read_blocks_counts P skey outlen buf 0 IV
  have hc := read_blocks_content P hb skey outlen buf 0 IV (by omega)
  have hkl := keystream_length P hb skey (outlen / 16) IV
  rw [Nat.zero_add] at a4 hc
  simp only [List.take_zero, List.nil_append] at hc
  rw [a4, a5, a6, hc]
  by_cases h0 : 0 < outlen % 16
  · have e : (outlen + 15) / 16 = outlen / 16 + 1 := by omega
    have hct := hb (Nat.iterate _fortuna_update_iv (outlen / 16) IV) skey
    rw [if_pos h0, e, keystream_succ_right]
    have hsplit : outlen = 16 * (outlen / 16) + outlen % 16 := by omega
    have ht : (keystream P skey (outlen / 16) IV ++
        (P.rijndael_ecb_encrypt (Nat.iterate _fortuna_update_iv (outlen / 16) IV) skey).2).take
          outlen =
        keystream P skey (outlen / 16) IV ++
          ((P.rijndael_ecb_encrypt (Nat.iterate _fortuna_update_iv (outlen / 16) IV)
            skey).2).take (outlen % 16) := by
      rw [List.take_append_eq_append_take, hkl]
      congr 1
      · apply List.take_of_length_le; omega
      · congr 1; omega
    rw [ht]
    unfold store
    have hl : ((P.rijndael_ecb_encrypt (Nat.iterate _fortuna_update_iv (outlen / 16) IV)
        skey).2.take (outlen % 16)).length = outlen % 16 := by
      rw [List.length_take, hct]; omega
    rw [hl]
    have t1 : (keystream P skey (outlen / 16) IV ++ buf.drop (16 * (outlen / 16))).take
        (16 * (outlen / 16)) = keystream P skey (outlen / 16) IV := by
      rw [List.take_append_of_le_length (by omega)]
      apply List.take_of_length_le; omega
    have t2 : (keystream P skey (outlen / 16) IV ++ buf.drop (16 * (outlen / 16))).drop
        (16 * (outlen / 16) + outlen % 16) = buf.drop outlen := by
      rw [List.drop_append_eq_append_drop, hkl]
      have : List.drop (16 * (outlen / 16) + outlen % 16) (keystream P skey (outlen / 16) IV)
          = [] := by
        apply List.drop_eq_nil_of_le; omega
      rw [this, List.nil_append, List.drop_drop]
      congr 1
      omega
    rw [t1, t2]
  · have e : (outlen + 15) / 16 = outlen / 16 := by omega
    have e2 : 16 * (outlen / 16) = outlen := by omega
    rw [if_neg h0, e, e2]
    congr 1
    symm
    apply List.take_of_length_le
    omega

/-! ## Facts about the pools of a reseed -/

theorem included_from_mem (POOLS rc : Nat) (k : Nat) :
    ∀ (x : Nat) (y : Fin POOLS),
      y ∈ included_from POOLS rc k x ↔
        (x ≤ y.val ∧ y.val < x + k ∧
          ∀ z, x ≤ z → z ≤ y.val → (z = 0 ∨ (rc >>> (z - 1)) &&& 1 = 0)) := by
  induction k with
  | zero =>
    intro x y
    simp only [included_from, List.not_mem_nil, false_iff]
    rintro ⟨h1, h2, _⟩
    omega
  | succ k ih =>
    intro x y
    unfold included_from
    by_cases hx : x < POOLS
    · simp only [hx, dite_true]
      by_cases hc : x = 0 ∨ (rc >>> (x - 1)) &&& 1 = 0
      · simp only [hc, if_true, List.mem_cons, ih]
        constructor
        · rintro (h | ⟨h1, h2, h3⟩)
          · subst h
            refine ⟨le_refl _, by simp, ?_⟩
            intro z hz1 hz2
            have hz : z = x := le_antisymm hz2 hz1
            rw [hz]; exact hc
          · refine ⟨by omega, by omega, ?_⟩
            intro z hz1 hz2
            by_cases hz : z = x
            · rw [hz]; exact hc
            · exact h3 z (by omega) hz2
        · rintro ⟨h1, h2, h3⟩
          by_cases hy : y.val = x
          · left; exact Fin.ext hy
          · right
            exact ⟨by omega, by omega, fun z hz1 hz2 => h3 z (by omega) hz2⟩
      · simp only [hc, if_false, List.not_mem_nil, false_iff]
        rintro ⟨h1, _, h3⟩
        exact hc (h3 x (le_refl _) h1)
    · simp only [hx, dite_false, List.not_mem_nil, false_iff]
      rintro ⟨h1, _, _⟩
      have := y.isLt
      omega

/-- Pool `y` is included exactly when every index up to `y` passes the test of the
loop. -/
theorem included_pools_mem (POOLS rc : Nat) (y : Fin POOLS) :
    y ∈ included_pools POOLS rc ↔
      ∀ z, z ≤ y.val → (z = 0 ∨ (rc >>> (z - 1)) &&& 1 = 0) := by
  unfold included_pools
  rw [included_from_mem]
  constructor
  · rintro ⟨_, _, h⟩ z hz
    exact h z (Nat.zero_le _) hz
  · intro h
    exact ⟨Nat.zero_le _, by have := y.isLt; omega, fun z _ hz => h z hz⟩

theorem included_from_vals (POOLS rc : Nat) (k : Nat) :
    ∀ x : Nat, (included_from POOLS rc k x).map Fin.val =
      List.range' x (included_from POOLS rc k x).length := by
  induction k with
  | zero => intro x; rfl
  | succ k ih =>
    intro x
    unfold included_from
    by_cases hx : x < POOLS
    · simp only [hx, dite_true]
      by_cases hc : x = 0 ∨ (rc >>> (x - 1)) &&& 1 = 0
      · simp only [hc, if_true, List.map_cons, List.length_cons, List.range'_succ, ih]
      · simp only [hc, if_false, List.map_nil, List.length_nil, List.range'_zero]
    · simp only [hx, dite_false, List.map_nil, List.length_nil, List.range'_zero]

/-- The included pools are the pools `0 .. j-1` for some `j`, in this order. -/
theorem included_pools_vals (POOLS rc : Nat) :
    (included_pools POOLS rc).map Fin.val = List.range (included_pools POOLS rc).length := by
  unfold included_pools
  rw [included_from_vals, List.range_eq_range']

/-- The bits `0 .. i-1` of `rc` are all zero exactly when `2 ^ i` divides `rc`. -/
theorem low_bits_zero_iff (rc : Nat) (i : Nat) :
    (∀ z, z ≤ i → (z = 0 ∨ (rc >>> (z - 1)) &&& 1 = 0)) ↔ 2 ^ i ∣ rc := by
  induction i with
  | zero =>
    simp only [pow_zero, one_dvd, iff_true]
    intro z hz
    left; omega
  | succ i ih =>
    have hstep : (∀ z, z ≤ i + 1 → (z = 0 ∨ (rc >>> (z - 1)) &&& 1 = 0)) ↔
        ((∀ z, z ≤ i → (z = 0 ∨ (rc >>> (z - 1)) &&& 1 = 0)) ∧ (rc >>> i) &&& 1 = 0) := by
      constructor
      · intro h
        refine ⟨fun z hz => h z (by omega), ?_⟩
        rcases h (i + 1) (le_refl _) with h0 | h0
        · omega
        · simpa using h0
      · rintro ⟨h1, h2⟩ z hz
        by_cases hz1 : z = i + 1
        · right; rw [hz1]; simpa using h2
        · exact h1 z (by omega)
    rw [hstep, ih, Nat.shiftRight_eq_div_pow, Nat.and_one_is_mod]
    constructor
    · rintro ⟨⟨q, hq⟩, h2⟩
      have hpos : 0 < 2 ^ i := Nat.pow_pos (by decide)
      rw [hq, Nat.mul_div_cancel_left q hpos] at h2
      obtain ⟨t, ht⟩ : 2 ∣ q := Nat.dvd_of_mod_eq_zero h2
      exact ⟨t, by rw [hq, ht, pow_succ, Nat.mul_assoc]⟩
    · rintro ⟨t, ht⟩
      have hpos : 0 < 2 ^ i := Nat.pow_pos (by decide)
      have hq : rc = 2 ^ i * (2 * t) := by rw [ht, pow_succ, Nat.mul_assoc]
      refine ⟨⟨2 * t, hq⟩, ?_⟩
      rw [hq, Nat.mul_div_cancel_left _ hpos]
      omega

/-- Pool `i` is included in a reseed with local counter value `rc` exactly when `2 ^ i`
divides `rc`. -/
theorem included_pools_dvd (POOLS rc : Nat) (y : Fin POOLS) :
    y ∈ included_pools POOLS rc ↔ 2 ^ y.val ∣ rc := by
  rw [included_pools_mem, low_bits_zero_iff]

theorem process_chunks_flatten {HashState SKey : Type} (P : Primitives HashState SKey)
    (hs : P.streaming) (md : HashState) (chunks : List (List Nat)) :
    ∀ a : List Nat, process_chunks P (P.sha256_process md a).2 chunks =
      (P.sha256_process md (a ++ chunks.flatten)).2 := by
  induction chunks with
  | nil => intro a; simp [process_chunks]
  | cons c cs ih =>
    intro a
    have h := ih (a ++ c)
    unfold process_chunks at h ⊢
    rw [List.foldl_cons, hs md a c, h, List.flatten_cons, List.append_assoc]

/-- The loop over the pools of a reseed that ends with `CRYPT_OK` has fed the digests
of the included pools, in order, to the hash state and has reset exactly these pools. -/
theorem reseed_pools_eq {POOLS : Nat} {HashState SKey : Type} (P : Primitives HashState SKey)
    (rc : Nat) (k : Nat) :
    ∀ (x : Nat) (md : HashState) (pool : Fin POOLS → HashState),
      (reseed_pools P rc k x md pool).1 = Err.CRYPT_OK →
      (reseed_pools P rc k x md pool).2.1 =
          process_chunks P md ((included_from POOLS rc k x).map
            (fun y => (P.sha256_done (pool y)).2.2.take 32)) ∧
      (reseed_pools P rc k x md pool).2.2 =
          (fun y => if y ∈ included_from POOLS rc k x then P.sha256_init.2 else pool y) := by
  induction k with
  | zero =>
    intro x md pool _
    refine ⟨rfl, ?_⟩
    funext y
    simp [reseed_pools, included_from]
  | succ k ih =>
    intro x md pool hok
    unfold reseed_pools at hok ⊢
    unfold included_from
    by_cases hx : x < POOLS
    · simp only [hx, dite_true] at hok ⊢
      by_cases hc : x = 0 ∨ (rc >>> (x - 1)) &&& 1 = 0
      · simp only [hc, if_true] at hok ⊢
        by_cases h1 : (P.sha256_done (pool ⟨x, hx⟩)).1 = Err.CRYPT_OK
        · simp only [h1, ne_eq, not_true_eq_false, if_false] at hok ⊢
          by_cases h2 : (P.sha256_process md
              ((P.sha256_done (pool ⟨x, hx⟩)).2.2.take 32)).1 = Err.CRYPT_OK
          · simp only [h2, ne_eq, not_true_eq_false, if_false] at hok ⊢
            by_cases h3 : P.sha256_init.1 = Err.CRYPT_OK
            · simp only [h3, ne_eq, not_true_eq_false, if_false] at hok ⊢
              obtain ⟨e1, e2⟩ := ih _ _ _ hok
              have hfar : ∀ y ∈ included_from POOLS rc k (x + 1),
                  Function.update (Function.update pool ⟨x, hx⟩
                    (P.sha256_done (pool ⟨x, hx⟩)).2.1) ⟨x, hx⟩ P.sha256_init.2 y = pool y := by
                intro y hy
                have hge := ((included_from_mem POOLS rc k (x + 1) y).1 hy).1
                have hne : y ≠ ⟨x, hx⟩ := by
                  intro h; rw [h] at hge; simp at hge
                simp [Function.update, hne]
              constructor
              · rw [e1, List.map_cons]
                unfold process_chunks
                rw [List.foldl_cons]
                congr 1
                apply List.map_congr_left
                intro y hy
                rw [hfar y hy]
              · rw [e2]
                funext y
                by_cases hy : y = ⟨x, hx⟩
                · subst hy
                  have hnot : (⟨x, hx⟩ : Fin POOLS) ∉ included_from POOLS rc k (x + 1) := by
                    intro hm
                    have := ((included_from_mem POOLS rc k (x + 1) _).1 hm).1
                    simp at this
                  simp [hnot]
                · by_cases hm : y ∈ included_from POOLS rc k (x + 1)
                  · simp [hm]
                  · simp [hm, hy, Function.update]
            · simp only [h3, ne_eq, not_false_eq_true, if_true] at hok
          · simp only [h2, ne_eq, not_false_eq_true, if_true] at hok
        · simp only [h1, ne_eq, not_false_eq_true, if_true] at hok
      · simp only [hc, if_false]
        refine ⟨rfl, ?_⟩
        funext y
        simp
    · simp only [hx, dite_false]
      refine ⟨rfl, ?_⟩
      funext y
      simp

/-- The fields of the state after a run of the reseed body that ends with `CRYPT_OK`. -/
theorem reseed_body_success {POOLS : Nat} {HashState SKey : Type}
    (P : Primitives HashState SKey) (rl : RateLimit) (now : Nat)
    (s : prng_state POOLS HashState SKey)
    (hok : (reseed_body P rl now s).1 = Err.CRYPT_OK) :
    (reseed_pools P ((s.reset_cnt + 1) % 2 ^ 64) POOLS 0
        (P.sha256_process P.sha256_init.2 (s.K.take 32)).2 s.pool).1 = Err.CRYPT_OK ∧
    (reseed_body P rl now s).2.pool =
      (reseed_pools P ((s.reset_cnt + 1) % 2 ^ 64) POOLS 0
        (P.sha256_process P.sha256_init.2 (s.K.take 32)).2 s.pool).2.2 ∧
    (reseed_body P rl now s).2.K =
      store s.K 0 (P.sha256_done (reseed_pools P ((s.reset_cnt + 1) % 2 ^ 64) POOLS 0
        (P.sha256_process P.sha256_init.2 (s.K.take 32)).2 s.pool).2.1).2.2 ∧
    (reseed_body P rl now s).2.skey =
      (P.rijndael_setup ((reseed_body P rl now s).2.K.take 32) 0).2 ∧
    (reseed_body P rl now s).2.IV = _fortuna_update_iv s.IV ∧
    (rl = RateLimit.TIMED → (reseed_body P rl now s).2.wd = now) ∧
    (∀ w, rl = RateLimit.STATIC w → (reseed_body P rl now s).2.wd = 0) := by
  unfold reseed_body at hok ⊢
  simp only at hok ⊢
  split_ifs at hok ⊢ <;> simp_all

/-- A reseed attempt that the rate limiter lets through runs the reseed body on the
state with at most `wd` changed. -/
theorem reseed_runs_body {POOLS : Nat} {HashState SKey : Type}
    (P : Primitives HashState SKey) (rl : RateLimit) (now : Nat)
    (s : prng_state POOLS HashState SKey) (h : reseed_permitted rl now s) :
    ∃ w : Nat, _fortuna_reseed P rl now s = reseed_body P rl now { s with wd := w } := by
  cases rl with
  | TIMED =>
    refine ⟨s.wd, ?_⟩
    have h1 : ¬ now = s.wd := h
    simp only [_fortuna_reseed, h1, if_false]
  | STATIC wdmax =>
    refine ⟨(s.wd + 1) % 2 ^ 64, ?_⟩
    have h1 : ¬ ((s.wd + 1) % 2 ^ 64 < wdmax) := h
    simp only [_fortuna_reseed, h1, if_false]

/-- The state after a performed reseed: an attempt that the rate limiter lets through
and that returns `CRYPT_OK`. -/
theorem reseed_performed {POOLS : Nat} {HashState SKey : Type}
    (P : Primitives HashState SKey) (rl : RateLimit) (now : Nat)
    (s : prng_state POOLS HashState SKey) (h : reseed_permitted rl now s)
    (hok : (_fortuna_reseed P rl now s).1 = Err.CRYPT_OK) :
    (_fortuna_reseed P rl now s).2.pool =
      (fun y => if y ∈ included_pools POOLS ((s.reset_cnt + 1) % 2 ^ 64)
        then P.sha256_init.2 else s.pool y) ∧
    (_fortuna_reseed P rl now s).2.K =
      store s.K 0 (P.sha256_done (process_chunks P
        (P.sha256_process P.sha256_init.2 (s.K.take 32)).2
        ((included_pools POOLS ((s.reset_cnt + 1) % 2 ^ 64)).map
          (fun y => (P.sha256_done (s.pool y)).2.2.take 32)))).2.2 ∧
    (_fortuna_reseed P rl now s).2.skey =
      (P.rijndael_setup ((_fortuna_reseed P rl now s).2.K.take 32) 0).2 ∧
    (_fortuna_reseed P rl now s).2.IV = _fortuna_update_iv s.IV ∧
    (_fortuna_reseed P rl now s).2.pool0_len = 0 ∧
    (_fortuna_reseed P rl now s).2.reset_cnt = (s.reset_cnt + 1) % 2 ^ 64 ∧
    (_fortuna_reseed P rl now s).2.ready = s.ready ∧
    (_fortuna_reseed P rl now s).2.pool_idx = s.pool_idx ∧
    (rl = RateLimit.TIMED → (_fortuna_reseed P rl now s).2.wd = now) ∧
    (∀ w, rl = RateLimit.STATIC w → (_fortuna_reseed P rl now s).2.wd = 0) := by
  obtain ⟨w, hw⟩ := reseed_runs_body P rl now s h
  rw [hw] at hok ⊢
  obtain ⟨b1, b2, b3, b4, b5, b6, b7⟩ := reseed_body_success P rl now _ hok
  obtain ⟨f1, f2, f3, _⟩ := reseed_body_fields P rl now { s with wd := w }
  obtain ⟨f4, f5⟩ := f3 hok
  obtain ⟨e1, e2⟩ := reseed_pools_eq P ((s.reset_cnt + 1) % 2 ^ 64) POOLS 0 _ _ b1
  refine ⟨?_, ?_, b4, b5, f5, f4, f1, f2, b6, b7⟩
  · rw [b2, e2]; rfl
  · rw [b3, e1]; rfl

/-- With a streaming hash of 32-byte digests and a key of 32 bytes, the key after a
performed reseed is the hash of the old key followed by the digests of the included
pools. -/
theorem reseed_key_hash {POOLS : Nat} {HashState SKey : Type}
    (P : Primitives HashState SKey) (hs : P.streaming) (hd : P.digest32)
    (K : List Nat) (hK : K.length = 32) (pool : Fin POOLS → HashState)
    (inc : List (Fin POOLS)) :
    store K 0 (P.sha256_done (process_chunks P
        (P.sha256_process P.sha256_init.2 (K.take 32)).2
        (inc.map (fun y => (P.sha256_done (pool y)).2.2.take 32)))).2.2 =
      sha256 P (K ++ (inc.map (fun y => (P.sha256_done (pool y)).2.2)).flatten) := by
  have ht : K.take 32 = K := List.take_of_length_le (by omega)
  have hdig : (fun y => (P.sha256_done (pool y)).2.2.take 32) =
      (fun y => (P.sha256_done (pool y)).2.2) := by
    funext y
    exact List.take_of_length_le (by rw [hd])
  rw [ht, hdig, process_chunks_flatten P hs]
  unfold sha256 store
  rw [List.take_zero, List.nil_append, Nat.zero_add, hd, List.drop_of_length_le (by omega),
    List.append_nil]

/-! ## Facts about the key after import and about the scratch variables -/

/-- The key after `fortuna_update_seed` with succeeding primitives. -/
theorem update_seed_key {POOLS : Nat} {HashState SKey : Type}
    (P : Primitives HashState SKey) (hP : P.succeed) (inp : List Nat) (inlen : Nat)
    (s : prng_state POOLS HashState SKey) :
    (fortuna_update_seed P inp inlen s).2.K =
      store s.K 0 (P.sha256_done (P.sha256_process
        (P.sha256_process P.sha256_init.2 (s.K.take 32)).2 (inp.take inlen)).2).2.2 := by
  obtain ⟨_, h2, h3, _, _⟩ := hP
  unfold fortuna_update_seed
  simp only [h2, h3, ne_eq, not_true_eq_false, if_false]

/-- With a streaming hash of 32-byte digests and a key of 32 bytes, the key after
`fortuna_update_seed` is the hash of the old key followed by the input. -/
theorem update_seed_key_hash {POOLS : Nat} {HashState SKey : Type}
    (P : Primitives HashState SKey) (hP : P.succeed) (hs : P.streaming) (hd : P.digest32)
    (inp : List Nat) (inlen : Nat) (s : prng_state POOLS HashState SKey)
    (hK : s.K.length = 32) :
    (fortuna_update_seed P inp inlen s).2.K = sha256 P (s.K ++ inp.take inlen) := by
  have ht : s.K.take 32 = s.K := List.take_of_length_le (by omega)
  rw [update_seed_key P hP, ht, hs]
  unfold sha256 store
  rw [List.take_zero, List.nil_append, Nat.zero_add, hd, List.drop_of_length_le (by omega),
    List.append_nil]

theorem zeromem_key (K : List Nat) (hK : K.length = 32) :
    zeromem K 32 = List.replicate 32 0 := by
  unfold zeromem store
  rw [List.take_zero, List.nil_append, Nat.zero_add, List.length_replicate,
    List.drop_of_length_le (by omega), List.append_nil]

/-- The pool loop of `_fortuna_reseed` with its locals returns the code of the loop, and
on `CRYPT_OK` the same hash state `md`. -/
theorem reseed_pools_locals_code {POOLS : Nat} {HashState SKey : Type}
    (P : Primitives HashState SKey) (rc : Nat) (k : Nat) :
    ∀ (x : Nat) (md : HashState) (pool : Fin POOLS → HashState) (tmp : Scratch (List Nat)),
      (reseed_pools_locals P rc k x md pool tmp).1 = (reseed_pools P rc k x md pool).1 ∧
      ((reseed_pools P rc k x md pool).1 = Err.CRYPT_OK →
        (reseed_pools_locals P rc k x md pool tmp).2.1 = (reseed_pools P rc k x md pool).2.1) := by
  induction k with
  | zero => intro x md pool tmp; exact ⟨rfl, fun _ => rfl⟩
  | succ k ih =>
    intro x md pool tmp
    unfold reseed_pools_locals reseed_pools
    by_cases hx : x < POOLS
    · simp only [hx, dite_true]
      by_cases hc : x = 0 ∨ (rc >>> (x - 1)) &&& 1 = 0
      · simp only [hc, if_true]
        by_cases h1 : (P.sha256_done (pool ⟨x, hx⟩)).1 = Err.CRYPT_OK
        · simp only [h1, ne_eq, not_true_eq_false, if_false]
          by_cases h2 : (P.sha256_process md
              ((P.sha256_done (pool ⟨x, hx⟩)).2.2.take 32)).1 = Err.CRYPT_OK
          · simp only [h2, ne_eq, not_true_eq_false, if_false]
            by_cases h3 : P.sha256_init.1 = Err.CRYPT_OK
            · simp only [h3, ne_eq, not_true_eq_false, if_false]
              exact ih _ _ _ _
            · simp only [h3, ne_eq, not_false_eq_true, if_true, true_and]
              intro h; exact h.elim
          · simp only [h2, ne_eq, not_false_eq_true, if_true, true_and]
            intro h; exact h.elim
        · simp only [h1, ne_eq, not_false_eq_true, if_true, true_and]
          intro h; exact h.elim
      · simp only [hc, if_false, true_and, implies_true]
    · simp only [hx, dite_false, true_and, implies_true]

/-- With `LTC_CLEAN_STACK`, a run of the reseed body that ends with `CRYPT_OK` leaves
both locals wiped. -/
theorem reseed_body_locals_wiped {POOLS : Nat} {HashState SKey : Type}
    (P : Primitives HashState SKey) (rl : RateLimit) (now : Nat)
    (s : prng_state POOLS HashState SKey)
    (hok : (reseed_body P rl now s).1 = Err.CRYPT_OK) :
    reseed_body_locals P true s = (Scratch.zeroed, Scratch.zeroed) := by
  obtain ⟨l1, l2⟩ := reseed_pools_locals_code P ((s.reset_cnt + 1) % 2 ^ 64) POOLS 0
    (P.sha256_process P.sha256_init.2 (s.K.take 32)).2 s.pool Scratch.untouched
  unfold reseed_body at hok
  unfold reseed_body_locals
  simp only at hok ⊢
  by_cases h1 : (P.sha256_process P.sha256_init.2 (s.K.take 32)).1 = Err.CRYPT_OK
  · simp only [h1, ne_eq, not_true_eq_false, if_false] at hok ⊢
    by_cases h2 : (reseed_pools P ((s.reset_cnt + 1) % 2 ^ 64) POOLS 0
        (P.sha256_process P.sha256_init.2 (s.K.take 32)).2 s.pool).1 = Err.CRYPT_OK
    · rw [l1, l2 h2]
      simp only [h2, ne_eq, not_true_eq_false, if_false] at hok ⊢
      split_ifs at hok ⊢ <;> simp_all
    · simp only [h2, ne_eq, not_false_eq_true, if_true] at hok
  · simp only [h1, ne_eq, not_false_eq_true, if_true] at hok

/-- The locals of `_fortuna_reseed` for an attempt that the rate limiter lets through
are those of the reseed body. -/
theorem reseed_locals_runs_body {POOLS : Nat} {HashState SKey : Type}
    (P : Primitives HashState SKey) (rl : RateLimit) (now : Nat) (cs : Bool)
    (s : prng_state POOLS HashState SKey) (h : reseed_permitted rl now s) :
    ∃ w : Nat, _fortuna_reseed P rl now s = reseed_body P rl now { s with wd := w } ∧
      _fortuna_reseed_locals P rl now cs s = reseed_body_locals P cs { s with wd := w } := by
  cases rl with
  | TIMED =>
    refine ⟨s.wd, ?_, ?_⟩
    · have h1 : ¬ now = s.wd := h
      simp only [_fortuna_reseed, h1, if_false]
    · have h1 : ¬ now = s.wd := h
      simp only [_fortuna_reseed_locals, h1, if_false]
  | STATIC wdmax =>
    refine ⟨(s.wd + 1) % 2 ^ 64, ?_, ?_⟩
    · have h1 : ¬ ((s.wd + 1) % 2 ^ 64 < wdmax) := h
      simp only [_fortuna_reseed, h1, if_false]
    · have h1 : ¬ ((s.wd + 1) % 2 ^ 64 < wdmax) := h
      simp only [_fortuna_reseed_locals, h1, if_false]

/-- The locals of `_fortuna_reseed` for an attempt that the rate limiter stops are not
used. -/
theorem reseed_locals_skipped {POOLS : Nat} {HashState SKey : Type}
    (P : Primitives HashState SKey) (rl : RateLimit) (now : Nat) (cs : Bool)
    (s : prng_state POOLS HashState SKey) (h : ¬ reseed_permitted rl now s) :
    _fortuna_reseed_locals P rl now cs s = (Scratch.untouched, Scratch.untouched) := by
  cases rl with
  | TIMED =>
    have h1 : now = s.wd := by
      by_contra hne; exact h hne
    simp only [_fortuna_reseed_locals, h1, if_true]
  | STATIC wdmax =>
    have h1 : (s.wd + 1) % 2 ^ 64 < wdmax := by
      by_contra hne; exact h hne
    simp only [_fortuna_reseed_locals, h1, if_true]

/-! ## Fortuna: import, scratch variables, output stream and reseed -/

/-- C21, as stated, fails: importing the same 64 bytes into `readyState` returns
`CRYPT_OK`, but the key after the call is not the hash of the key before the call
followed by the imported bytes; it is the key that the import into `zeroState`, which
has another key, produces. -/
theorem fortuna_import_mix_counterexample :
    (fortuna_import toyPrimitives (some importBuf) 64 readyState).1 =
      Ret.value Err.CRYPT_OK ∧
    (fortuna_import toyPrimitives (some importBuf) 64 readyState).2.K ≠
      sha256 toyPrimitives (readyState.K ++ importBuf) ∧
    (fortuna_import toyPrimitives (some importBuf) 64 readyState).2.K =
      (fortuna_import toyPrimitives (some importBuf) 64 zeroState).2.K ∧
    readyState.K ≠ zeroState.K := by
  refine ⟨by decide, by decide, by decide, by decide⟩

/-- C21, amended. `fortuna_import` starts the generator afresh before it mixes: with
succeeding primitives, a streaming hash of 32-byte digests and a key of 32 bytes, the
key after an accepted import is the hash of 32 zero bytes followed by the imported
bytes, the same for every key before the call.  It is `fortuna_update_seed` that mixes:
the key after it is the hash of the key before it followed by the input. -/
theorem fortuna_import_key {POOLS : Nat} {HashState SKey : Type}
    (P : Primitives HashState SKey) (hP : P.succeed) (hs : P.streaming) (hd : P.digest32)
    (buf : List Nat) (inlen : Nat) (s : prng_state POOLS HashState SKey)
    (hK : s.K.length = 32) (hlen : 64 ≤ inlen) :
    (fortuna_import P (some buf) inlen s).1 = Ret.value Err.CRYPT_OK ∧
    (fortuna_import P (some buf) inlen s).2.K =
      sha256 P (List.replicate 32 0 ++ buf.take inlen) ∧
    (∀ s2 : prng_state POOLS HashState SKey, s2.K.length = 32 →
      (fortuna_import P (some buf) inlen s2).2.K = (fortuna_import P (some buf) inlen s).2.K) ∧
    (fortuna_update_seed P buf inlen s).2.K = sha256 P (s.K ++ buf.take inlen) := by
  have hkey : ∀ t : prng_state POOLS HashState SKey, t.K.length = 32 →
      (fortuna_import P (some buf) inlen t).1 = Ret.value Err.CRYPT_OK ∧
      (fortuna_import P (some buf) inlen t).2.K =
        sha256 P (List.replicate 32 0 ++ buf.take inlen) := by
    intro t ht
    have hsize : fortuna_desc.export_size % 2 ^ 64 = 64 := by decide
    have hnot : ¬ ((inlen : Int) < 64) := by omega
    have hst := fortuna_start_succeeds P hP t
    have hstK := (fortuna_start_ok P t hst).2.2.2.2.2.1
    have hlen2 : (fortuna_start P t).2.K.length = 32 := by
      rw [hstK, zeromem_key t.K ht, List.length_replicate]
    unfold fortuna_import
    simp only [hsize, hnot, if_false, hst, ne_eq, not_true_eq_false,
      fortuna_update_seed_succeeds P hP, true_and]
    rw [update_seed_key_hash P hP hs hd buf inlen _ hlen2, hstK, zeromem_key t.K ht]
  refine ⟨(hkey s hK).1, (hkey s hK).2, ?_, update_seed_key_hash P hP hs hd buf inlen s hK⟩
  intro s2 h2
  rw [(hkey s2 h2).2, (hkey s hK).2]

/-- C22, as stated, fails: built without `LTC_CLEAN_STACK`, `fortuna_done` returns with
the digest of the last pool still in `tmp`.  Built with `LTC_CLEAN_STACK`, the reseed
that stops at a pool whose `sha256_done` fails returns this error with `tmp` holding
the digest of the key material hashed so far and `md` holding the finalized state. -/
theorem scratch_not_wiped_counterexample :
    fortuna_done_tmp toyPrimitives false zeroState =
      Scratch.holds (toyPrimitives.sha256_done []).2.2 ∧
    (_fortuna_reseed strictPrimitives RateLimit.TIMED 1 finalizedState).1 =
      Err.CRYPT_INVALID_ARG ∧
    _fortuna_reseed_locals strictPrimitives RateLimit.TIMED 1 true finalizedState =
      (Scratch.holds (strictPrimitives.sha256_done (some (List.replicate 32 0))).2.2,
        Scratch.holds none) := by
  refine ⟨by decide, by decide, by decide⟩

/-- C22, amended. In a build with `LTC_CLEAN_STACK`: `fortuna_done` returns with `tmp`
wiped; `fortuna_read` returns with `tmp` wiped on every path behind the test of
`outlen`, and has not used `tmp` before it; `_fortuna_reseed` returns with `tmp` and
`md` wiped when the reseed is performed and returns `CRYPT_OK`, and has not used them
when the rate limiter stops the attempt. -/
theorem scratch_wiped_clean_stack {POOLS : Nat} {HashState SKey : Type}
    (P : Primitives HashState SKey) (rl : RateLimit) (now : Nat)
    (s : prng_state POOLS HashState SKey) :
    fortuna_done_tmp P true s = Scratch.zeroed ∧
    (∀ (buf : List Nat) (outlen : Nat), outlen ≠ 0 →
      fortuna_read_tmp P rl now true (some buf) outlen (some s) = Scratch.zeroed) ∧
    (∀ buf : List Nat,
      fortuna_read_tmp P rl now true (some buf) 0 (some s) = Scratch.untouched) ∧
    (reseed_permitted rl now s → (_fortuna_reseed P rl now s).1 = Err.CRYPT_OK →
      _fortuna_reseed_locals P rl now true s = (Scratch.zeroed, Scratch.zeroed)) ∧
    (¬ reseed_permitted rl now s →
      _fortuna_reseed_locals P rl now true s = (Scratch.untouched, Scratch.untouched)) := by
  refine ⟨?_, ?_, ?_, ?_, reseed_locals_skipped P rl now true s⟩
  · simp [fortuna_done_tmp]
  · intro buf outlen hn
    simp [fortuna_read_tmp, hn]
  · intro buf
    simp [fortuna_read_tmp]
  · intro h hok
    obtain ⟨w, hw, hl⟩ := reseed_locals_runs_body P rl now true s h
    rw [hw] at hok
    rw [hl]
    exact reseed_body_locals_wiped P rl now _ hok

/-- C24. For a ready, seeded state with fewer than 64 bytes counted in pool 0, a read of
`outlen >= 1` bytes into a buffer with room for them replaces the first `outlen` bytes
of the buffer by the first `outlen` bytes of the stream `E(c), E(c+1), .., E(c+m-1)`,
`m = ceil(outlen / 16)`, and leaves the bytes behind them as they were.  Block `i` of
the stream is the encryption under the current key schedule of the counter after `i`
updates, whose little-endian value is `c + i` modulo `2 ^ 128`.  With succeeding
primitives the call returns `outlen`. -/
theorem fortuna_read_output_stream {POOLS : Nat} {HashState SKey : Type}
    (P : Primitives HashState SKey) (hb : P.block16) (rl : RateLimit) (now : Nat)
    (buf : List Nat) (outlen : Nat) (s : prng_state POOLS HashState SKey)
    (hr : s.ready = true) (hc : s.reset_cnt ≠ 0) (hp : s.pool0_len < 64)
    (hn : 1 ≤ outlen) (hlen : outlen ≤ buf.length) :
    (fortuna_read P rl now (some buf) outlen (some s)).2.1 =
      some ((keystream P s.skey ((outlen + 15) / 16) s.IV).take outlen ++ buf.drop outlen) ∧
    ((keystream P s.skey ((outlen + 15) / 16) s.IV).take outlen).length = outlen ∧
    keystream P s.skey ((outlen + 15) / 16) s.IV =
      ((List.range ((outlen + 15) / 16)).map (fun i =>
        (P.rijndael_ecb_encrypt (Nat.iterate _fortuna_update_iv i s.IV) s.skey).2)).flatten ∧
    (wf_iv s.IV → ∀ i, iv_value (Nat.iterate _fortuna_update_iv i s.IV) =
      (iv_value s.IV + i) % 2 ^ 128) ∧
    (P.succeed → (fortuna_read P rl now (some buf) outlen (some s)).1 = outlen) := by
  have hrs : (if 64 ≤ s.pool0_len then _fortuna_reseed P rl now s else (Err.CRYPT_OK, s)) =
      (Err.CRYPT_OK, s) := if_neg (by omega)
  have hgen := fortuna_read_generate P rl now buf outlen s s (by omega) hr hrs hc
  refine ⟨?_, ?_, keystream_blocks P s.skey _ s.IV, ?_, ?_⟩
  · rw [hgen]
    simp only
    rw [read_output P hb s.skey outlen buf s.IV hlen]
  · rw [List.length_take, keystream_length P hb]
    omega
  · intro hiv i
    exact (update_iv_iterate i s.IV hiv).1
  · intro hP
    rw [hgen]
    simp only [hP.2.2.2.1, ne_eq, not_true_eq_false, if_false]

/-- C25. For a ready, seeded state with a key of 32 bytes, counter value `c` and fewer
than 64 bytes counted in pool 0, after a read of `outlen >= 1` bytes with
`m = ceil(outlen / 16)`: the key is `E(c+m)` followed by `E(c+m+1)`, both encrypted under
the key schedule before the call; the key schedule is set up from the new key; the
counter has the value `c + m + 2` modulo `2 ^ 128`; pools, `pool0_len`, `reset_cnt` and
`pool_idx` are as before.  With succeeding primitives the call returns `outlen`. -/
theorem fortuna_read_rekey {POOLS : Nat} {HashState SKey : Type}
    (P : Primitives HashState SKey) (hb : P.block16) (rl : RateLimit) (now : Nat)
    (buf : List Nat) (outlen : Nat) (s : prng_state POOLS HashState SKey)
    (hr : s.ready = true) (hc : s.reset_cnt ≠ 0) (hp : s.pool0_len < 64)
    (hn : 1 ≤ outlen) (hK : s.K.length = 32) (hiv : wf_iv s.IV) :
    ∃ s2 : prng_state POOLS HashState SKey,
      (fortuna_read P rl now (some buf) outlen (some s)).2.2 = some s2 ∧
      s2.K = (P.rijndael_ecb_encrypt
          (Nat.iterate _fortuna_update_iv ((outlen + 15) / 16) s.IV) s.skey).2 ++
        (P.rijndael_ecb_encrypt
          (Nat.iterate _fortuna_update_iv ((outlen + 15) / 16 + 1) s.IV) s.skey).2 ∧
      iv_value (Nat.iterate _fortuna_update_iv ((outlen + 15) / 16) s.IV) =
        (iv_value s.IV + (outlen + 15) / 16) % 2 ^ 128 ∧
      iv_value (Nat.iterate _fortuna_update_iv ((outlen + 15) / 16 + 1) s.IV) =
        (iv_value s.IV + ((outlen + 15) / 16 + 1)) % 2 ^ 128 ∧
      s2.skey = (P.rijndael_setup (s2.K.take 32) 0).2 ∧
      iv_value s2.IV = (iv_value s.IV + ((outlen + 15) / 16 + 2)) % 2 ^ 128 ∧
      s2.pool = s.pool ∧ s2.pool0_len = s.pool0_len ∧ s2.reset_cnt = s.reset_cnt ∧
      s2.pool_idx = s.pool_idx ∧
      (P.succeed → (fortuna_read P rl now (some buf) outlen (some s)).1 = outlen) := by
  have hrs : (if 64 ≤ s.pool0_len then _fortuna_reseed P rl now s else (Err.CRYPT_OK, s)) =
      (Err.CRYPT_OK, s) := if_neg (by omega)
  have hgen := fortuna_read_generate P rl now buf outlen s s (by omega) hr hrs hc
  have hst := congrArg (fun r => r.2.2) hgen
  simp only at hst
  have e1 : _fortuna_update_iv (Nat.iterate _fortuna_update_iv ((outlen + 15) / 16) s.IV) =
      Nat.iterate _fortuna_update_iv ((outlen + 15) / 16 + 1) s.IV :=
    (Function.iterate_succ_apply' _ _ _).symm
  have e2 : _fortuna_update_iv (_fortuna_update_iv
      (Nat.iterate _fortuna_update_iv ((outlen + 15) / 16) s.IV)) =
      Nat.iterate _fortuna_update_iv ((outlen + 15) / 16 + 2) s.IV := by
    rw [e1]
    exact (Function.iterate_succ_apply' _ _ _).symm
  refine ⟨_, hst, ?_, (update_iv_iterate _ s.IV hiv).1, (update_iv_iterate _ s.IV hiv).1,
    rfl, ?_, rfl, rfl, rfl, rfl, ?_⟩
  · show store (store s.K 0 _) 16 _ = _
    rw [e1]
    exact store_two_blocks _ _ _ hK (hb _ _) (hb _ _)
  · show iv_value (_fortuna_update_iv (_fortuna_update_iv _)) = _
    rw [e2]
    exact (update_iv_iterate _ s.IV hiv).1
  · intro hP
    rw [hgen]
    simp only [hP.2.2.2.1, ne_eq, not_true_eq_false, if_false]

/-- C26. In a performed reseed - an attempt that the rate limiter lets through and that
returns `CRYPT_OK` - with a streaming hash of 32-byte digests and a key of 32 bytes:
the included pools are the pools `0 .. j-1` for some `j`; the new key is the hash of the
old key followed by the digests of the included pools in this order; every included
pool is reset to the initial hash state, every other pool is left as it was; the key
schedule is set up from the new key. -/
theorem reseed_derives_key {POOLS : Nat} {HashState SKey : Type}
    (P : Primitives HashState SKey) (hs : P.streaming) (hd : P.digest32)
    (rl : RateLimit) (now : Nat) (s : prng_state POOLS HashState SKey)
    (hK : s.K.length = 32) (h : reseed_permitted rl now s)
    (hok : (_fortuna_reseed P rl now s).1 = Err.CRYPT_OK) :
    (included_pools POOLS ((s.reset_cnt + 1) % 2 ^ 64)).map Fin.val =
      List.range (included_pools POOLS ((s.reset_cnt + 1) % 2 ^ 64)).length ∧
    (_fortuna_reseed P rl now s).2.K =
      sha256 P (s.K ++ ((included_pools POOLS ((s.reset_cnt + 1) % 2 ^ 64)).map
        (fun x => (P.sha256_done (s.pool x)).2.2)).flatten) ∧
    (∀ x, x ∈ included_pools POOLS ((s.reset_cnt + 1) % 2 ^ 64) →
      (_fortuna_reseed P rl now s).2.pool x = P.sha256_init.2) ∧
    (∀ x, x ∉ included_pools POOLS ((s.reset_cnt + 1) % 2 ^ 64) →
      (_fortuna_reseed P rl now s).2.pool x = s.pool x) ∧
    (_fortuna_reseed P rl now s).2.skey =
      (P.rijndael_setup ((_fortuna_reseed P rl now s).2.K.take 32) 0).2 := by
  obtain ⟨p1, p2, p3, _⟩ := reseed_performed P rl now s h hok
  refine ⟨included_pools_vals _ _, ?_, ?_, ?_, p3⟩
  · rw [p2]
    exact reseed_key_hash P hs hd s.K hK s.pool _
  · intro x hx
    rw [p1]
    simp only [hx, if_true]
  · intro x hx
    rw [p1]
    simp only [hx, if_false]

/-- C27. The counter `reset_cnt` numbers the performed reseeds: it is 0 after
`fortuna_start` and a performed reseed on a state with `reset_cnt + 1 = k < 2 ^ 64`
leaves it at `k`.  In this `k`-th reseed pool `i` is drained - its digest enters the new
key and the pool is reset - if and only if `2 ^ i` divides `k`; the other pools are left
as they were. -/
theorem reseed_cascade {POOLS : Nat} {HashState SKey : Type}
    (P : Primitives HashState SKey) (rl : RateLimit) (now : Nat)
    (s : prng_state POOLS HashState SKey) (k : Nat) (hk : s.reset_cnt + 1 = k)
    (hlt : k < 2 ^ 64) (h : reseed_permitted rl now s)
    (hok : (_fortuna_reseed P rl now s).1 = Err.CRYPT_OK) (i : Fin POOLS) :
    (_fortuna_reseed P rl now s).2.reset_cnt = k ∧
    (i ∈ included_pools POOLS k ↔ 2 ^ i.val ∣ k) ∧
    (2 ^ i.val ∣ k → (_fortuna_reseed P rl now s).2.pool i = P.sha256_init.2) ∧
    (¬ 2 ^ i.val ∣ k → (_fortuna_reseed P rl now s).2.pool i = s.pool i) ∧
    (_fortuna_reseed P rl now s).2.K =
      store s.K 0 (P.sha256_done (process_chunks P
        (P.sha256_process P.sha256_init.2 (s.K.take 32)).2
        ((included_pools POOLS k).map
          (fun y => (P.sha256_done (s.pool y)).2.2.take 32)))).2.2 ∧
    (∀ s0 : prng_state POOLS HashState SKey, (fortuna_start P s0).1 = Err.CRYPT_OK →
      (fortuna_start P s0).2.reset_cnt = 0) := by
  have hmod : (s.reset_cnt + 1) % 2 ^ 64 = k := by
    rw [hk]; exact Nat.mod_eq_of_lt hlt
  obtain ⟨p1, p2, _, _, _, p6, _⟩ := reseed_performed P rl now s h hok
  rw [hmod] at p1 p2 p6
  refine ⟨p6, included_pools_dvd POOLS k i, ?_, ?_, p2,
    fun s0 h0 => (fortuna_start_ok P s0 h0).2.2.2.2.1⟩
  · intro hd
    have hi := (included_pools_dvd POOLS k i).2 hd
    rw [p1]
    simp only [hi, if_true]
  · intro hd
    have hi : i ∉ included_pools POOLS k := fun hm => hd ((included_pools_dvd POOLS k i).1 hm)
    rw [p1]
    simp only [hi, if_false]

/-- C28, as stated, fails: in `pooledState` the value of `reset_cnt` before the increment
is 0, so every bit of it is zero and pool 1 passes the test as the claim states it; the
performed reseed leaves pool 1 as it was and resets pool 0 only. -/
theorem reseed_preincrement_counterexample :
    (∀ y, y ≤ 1 → (y = 0 ∨ (pooledState.reset_cnt >>> (y - 1)) &&& 1 = 0)) ∧
    reseed_permitted RateLimit.TIMED 1 pooledState ∧
    (_fortuna_reseed toyPrimitives RateLimit.TIMED 1 pooledState).1 = Err.CRYPT_OK ∧
    (_fortuna_reseed toyPrimitives RateLimit.TIMED 1 pooledState).2.pool 0 =
      toyPrimitives.sha256_init.2 ∧
    (_fortuna_reseed toyPrimitives RateLimit.TIMED 1 pooledState).2.pool 1 =
      pooledState.pool 1 ∧
    pooledState.pool 1 ≠ toyPrimitives.sha256_init.2 ∧
    (_fortuna_reseed toyPrimitives RateLimit.TIMED 1 pooledState).2.K =
      sha256 toyPrimitives (pooledState.K ++ (toyPrimitives.sha256_done
        (pooledState.pool 0)).2.2) := by
  refine ⟨?_, ?_, by decide, by decide, by decide, by decide, by decide⟩
  swap
  · show 1 ≠ pooledState.wd
    decide
  intro y hy
  interval_cases y
  · left; rfl
  · right; decide

/-- C28, amended. In a performed reseed where `reset_cnt` has the value `r` before the
call, the test uses the incremented value `r + 1` (modulo `2 ^ 64`): pool `x` is
included exactly when every pool index `y <= x` satisfies `y == 0` or bit `y - 1` of
`r + 1` is zero.  The included pools are reset and their digests, in order of the index,
enter the new key; the pools from the first failing index on are left as they were. -/
theorem reseed_inclusion_test {POOLS : Nat} {HashState SKey : Type}
    (P : Primitives HashState SKey) (rl : RateLimit) (now : Nat)
    (s : prng_state POOLS HashState SKey) (h : reseed_permitted rl now s)
    (hok : (_fortuna_reseed P rl now s).1 = Err.CRYPT_OK) (x : Fin POOLS) :
    (x ∈ included_pools POOLS ((s.reset_cnt + 1) % 2 ^ 64) ↔
      ∀ y, y ≤ x.val → (y = 0 ∨ (((s.reset_cnt + 1) % 2 ^ 64) >>> (y - 1)) &&& 1 = 0)) ∧
    ((∀ y, y ≤ x.val → (y = 0 ∨ (((s.reset_cnt + 1) % 2 ^ 64) >>> (y - 1)) &&& 1 = 0)) →
      (_fortuna_reseed P rl now s).2.pool x = P.sha256_init.2) ∧
    (¬ (∀ y, y ≤ x.val → (y = 0 ∨ (((s.reset_cnt + 1) % 2 ^ 64) >>> (y - 1)) &&& 1 = 0)) →
      (_fortuna_reseed P rl now s).2.pool x = s.pool x) ∧
    (_fortuna_reseed P rl now s).2.K =
      store s.K 0 (P.sha256_done (process_chunks P
        (P.sha256_process P.sha256_init.2 (s.K.take 32)).2
        ((included_pools POOLS ((s.reset_cnt + 1) % 2 ^ 64)).map
          (fun y => (P.sha256_done (s.pool y)).2.2.take 32)))).2.2 := by
  obtain ⟨p1, p2, _⟩ := reseed_performed P rl now s h hok
  have hm := included_pools_mem POOLS ((s.reset_cnt + 1) % 2 ^ 64) x
  refine ⟨hm, ?_, ?_, p2⟩
  · intro hall
    have hi := hm.2 hall
    rw [p1]
    simp only [hi, if_true]
  · intro hnot
    have hi : x ∉ included_pools POOLS ((s.reset_cnt + 1) % 2 ^ 64) :=
      fun hmem => hnot (hm.1 hmem)
    rw [p1]
    simp only [hi, if_false]

/-- C29. A performed reseed leaves `reset_cnt` at its old value plus one (modulo
`2 ^ 64`), `pool0_len` at 0, the rate-limit count `wd` of the counter mode at 0, and
the counter at its update: for a counter of 16 bytes its value is the old value plus
one modulo `2 ^ 128`, which differs from the old value and is larger unless the old
value is `2 ^ 128 - 1`. -/
theorem reseed_advances_counters {POOLS : Nat} {HashState SKey : Type}
    (P : Primitives HashState SKey) (rl : RateLimit) (now : Nat)
    (s : prng_state POOLS HashState SKey) (h : reseed_permitted rl now s)
    (hok : (_fortuna_reseed P rl now s).1 = Err.CRYPT_OK) :
    (_fortuna_reseed P rl now s).2.reset_cnt = (s.reset_cnt + 1) % 2 ^ 64 ∧
    (s.reset_cnt + 1 < 2 ^ 64 → (_fortuna_reseed P rl now s).2.reset_cnt = s.reset_cnt + 1) ∧
    (_fortuna_reseed P rl now s).2.pool0_len = 0 ∧
    (∀ w, rl = RateLimit.STATIC w → (_fortuna_reseed P rl now s).2.wd = 0) ∧
    (_fortuna_reseed P rl now s).2.IV = _fortuna_update_iv s.IV ∧
    (wf_iv s.IV →
      iv_value (_fortuna_reseed P rl now s).2.IV = (iv_value s.IV + 1) % 2 ^ 128 ∧
      iv_value (_fortuna_reseed P rl now s).2.IV ≠ iv_value s.IV ∧
      (iv_value s.IV + 1 < 2 ^ 128 →
        iv_value (_fortuna_reseed P rl now s).2.IV = iv_value s.IV + 1)) := by
  obtain ⟨_, _, _, p4, p5, p6, _, _, _, p10⟩ := reseed_performed P rl now s h hok
  refine ⟨p6, ?_, p5, p10, p4, ?_⟩
  · intro hlt
    rw [p6, Nat.mod_eq_of_lt hlt]
  · intro hiv
    have hv := (update_iv_value s.IV hiv).1
    have hlt : iv_value s.IV < 2 ^ 128 := by
      have := iv_value_lt s.IV hiv.2
      rw [hiv.1] at this
      exact this
    rw [p4, hv]
    refine ⟨rfl, ?_, fun hno => Nat.mod_eq_of_lt hno⟩
    by_cases hw : iv_value s.IV + 1 < 2 ^ 128
    · rw [Nat.mod_eq_of_lt hw]; omega
    · have he : iv_value s.IV + 1 = 2 ^ 128 := by omega
      rw [he, Nat.mod_self]
      omega

/-- C30. In the counter mode of the rate limit, a reseed attempt on a state with
rate-limit count `wd` runs the reseed body only if `wd + 1` (modulo `2 ^ 64`) is at
least `LTC_FORTUNA_WD`; otherwise it returns `CRYPT_OK` with `wd` incremented by one and
key, key schedule, counter, pools, `pool0_len`, `reset_cnt`, `pool_idx` and `ready` as
before. -/
theorem reseed_static_rate_limit {POOLS : Nat} {HashState SKey : Type}
    (P : Primitives HashState SKey) (LTC_FORTUNA_WD : Nat) (now : Nat)
    (s : prng_state POOLS HashState SKey) :
    ((s.wd + 1) % 2 ^ 64 < LTC_FORTUNA_WD →
      _fortuna_reseed P (RateLimit.STATIC LTC_FORTUNA_WD) now s =
        (Err.CRYPT_OK, { s with wd := (s.wd + 1) % 2 ^ 64 }) ∧
      (_fortuna_reseed P (RateLimit.STATIC LTC_FORTUNA_WD) now s).2.K = s.K ∧
      (_fortuna_reseed P (RateLimit.STATIC LTC_FORTUNA_WD) now s).2.skey = s.skey ∧
      (_fortuna_reseed P (RateLimit.STATIC LTC_FORTUNA_WD) now s).2.IV = s.IV ∧
      (_fortuna_reseed P (RateLimit.STATIC LTC_FORTUNA_WD) now s).2.pool = s.pool ∧
      (_fortuna_reseed P (RateLimit.STATIC LTC_FORTUNA_WD) now s).2.pool0_len = s.pool0_len ∧
      (_fortuna_reseed P (RateLimit.STATIC LTC_FORTUNA_WD) now s).2.reset_cnt = s.reset_cnt ∧
      (s.wd + 1 < 2 ^ 64 →
        (_fortuna_reseed P (RateLimit.STATIC LTC_FORTUNA_WD) now s).2.wd = s.wd + 1)) ∧
    (¬ ((s.wd + 1) % 2 ^ 64 < LTC_FORTUNA_WD) →
      _fortuna_reseed P (RateLimit.STATIC LTC_FORTUNA_WD) now s =
        reseed_body P (RateLimit.STATIC LTC_FORTUNA_WD) now
          { s with wd := (s.wd + 1) % 2 ^ 64 }) ∧
    (reseed_permitted (RateLimit.STATIC LTC_FORTUNA_WD) now s ↔
      ¬ ((s.wd + 1) % 2 ^ 64 < LTC_FORTUNA_WD)) := by
  refine ⟨?_, ?_, Iff.rfl⟩
  · intro hlt
    have e : _fortuna_reseed P (RateLimit.STATIC LTC_FORTUNA_WD) now s =
        (Err.CRYPT_OK, { s with wd := (s.wd + 1) % 2 ^ 64 }) := by
      simp only [_fortuna_reseed, hlt, if_true]
    rw [e]
    refine ⟨rfl, rfl, rfl, rfl, rfl, rfl, rfl, ?_⟩
    intro h64
    exact Nat.mod_eq_of_lt h64
  · intro hge
    simp only [_fortuna_reseed, hge, if_false]

/-! ## The import, scratch, output and reseed claims at concrete inputs -/

theorem toyPrimitives_streaming : toyPrimitives.streaming := by
  intro md a b
  exact List.append_assoc md a b

theorem toyPrimitives_digest32 : toyPrimitives.digest32 := by
  intro md
  simp [toyPrimitives]

theorem pooledState_permitted_timed : reseed_permitted RateLimit.TIMED 1 pooledState := by
  show 1 ≠ pooledState.wd
  decide

theorem pooledState_permitted_static :
    reseed_permitted (RateLimit.STATIC 10) 0 pooledState := by
  show ¬ ((pooledState.wd + 1) % 2 ^ 64 < 10)
  decide

theorem readyState_permitted_timed : reseed_permitted RateLimit.TIMED 1 readyState := by
  show 1 ≠ readyState.wd
  decide

theorem readyState_wf_iv : wf_iv readyState.IV := ⟨rfl, by decide⟩

/-- Importing `importBuf` into `readyState`. -/
theorem fortuna_import_key_witness :
    (fortuna_import toyPrimitives (some importBuf) 64 readyState).1 =
      Ret.value Err.CRYPT_OK ∧
    (fortuna_import toyPrimitives (some importBuf) 64 readyState).2.K =
      sha256 toyPrimitives (List.replicate 32 0 ++ importBuf.take 64) ∧
    (fortuna_update_seed toyPrimitives importBuf 64 readyState).2.K =
      sha256 toyPrimitives (readyState.K ++ importBuf.take 64) := by
  obtain ⟨h1, h2, _, h4⟩ := fortuna_import_key toyPrimitives toyPrimitives_succeed
    toyPrimitives_streaming toyPrimitives_digest32 importBuf 64 readyState rfl (by decide)
  exact ⟨h1, h2, h4⟩

/-- The locals after `fortuna_done`, a read of one byte and a performed reseed on
`pooledState`, counter rate limit 10. -/
theorem scratch_wiped_clean_stack_witness :
    fortuna_done_tmp toyPrimitives true pooledState = Scratch.zeroed ∧
    fortuna_read_tmp toyPrimitives (RateLimit.STATIC 10) 0 true (some [0]) 1
      (some pooledState) = Scratch.zeroed ∧
    _fortuna_reseed_locals toyPrimitives (RateLimit.STATIC 10) 0 true pooledState =
      (Scratch.zeroed, Scratch.zeroed) := by
  obtain ⟨h1, h2, _, h4, _⟩ :=
    scratch_wiped_clean_stack toyPrimitives (RateLimit.STATIC 10) 0 pooledState
  exact ⟨h1, h2 [0] 1 (by decide),
    h4 pooledState_permitted_static (reseed_ok toyPrimitives toyPrimitives_succeed _ _ _)⟩

/-- A read of 17 bytes from `readyState` into a buffer of 20 bytes. -/
theorem fortuna_read_output_stream_witness :
    (fortuna_read toyPrimitives (RateLimit.STATIC 10) 0 (some (List.replicate 20 7)) 17
        (some readyState)).2.1 =
      some ((keystream toyPrimitives readyState.skey ((17 + 15) / 16) readyState.IV).take 17 ++
        (List.replicate 20 7).drop 17) ∧
    (fortuna_read toyPrimitives (RateLimit.STATIC 10) 0 (some (List.replicate 20 7)) 17
        (some readyState)).1 = 17 := by
  obtain ⟨h1, _, _, _, h5⟩ := fortuna_read_output_stream toyPrimitives toyPrimitives_block16
    (RateLimit.STATIC 10) 0 (List.replicate 20 7) 17 readyState rfl (by decide) (by decide)
    (by decide) (by decide)
  exact ⟨h1, h5 toyPrimitives_succeed⟩

/-- A read of 17 bytes from `readyState`: two output blocks, then the two blocks of the
new key. -/
theorem fortuna_read_rekey_witness :
    ∃ s2 : prng_state 4 (List Nat) (List Nat),
      (fortuna_read toyPrimitives (RateLimit.STATIC 10) 0 (some (List.replicate 20 7)) 17
        (some readyState)).2.2 = some s2 ∧
      s2.K = (toyPrimitives.rijndael_ecb_encrypt
          (Nat.iterate _fortuna_update_iv ((17 + 15) / 16) readyState.IV) readyState.skey).2 ++
        (toyPrimitives.rijndael_ecb_encrypt
          (Nat.iterate _fortuna_update_iv ((17 + 15) / 16 + 1) readyState.IV)
          readyState.skey).2 ∧
      iv_value s2.IV = (iv_value readyState.IV + ((17 + 15) / 16 + 2)) % 2 ^ 128 ∧
      s2.pool = readyState.pool ∧ s2.reset_cnt = readyState.reset_cnt := by
  obtain ⟨s2, h1, h2, _, _, _, h6, h7, _, h9, _⟩ := fortuna_read_rekey toyPrimitives
    toyPrimitives_block16 (RateLimit.STATIC 10) 0 (List.replicate 20 7) 17 readyState rfl
    (by decide) (by decide) (by decide) rfl readyState_wf_iv
  exact ⟨s2, h1, h2, h6, h7, h9⟩

/-- The first reseed of `pooledState`, in timed mode. -/
theorem reseed_derives_key_witness :
    (_fortuna_reseed toyPrimitives RateLimit.TIMED 1 pooledState).2.K =
      sha256 toyPrimitives (pooledState.K ++
        ((included_pools 4 ((pooledState.reset_cnt + 1) % 2 ^ 64)).map
          (fun x => (toyPrimitives.sha256_done (pooledState.pool x)).2.2)).flatten) ∧
    (_fortuna_reseed toyPrimitives RateLimit.TIMED 1 pooledState).2.skey =
      (toyPrimitives.rijndael_setup
        ((_fortuna_reseed toyPrimitives RateLimit.TIMED 1 pooledState).2.K.take 32) 0).2 := by
  obtain ⟨_, h2, _, _, h5⟩ := reseed_derives_key toyPrimitives toyPrimitives_streaming
    toyPrimitives_digest32 RateLimit.TIMED 1 pooledState rfl pooledState_permitted_timed
    (reseed_ok toyPrimitives toyPrimitives_succeed _ _ _)
  exact ⟨h2, h5⟩

/-- The second reseed, on `readyState`: pool 1 is drained. -/
theorem reseed_cascade_witness :
    (_fortuna_reseed toyPrimitives RateLimit.TIMED 1 readyState).2.reset_cnt = 2 ∧
    ((1 : Fin 4) ∈ included_pools 4 2 ↔ 2 ^ (1 : Fin 4).val ∣ 2) ∧
    (_fortuna_reseed toyPrimitives RateLimit.TIMED 1 readyState).2.pool 1 =
      toyPrimitives.sha256_init.2 := by
  obtain ⟨h1, h2, h3, _⟩ := reseed_cascade toyPrimitives RateLimit.TIMED 1 readyState 2 rfl
    (by decide) readyState_permitted_timed
    (reseed_ok toyPrimitives toyPrimitives_succeed _ _ _) 1
  exact ⟨h1, h2, h3 (by decide)⟩

/-- The first reseed of `pooledState`: pool 1 fails the test on the incremented value. -/
theorem reseed_inclusion_test_witness :
    ((1 : Fin 4) ∈ included_pools 4 ((pooledState.reset_cnt + 1) % 2 ^ 64) ↔
      ∀ y, y ≤ (1 : Fin 4).val →
        (y = 0 ∨ (((pooledState.reset_cnt + 1) % 2 ^ 64) >>> (y - 1)) &&& 1 = 0)) ∧
    (_fortuna_reseed toyPrimitives RateLimit.TIMED 1 pooledState).2.pool 0 =
      toyPrimitives.sha256_init.2 :=
  ⟨(reseed_inclusion_test toyPrimitives RateLimit.TIMED 1 pooledState
      pooledState_permitted_timed (reseed_ok toyPrimitives toyPrimitives_succeed _ _ _) 1).1,
    (reseed_inclusion_test toyPrimitives RateLimit.TIMED 1 pooledState
      pooledState_permitted_timed (reseed_ok toyPrimitives toyPrimitives_succeed _ _ _) 0).2.1
      (by intro y hy; left; exact Nat.le_zero.mp hy)⟩

/-- The first reseed of `pooledState`, counter rate limit 10. -/
theorem reseed_advances_counters_witness :
    (_fortuna_reseed toyPrimitives (RateLimit.STATIC 10) 0 pooledState).2.reset_cnt =
      pooledState.reset_cnt + 1 ∧
    (_fortuna_reseed toyPrimitives (RateLimit.STATIC 10) 0 pooledState).2.pool0_len = 0 ∧
    (_fortuna_reseed toyPrimitives (RateLimit.STATIC 10) 0 pooledState).2.wd = 0 ∧
    iv_value (_fortuna_reseed toyPrimitives (RateLimit.STATIC 10) 0 pooledState).2.IV =
      (iv_value pooledState.IV + 1) % 2 ^ 128 := by
  obtain ⟨_, h2, h3, h4, _, h6⟩ := reseed_advances_counters toyPrimitives
    (RateLimit.STATIC 10) 0 pooledState pooledState_permitted_static
    (reseed_ok toyPrimitives toyPrimitives_succeed _ _ _)
  exact ⟨h2 (by decide), h3, h4 10 rfl, (h6 ⟨rfl, by decide⟩).1⟩

/-- A reseed attempt on `readyState` with rate-limit count 0, counter rate limit 10. -/
theorem reseed_static_rate_limit_witness :
    _fortuna_reseed toyPrimitives (RateLimit.STATIC 10) 0 readyState =
      (Err.CRYPT_OK, { readyState with wd := (readyState.wd + 1) % 2 ^ 64 }) ∧
    (_fortuna_reseed toyPrimitives (RateLimit.STATIC 10) 0 readyState).2.wd =
      readyState.wd + 1 := by
  obtain ⟨h1, _, _, _, _, _, _, h8⟩ :=
    (reseed_static_rate_limit toyPrimitives 10 0 readyState).1 (by decide)
  exact ⟨h1, h8 (by decide)⟩

/-! ## Facts about the counter update, the start and the seed update -/

/-- A run of `0xFF` bytes is cleared and the byte behind it is incremented. -/
theorem iv_carry_run (j : Nat) (b : Nat) (rest : List Nat) (hb : b < 255) :
    iv_carry (List.replicate j 255 ++ b :: rest) = List.replicate j 0 ++ (b + 1) :: rest := by
  induction j with
  | zero =>
    have h1 : (b + 1) &&& 255 = b + 1 := by
      rw [Nat.and_pow_two_sub_one_eq_mod (b + 1) 8]
      exact Nat.mod_eq_of_lt (by omega)
    simp [iv_carry, h1]
  | succ j ih =>
    simp only [List.replicate_succ, List.cons_append, iv_carry]
    have h0 : (255 + 1) &&& 255 = 0 := by decide
    simp only [h0, ne_eq, not_true_eq_false, if_false]
    show 0 :: iv_carry (List.replicate j 255 ++ b :: rest) = _
    rw [ih]

/-- The counter update on an array of at most 16 bytes is the carry chain. -/
theorem update_iv_eq_carry (IV : List Nat) (h : IV.length ≤ 16) :
    _fortuna_update_iv IV = iv_carry IV := by
  have := update_iv_loop_carry IV [] 16 h (by simpa using h)
  simpa [_fortuna_update_iv] using this

/-- The pool initialisation loop that ends with `CRYPT_OK` has initialised the pools
from index `x` on. -/
theorem start_pools_eq {POOLS : Nat} {HashState SKey : Type} (P : Primitives HashState SKey)
    (k : Nat) :
    ∀ (x : Nat) (pool : Fin POOLS → HashState),
      (start_pools P k x pool).1 = Err.CRYPT_OK →
      ∀ y : Fin POOLS, x ≤ y.val → y.val < x + k →
        (start_pools P k x pool).2 y = P.sha256_init.2 := by
  induction k with
  | zero => intro x pool _ y h1 h2; omega
  | succ k ih =>
    intro x pool hok y h1 h2
    unfold start_pools at hok ⊢
    by_cases hx : x < POOLS
    · simp only [hx, dite_true] at hok ⊢
      by_cases hi : P.sha256_init.1 = Err.CRYPT_OK
      · simp only [hi, ne_eq, not_true_eq_false, if_false] at hok ⊢
        by_cases hy : y.val = x
        · have hfix : ∀ (k1 x1 : Nat) (pool1 : Fin POOLS → HashState), y.val < x1 →
              (start_pools P k1 x1 pool1).1 = Err.CRYPT_OK →
              (start_pools P k1 x1 pool1).2 y = pool1 y := by
            intro k1
            induction k1 with
            | zero => intro x1 pool1 _ _; rfl
            | succ k1 ih1 =>
              intro x1 pool1 hlt hok1
              unfold start_pools at hok1 ⊢
              by_cases hx1 : x1 < POOLS
              · simp only [hx1, dite_true] at hok1 ⊢
                by_cases hi1 : P.sha256_init.1 = Err.CRYPT_OK
                · simp only [hi1, ne_eq, not_true_eq_false, if_false] at hok1 ⊢
                  rw [ih1 (x1 + 1) _ (by omega) hok1]
                  have hne : y ≠ ⟨x1, hx1⟩ := by
                    intro h; rw [h] at hlt; simp at hlt
                  simp [Function.update, hne]
                · exact absurd hi hi1
              · simp only [hx1, dite_false]
          rw [hfix k (x + 1) _ (by omega) hok]
          have hyx : y = ⟨x, hx⟩ := Fin.ext hy
          rw [hyx]
          exact Function.update_same _ _ _
        · exact ih (x + 1) _ hok y (by omega) (by omega)
      · simp only [hi, ne_eq, not_false_eq_true, if_true] at hok
    · have := y.isLt
      omega

/-- The state that a successful `fortuna_start` leaves. -/
theorem fortuna_start_state {POOLS : Nat} {HashState SKey : Type}
    (P : Primitives HashState SKey) (s : prng_state POOLS HashState SKey)
    (h : (fortuna_start P s).1 = Err.CRYPT_OK) :
    (start_pools P POOLS 0 s.pool).1 = Err.CRYPT_OK ∧
    (fortuna_start P s).2.pool = (start_pools P POOLS 0 s.pool).2 ∧
    (fortuna_start P s).2.skey = (P.rijndael_setup ((fortuna_start P s).2.K.take 32) 0).2 := by
  unfold fortuna_start at h ⊢
  simp only at h ⊢
  split_ifs at h ⊢ <;> simp_all

theorem zeromem_iv (IV : List Nat) (h : IV.length = 16) :
    zeromem IV 16 = List.replicate 16 0 := by
  unfold zeromem store
  rw [List.take_zero, List.nil_append, Nat.zero_add, List.length_replicate,
    List.drop_of_length_le (by omega), List.append_nil]

/-- The state that a successful `fortuna_update_seed` leaves. -/
theorem update_seed_state {POOLS : Nat} {HashState SKey : Type}
    (P : Primitives HashState SKey) (inp : List Nat) (inlen : Nat)
    (s : prng_state POOLS HashState SKey)
    (h : (fortuna_update_seed P inp inlen s).1 = Err.CRYPT_OK) :
    (fortuna_update_seed P inp inlen s).2 =
      { s with
        K := store s.K 0 (P.sha256_done (P.sha256_process
          (P.sha256_process P.sha256_init.2 (s.K.take 32)).2 (inp.take inlen)).2).2.2
        IV := _fortuna_update_iv s.IV } := by
  unfold fortuna_update_seed at h ⊢
  simp only at h ⊢
  split_ifs at h ⊢ <;> simp_all

/-- `fortuna_update_seed` never writes the key schedule, the pools, the counters or the
ready flag. -/
theorem update_seed_frame {POOLS : Nat} {HashState SKey : Type}
    (P : Primitives HashState SKey) (inp : List Nat) (inlen : Nat)
    (s : prng_state POOLS HashState SKey) :
    (fortuna_update_seed P inp inlen s).2.skey = s.skey ∧
    (fortuna_update_seed P inp inlen s).2.pool = s.pool ∧
    (fortuna_update_seed P inp inlen s).2.pool0_len = s.pool0_len ∧
    (fortuna_update_seed P inp inlen s).2.reset_cnt = s.reset_cnt ∧
    (fortuna_update_seed P inp inlen s).2.wd = s.wd ∧
    (fortuna_update_seed P inp inlen s).2.ready = s.ready := by
  unfold fortuna_update_seed
  simp only
  split_ifs <;> exact ⟨rfl, rfl, rfl, rfl, rfl, rfl⟩

/-- With a streaming hash of 32-byte digests, storing the digest of the chunks `K`, `inp`
over a key of 32 bytes gives the hash of `K` followed by `inp`. -/
theorem seed_key_hash {HashState SKey : Type}
    (P : Primitives HashState SKey) (hs : P.streaming) (hd : P.digest32)
    (K inp : List Nat) (hK : K.length = 32) :
    store K 0 (P.sha256_done (P.sha256_process
        (P.sha256_process P.sha256_init.2 (K.take 32)).2 inp).2).2.2 =
      sha256 P (K ++ inp) := by
  have ht : K.take 32 = K := List.take_of_length_le (by omega)
  rw [ht, hs]
  unfold sha256 store
  rw [List.take_zero, List.nil_append, Nat.zero_add, hd, List.drop_of_length_le (by omega),
    List.append_nil]

/-! ## Facts about the reseed count along sequences of calls -/

/-- After `fortuna_start` the reseed count is zero or what it was. -/
theorem fortuna_start_reset_cnt {POOLS : Nat} {HashState SKey : Type}
    (P : Primitives HashState SKey) (s : prng_state POOLS HashState SKey) :
    (fortuna_start P s).2.reset_cnt = 0 ∨ (fortuna_start P s).2.reset_cnt = s.reset_cnt := by
  unfold fortuna_start
  simp only
  split_ifs
  · right; rfl
  · left; rfl
  · left; rfl

/-- A read leaves the ready flag as it was and the reseed count as it was or
incremented. -/
theorem fortuna_read_reset_cnt {POOLS : Nat} {HashState SKey : Type}
    (P : Primitives HashState SKey) (rl : RateLimit) (now : Nat)
    (out : Option (List Nat)) (outlen : Nat) (s s2 : prng_state POOLS HashState SKey)
    (h : (fortuna_read P rl now out outlen (some s)).2.2 = some s2) :
    s2.ready = s.ready ∧
    (s2.reset_cnt = s.reset_cnt ∨ s2.reset_cnt = (s.reset_cnt + 1) % 2 ^ 64) := by
  cases out with
  | none =>
    have e : fortuna_read P rl now none outlen (some s) = (0, none, some s) := by
      unfold fortuna_read; rfl
    rw [e] at h
    simp only [Option.some.injEq] at h
    rw [← h]
    exact ⟨rfl, Or.inl rfl⟩
  | some buf =>
    by_cases hn : outlen = 0
    · have e : fortuna_read P rl now (some buf) outlen (some s) = (0, some buf, some s) := by
        unfold fortuna_read; simp [hn]
      rw [e] at h
      simp only [Option.some.injEq] at h
      rw [← h]
      exact ⟨rfl, Or.inl rfl⟩
    · by_cases hr : s.ready = true
      · obtain ⟨s3, e, c1, _, _, c4⟩ := fortuna_read_frame P rl now buf outlen s hn hr
        rw [e] at h
        simp only [Option.some.injEq] at h
        rw [← h, c1, c4]
        by_cases h64 : 64 ≤ s.pool0_len
        · rw [if_pos h64]
          obtain ⟨f1, _, f3⟩ := reseed_fields P rl now s
          refine ⟨f1, ?_⟩
          rcases f3 with ⟨g, _⟩ | ⟨_, g, _⟩
          · exact Or.inl g
          · exact Or.inr g
        · rw [if_neg h64]
          exact ⟨rfl, Or.inl rfl⟩
      · have hr2 : s.ready = false := by
          cases hb : s.ready
          · rfl
          · exact absurd hb hr
        have e : fortuna_read P rl now (some buf) outlen (some s) = (0, some buf, some s) := by
          unfold fortuna_read; simp [hn, hr2]
        rw [e] at h
        simp only [Option.some.injEq] at h
        rw [← h]
        exact ⟨rfl, Or.inl rfl⟩

/-- In the counter mode of the rate limit with `LTC_FORTUNA_WD + 1 < 2 ^ 64`, a call of
`fortuna_ready` that sets the ready flag has incremented the reseed count; one that
does not has left the count as it was. -/
theorem fortuna_ready_reset_cnt {POOLS : Nat} {HashState SKey : Type}
    (P : Primitives HashState SKey) (wdmax : Nat) (hwd : wdmax + 1 < 2 ^ 64)
    (now_ready now_reseed : Nat) (s : prng_state POOLS HashState SKey) :
    ((fortuna_ready P (RateLimit.STATIC wdmax) now_ready now_reseed s).2.ready = true ∧
      (fortuna_ready P (RateLimit.STATIC wdmax) now_ready now_reseed s).2.reset_cnt =
        (s.reset_cnt + 1) % 2 ^ 64) ∨
    ((fortuna_ready P (RateLimit.STATIC wdmax) now_ready now_reseed s).2.ready = false ∧
      (fortuna_ready P (RateLimit.STATIC wdmax) now_ready now_reseed s).2.reset_cnt =
        s.reset_cnt) := by
  have hperm : reseed_permitted (RateLimit.STATIC wdmax) now_reseed
      { s with wd := ready_wd (RateLimit.STATIC wdmax) now_ready } :=
    ready_reseed_permitted (RateLimit.STATIC wdmax) now_ready now_reseed s hwd
  have ecnt : (fortuna_ready P (RateLimit.STATIC wdmax) now_ready now_reseed s).2.reset_cnt =
      (_fortuna_reseed P (RateLimit.STATIC wdmax) now_reseed
        { s with wd := ready_wd (RateLimit.STATIC wdmax) now_ready }).2.reset_cnt := rfl
  obtain ⟨g1, g2, g3⟩ := fortuna_ready_shape P (RateLimit.STATIC wdmax) now_ready now_reseed s
  by_cases hok : (fortuna_ready P (RateLimit.STATIC wdmax) now_ready now_reseed s).1 =
      Err.CRYPT_OK
  · left
    refine ⟨g2.2 hok, ?_⟩
    rw [g1] at hok
    rw [ecnt]
    exact (reseed_performed P _ now_reseed _ hperm hok).2.2.2.2.2.1
  · right
    refine ⟨g3 hok, ?_⟩
    rw [g1] at hok
    rw [ecnt]
    rcases (reseed_fields P (RateLimit.STATIC wdmax) now_reseed
      { s with wd := ready_wd (RateLimit.STATIC wdmax) now_ready }).2.2 with ⟨g, _⟩ | ⟨g, _⟩
    · exact g
    · exact absurd g hok

/-- One public call, counter mode: the reseed count stays with a ready flag that was
set before, or is incremented, or the ready flag is cleared and the count not raised. -/
theorem step_reset_cnt {POOLS : Nat} {HashState SKey : Type}
    (P : Primitives HashState SKey) (wdmax : Nat) (hwd : wdmax + 1 < 2 ^ 64) (c : Call)
    (s s1 : prng_state POOLS HashState SKey)
    (h : step P (RateLimit.STATIC wdmax) c s = some s1) :
    (s1.reset_cnt = s.reset_cnt ∧ (s1.ready = true → s.ready = true)) ∨
    s1.reset_cnt = (s.reset_cnt + 1) % 2 ^ 64 ∨
    (s1.ready = false ∧ s1.reset_cnt ≤ s.reset_cnt) := by
  have hstart : ∀ t : prng_state POOLS HashState SKey,
      (fortuna_start P t).2.ready = false ∧ (fortuna_start P t).2.reset_cnt ≤ t.reset_cnt := by
    intro t
    refine ⟨fortuna_start_not_ready P t, ?_⟩
    rcases fortuna_start_reset_cnt P t with e | e
    · rw [e]; exact Nat.zero_le _
    · rw [e]
  cases c with
  | start =>
    simp only [step, Option.some.injEq] at h
    subst h
    exact Or.inr (Or.inr (hstart s))
  | add_entropy inp inlen =>
    simp only [step, Option.map_eq_some'] at h
    obtain ⟨v, hv, rfl⟩ := h
    obtain ⟨c1, c2, _⟩ := fortuna_add_entropy_frame P inp inlen s v.2 v.1 hv
    exact Or.inl ⟨c1, fun hr => by rw [← c2]; exact hr⟩
  | add_random_event source pool inp inlen =>
    simp only [step, Option.map_eq_some'] at h
    obtain ⟨v, hv, rfl⟩ := h
    obtain ⟨c1, c2, _⟩ := fortuna_add_random_event_frame P source pool inp inlen s v.2 v.1 hv
    exact Or.inl ⟨c1, fun hr => by rw [← c2]; exact hr⟩
  | ready now_ready now_reseed =>
    simp only [step, Option.some.injEq] at h
    subst h
    rcases fortuna_ready_reset_cnt P wdmax hwd now_ready now_reseed s with ⟨_, e⟩ | ⟨e1, e2⟩
    · exact Or.inr (Or.inl e)
    · exact Or.inr (Or.inr ⟨e1, by rw [e2]⟩)
  | read out outlen now =>
    simp only [step] at h
    obtain ⟨e1, e2⟩ := fortuna_read_reset_cnt P _ now out outlen s s1 h
    rcases e2 with e | e
    · exact Or.inl ⟨e, fun hr => by rw [← e1]; exact hr⟩
    · exact Or.inr (Or.inl e)
  | update_seed inp inlen =>
    simp only [step, Option.some.injEq] at h
    subst h
    obtain ⟨_, _, _, f4, _, f6⟩ := update_seed_frame P inp inlen s
    exact Or.inl ⟨f4, fun hr => by rw [← f6]; exact hr⟩
  | pimport inp inlen =>
    simp only [step, Option.some.injEq] at h
    subst h
    unfold fortuna_import
    cases inp with
    | none => exact Or.inl ⟨rfl, fun hr => hr⟩
    | some buf =>
      simp only
      split_ifs
      · exact Or.inl ⟨rfl, fun hr => hr⟩
      · exact Or.inr (Or.inr (hstart s))
      · obtain ⟨_, _, _, f4, _, f6⟩ := update_seed_frame P buf inlen (fortuna_start P s).2
        refine Or.inr (Or.inr ⟨?_, ?_⟩)
        · show (fortuna_update_seed P buf inlen (fortuna_start P s).2).2.ready = false
          rw [f6]; exact (hstart s).1
        · show (fortuna_update_seed P buf inlen (fortuna_start P s).2).2.reset_cnt ≤ _
          rw [f4]; exact (hstart s).2
  | pexport out outlen =>
    simp only [step, Option.some.injEq] at h
    subst h
    unfold fortuna_export
    split_ifs <;> exact Or.inl ⟨rfl, fun hr => hr⟩
  | done =>
    simp only [step, Option.some.injEq] at h
    subst h
    exact Or.inr (Or.inr ⟨rfl, le_refl _⟩)

/-- Along a sequence of calls in counter mode the reseed count grows by at most one per
call, and as long as it cannot wrap a set ready flag comes with a count of at least 1. -/
theorem run_reset_cnt {POOLS : Nat} {HashState SKey : Type}
    (P : Primitives HashState SKey) (wdmax : Nat) (hwd : wdmax + 1 < 2 ^ 64)
    (calls : List Call) :
    ∀ (s s1 : prng_state POOLS HashState SKey) (n : Nat),
      run P (RateLimit.STATIC wdmax) s calls = some s1 →
      s.reset_cnt ≤ n → (s.ready = true → 1 ≤ s.reset_cnt) → n + calls.length < 2 ^ 64 →
      s1.reset_cnt ≤ n + calls.length ∧ (s1.ready = true → 1 ≤ s1.reset_cnt) := by
  induction calls with
  | nil =>
    intro s s1 n h h1 h2 _
    simp only [run, Option.some.injEq] at h
    subst h
    exact ⟨by simpa using h1, h2⟩
  | cons c cs ih =>
    intro s s1 n h h1 h2 hlen
    simp only [List.length_cons] at hlen ⊢
    unfold run at h
    cases hst : step P (RateLimit.STATIC wdmax) c s with
    | none => rw [hst] at h; cases h
    | some t =>
      rw [hst] at h
      simp only at h
      have hstep := step_reset_cnt P wdmax hwd c s t hst
      have ht : t.reset_cnt ≤ n + 1 ∧ (t.ready = true → 1 ≤ t.reset_cnt) := by
        rcases hstep with ⟨e, hr⟩ | e | ⟨e1, e2⟩
        · exact ⟨by omega, fun hrt => by rw [e]; exact h2 (hr hrt)⟩
        · have hlt : s.reset_cnt + 1 < 2 ^ 64 := by omega
          rw [Nat.mod_eq_of_lt hlt] at e
          exact ⟨by omega, fun _ => by omega⟩
        · exact ⟨by omega, fun hrt => by rw [e1] at hrt; cases hrt⟩
      have := ih t s1 (n + 1) h ht.1 ht.2 (by omega)
      exact ⟨by omega, this.2⟩

/-! ## Registry and constants: lookups -/

theorem cipher_is_valid_slot {n : Nat} (t : Table n) (i : Fin n) (h : (t i).name ≠ NULL) :
    cipher_is_valid t (i.val : Int) = (some Err.CRYPT_OK, t) := by
  have h1 : ¬ ((i.val : Int) < 0) := by omega
  have h2 : ¬ ((i.val : Int) ≥ (n : Int)) := by have := i.isLt; omega
  have h3 : 0 ≤ (i.val : Int) ∧ (i.val : Int) < (n : Int) := by have := i.isLt; omega
  have h4 : t.read (i.val : Int) = some (t i) := by
    unfold Table.read
    rw [dif_pos h3]
    simp
  simp only [cipher_is_valid, h1, h2, if_false, h4, h]

theorem cipher_is_valid_negative {n : Nat} (t : Table n) (idx : Int) (h : idx < 0) :
    cipher_is_valid t idx = (some Err.CRYPT_INVALID_CIPHER, t) := by
  simp only [cipher_is_valid, h, if_true]

/-- C37. Whenever `find_cipher(name)` returns a value `v`: if `v >= 0` then
`cipher_is_valid(v)` returns `CRYPT_OK` on the same table, and if `v < 0` then
`cipher_is_valid(v)` returns `CRYPT_INVALID_CIPHER`; the lookup leaves the table as it
was.  (For a null `name` the argument check fails and no value is returned.) -/
theorem find_cipher_valid {n : Nat} (mem : StrMem) (t : Table n) (name : Ptr) (v : Int)
    (h : (find_cipher mem t name).1 = Ret.value v) :
    (find_cipher mem t name).2 = t ∧
    (0 ≤ v → (cipher_is_valid (find_cipher mem t name).2 v).1 = some Err.CRYPT_OK) ∧
    (v < 0 →
      (cipher_is_valid (find_cipher mem t name).2 v).1 = some Err.CRYPT_INVALID_CIPHER) := by
  by_cases hname : name = NULL
  · have e : find_cipher mem t name = (Ret.argchk_failed, t) := by
      simp only [find_cipher, hname, if_true]
    rw [e] at h
    cases h
  · rcases find_cipher_cases mem t name hname with ⟨i, ⟨hocc, _⟩, _, e⟩ | ⟨_, e⟩
    · rw [e] at h ⊢
      have hv : (i.val : Int) = v := ret_value_inj h
      refine ⟨rfl, ?_, ?_⟩
      · intro _
        show (cipher_is_valid t v).1 = _
        rw [← hv, cipher_is_valid_slot t i hocc]
      · intro hneg
        omega
    · rw [e] at h ⊢
      have hv : (-1 : Int) = v := ret_value_inj h
      refine ⟨rfl, ?_, ?_⟩
      · intro hpos
        omega
      · intro hneg
        show (cipher_is_valid t v).1 = _
        rw [cipher_is_valid_negative t v hneg]

/-- C38, the code at the failing input: the name "NO_SUCH_CONSTANT" is not in
`constTable`, and `crypt_get_constant` returns 1 where the claim and the comment above
the function say -1; `*valueout` keeps its value 7.  Looking up "CRYPT_ERROR", which is
in the table, returns 0 and stores its value. -/
theorem crypt_get_constant_absent_returns_one :
    (∀ i : Fin 3, constMem (constTable i).name ≠ constMem 4) ∧
    crypt_get_constant constMem constTable 4 7 = (1, 7) ∧
    (crypt_get_constant constMem constTable 4 7).1 ≠ -1 ∧
    crypt_get_constant constMem constTable 2 7 = (0, 1) := by
  refine ⟨by decide, by decide, by decide, by decide⟩

/-- What the loop of `crypt_get_constant` computes on any table: when the name is present
it returns 0 with `*valueout` set to the value of the first entry with that name; when
no entry has that name it leaves `*valueout` as it was and the final `return 1;` is
reached. -/
theorem crypt_get_constant_result {n : Nat} (mem : StrMem) (tab : Fin n → crypt_constant)
    (namein : Ptr) (valueout : Int) :
    ((∀ i : Fin n, mem (tab i).name ≠ mem namein) →
      crypt_get_constant mem tab namein valueout = (1, valueout)) ∧
    (∀ i : Fin n, mem (tab i).name = mem namein →
      (∀ j : Fin n, j < i → mem (tab j).name ≠ mem namein) →
      crypt_get_constant mem tab namein valueout = (0, (tab i).value)) ∧
    ((∃ i : Fin n, mem (tab i).name = mem namein) →
      (crypt_get_constant mem tab namein valueout).1 = 0 ∧
      ∃ i : Fin n, mem (tab i).name = mem namein ∧
        (crypt_get_constant mem tab namein valueout).2 = (tab i).value) := by
  have hp : ∀ i : Fin n,
      (decide (XSTRCMP mem (tab i).name namein = 0) = true ↔ mem (tab i).name = mem namein) := by
    intro i
    rw [decide_eq_true_iff, XSTRCMP_eq_zero]
  have hfirst : ∀ i : Fin n, mem (tab i).name = mem namein →
      (∀ j : Fin n, j < i → mem (tab j).name ≠ mem namein) →
      crypt_get_constant mem tab namein valueout = (0, (tab i).value) := by
    intro i hi hbefore
    have hs : scan (fun i => decide (XSTRCMP mem (tab i).name namein = 0)) n 0 = some i := by
      rw [scan_eq_some]
      refine ⟨(hp i).2 hi, ?_⟩
      intro j hj
      cases hd : decide (XSTRCMP mem (tab j).name namein = 0)
      · rfl
      · exact absurd ((hp j).1 hd) (hbefore j hj)
    simp only [crypt_get_constant, hs]
  refine ⟨?_, hfirst, ?_⟩
  · intro hnone
    have hs : scan (fun i => decide (XSTRCMP mem (tab i).name namein = 0)) n 0 = none := by
      rw [scan_eq_none]
      intro j
      cases hd : decide (XSTRCMP mem (tab j).name namein = 0)
      · rfl
      · exact absurd ((hp j).1 hd) (hnone j)
    simp only [crypt_get_constant, hs]
  · rintro ⟨i, hi⟩
    cases hs : scan (fun i => decide (XSTRCMP mem (tab i).name namein = 0)) n 0 with
    | none =>
      rw [scan_eq_none] at hs
      have := (hp i).2 hi
      rw [hs i] at this
      cases this
    | some k =>
      have hk := ((scan_eq_some _ k).1 hs).1
      have e : crypt_get_constant mem tab namein valueout = (0, (tab k).value) := by
        simp only [crypt_get_constant, hs]
      rw [e]
      exact ⟨rfl, k, (hp k).1 hk, rfl⟩

/-! ## Fortuna: counter update, invariants, start, seed update, timed mode, clock -/

/-- C31. `_fortuna_update_iv` adds one to the counter read as a little-endian number:
for every counter of 16 bytes the value after the update is the value before plus one
modulo `2 ^ 128`, and the result is again 16 bytes.  A run of `0xFF` bytes of any length
is cleared and the byte behind it is incremented; sixteen `0xFF` bytes become sixteen
zero bytes. -/
theorem fortuna_update_iv_adds_one (IV : List Nat) (h : wf_iv IV) :
    iv_value (_fortuna_update_iv IV) = (iv_value IV + 1) % 2 ^ 128 ∧
    wf_iv (_fortuna_update_iv IV) ∧
    (∀ (j b : Nat) (rest : List Nat), b < 255 → j + 1 + rest.length = 16 →
      _fortuna_update_iv (List.replicate j 255 ++ b :: rest) =
        List.replicate j 0 ++ (b + 1) :: rest) ∧
    _fortuna_update_iv (List.replicate 16 255) = List.replicate 16 0 := by
  refine ⟨(update_iv_value IV h).1, (update_iv_value IV h).2, ?_, by decide⟩
  intro j b rest hb hlen
  rw [update_iv_eq_carry _ (by simp; omega)]
  exact iv_carry_run j b rest hb

/-- In `readyState` the key schedule is that of the key.  `fortuna_update_seed` returns
`CRYPT_OK` and leaves a key schedule that is not the schedule of the key it has stored;
so does `fortuna_import`. -/
theorem update_seed_schedule_stale :
    readyState.skey = (toyPrimitives.rijndael_setup (readyState.K.take 32) 0).2 ∧
    (fortuna_update_seed toyPrimitives importBuf 64 readyState).1 = Err.CRYPT_OK ∧
    (fortuna_update_seed toyPrimitives importBuf 64 readyState).2.skey ≠
      (toyPrimitives.rijndael_setup
        ((fortuna_update_seed toyPrimitives importBuf 64 readyState).2.K.take 32) 0).2 ∧
    (fortuna_import toyPrimitives (some importBuf) 64 readyState).1 =
      Ret.value Err.CRYPT_OK ∧
    (fortuna_import toyPrimitives (some importBuf) 64 readyState).2.skey ≠
      (toyPrimitives.rijndael_setup
        ((fortuna_import toyPrimitives (some importBuf) 64 readyState).2.K.take 32) 0).2 := by
  refine ⟨by decide, by decide, by decide, by decide, by decide⟩

/-- Where the key schedule is set up.  After a successful `fortuna_start`, after a
performed reseed, after a successful `fortuna_ready` whose reseed the rate limiter lets
through, and after a read that reaches the generator, the stored key schedule is the
one that `rijndael_setup` derives from the stored key.  `fortuna_update_seed` has no
call of `rijndael_setup`: the schedule after it is the one stored before the call, and
after an accepted `fortuna_import` it is the one that `fortuna_start` left. -/
theorem skey_follows_key {POOLS : Nat} {HashState SKey : Type}
    (P : Primitives HashState SKey) (rl : RateLimit) (now now_ready now_reseed : Nat)
    (buf inp : List Nat) (outlen inlen : Nat) (s s1 : prng_state POOLS HashState SKey) :
    ((fortuna_start P s).1 = Err.CRYPT_OK →
      (fortuna_start P s).2.skey =
        (P.rijndael_setup ((fortuna_start P s).2.K.take 32) 0).2) ∧
    (reseed_permitted rl now s → (_fortuna_reseed P rl now s).1 = Err.CRYPT_OK →
      (_fortuna_reseed P rl now s).2.skey =
        (P.rijndael_setup ((_fortuna_reseed P rl now s).2.K.take 32) 0).2) ∧
    (ready_permits rl now_ready now_reseed →
      (fortuna_ready P rl now_ready now_reseed s).1 = Err.CRYPT_OK →
      (fortuna_ready P rl now_ready now_reseed s).2.skey =
        (P.rijndael_setup ((fortuna_ready P rl now_ready now_reseed s).2.K.take 32) 0).2) ∧
    (outlen ≠ 0 → s.ready = true →
      (if 64 ≤ s.pool0_len then _fortuna_reseed P rl now s else (Err.CRYPT_OK, s)) =
        (Err.CRYPT_OK, s1) →
      s1.reset_cnt ≠ 0 →
      ∃ s2 : prng_state POOLS HashState SKey,
        (fortuna_read P rl now (some buf) outlen (some s)).2.2 = some s2 ∧
        s2.skey = (P.rijndael_setup (s2.K.take 32) 0).2) ∧
    (fortuna_update_seed P inp inlen s).2.skey = s.skey ∧
    (64 ≤ inlen →
      (fortuna_import P (some inp) inlen s).2.skey = (fortuna_start P s).2.skey) := by
  refine ⟨fun h => (fortuna_start_state P s h).2.2,
    fun h hok => (reseed_performed P rl now s h hok).2.2.1, ?_, ?_,
    (update_seed_frame P inp inlen s).1, ?_⟩
  · intro hperm hok
    have g1 := (fortuna_ready_shape P rl now_ready now_reseed s).1
    rw [g1] at hok
    exact (reseed_performed P rl now_reseed _
      (ready_reseed_permitted rl now_ready now_reseed s hperm) hok).2.2.1
  · intro hn hr hrs hc
    have hgen := fortuna_read_generate P rl now buf outlen s s1 hn hr hrs hc
    have hst := congrArg (fun r => r.2.2) hgen
    simp only at hst
    exact ⟨_, hst, rfl⟩
  · intro hlen
    have hsize : fortuna_desc.export_size % 2 ^ 64 = 64 := by decide
    have hnot : ¬ ((inlen : Int) < 64) := by omega
    unfold fortuna_import
    simp only [hsize, hnot, if_false]
    split_ifs
    · rfl
    · exact (update_seed_frame P inp inlen (fortuna_start P s).2).1

/-- C33. Counter mode of the rate limit with `LTC_FORTUNA_WD + 1 < 2 ^ 64`: in every state
reached from a successful `fortuna_start` through fewer than `2 ^ 64` calls of the public
operations, a set ready flag comes with `reset_cnt >= 1`. -/
theorem ready_implies_reseeded {POOLS : Nat} {HashState SKey : Type}
    (P : Primitives HashState SKey) (LTC_FORTUNA_WD : Nat)
    (hwd : LTC_FORTUNA_WD + 1 < 2 ^ 64)
    (s0 : prng_state POOLS HashState SKey) (calls : List Call)
    (s : prng_state POOLS HashState SKey)
    (hstart : (fortuna_start P s0).1 = Err.CRYPT_OK)
    (hrun : run P (RateLimit.STATIC LTC_FORTUNA_WD) (fortuna_start P s0).2 calls = some s)
    (hlen : calls.length < 2 ^ 64) (hready : s.ready = true) :
    Reachable P (RateLimit.STATIC LTC_FORTUNA_WD) s ∧ 1 ≤ s.reset_cnt := by
  refine ⟨⟨s0, calls, hstart, hrun⟩, ?_⟩
  have h0 : (fortuna_start P s0).2.reset_cnt = 0 := (fortuna_start_ok P s0 hstart).2.2.2.2.1
  have hr0 : (fortuna_start P s0).2.ready = false := fortuna_start_not_ready P s0
  have := run_reset_cnt P LTC_FORTUNA_WD hwd calls (fortuna_start P s0).2 s 0 hrun
    (by rw [h0]) (fun hr => by rw [hr0] at hr; cases hr) (by omega)
  exact this.2 hready

/-- C34. With succeeding primitives `fortuna_start` returns `CRYPT_OK` and, whatever the
state held before (a key array of 32 and a counter array of 16 bytes), leaves: the ready
flag cleared, every pool at the initial hash state, a key of 32 zero bytes, the key
schedule set up from that key, a counter of 16 zero bytes, and `pool_idx`, `pool0_len`,
`wd`, `reset_cnt` all 0. -/
theorem fortuna_start_fresh {POOLS : Nat} {HashState SKey : Type}
    (P : Primitives HashState SKey) (hP : P.succeed) (s : prng_state POOLS HashState SKey)
    (hK : s.K.length = 32) (hIV : s.IV.length = 16) :
    (fortuna_start P s).1 = Err.CRYPT_OK ∧
    (fortuna_start P s).2.ready = false ∧
    (∀ x : Fin POOLS, (fortuna_start P s).2.pool x = P.sha256_init.2) ∧
    (fortuna_start P s).2.K = List.replicate 32 0 ∧
    (fortuna_start P s).2.skey = (P.rijndael_setup (List.replicate 32 0) 0).2 ∧
    (fortuna_start P s).2.IV = List.replicate 16 0 ∧
    (fortuna_start P s).2.pool_idx = 0 ∧ (fortuna_start P s).2.pool0_len = 0 ∧
    (fortuna_start P s).2.wd = 0 ∧ (fortuna_start P s).2.reset_cnt = 0 := by
  have hok := fortuna_start_succeeds P hP s
  obtain ⟨a1, a2, a3, a4, a5, a6, a7⟩ := fortuna_start_ok P s hok
  obtain ⟨b1, b2, b3⟩ := fortuna_start_state P s hok
  have hKz : (fortuna_start P s).2.K = List.replicate 32 0 := by
    rw [a6, zeromem_key s.K hK]
  refine ⟨hok, a1, ?_, hKz, ?_, ?_, a2, a3, a4, a5⟩
  · intro x
    rw [b2]
    exact start_pools_eq P POOLS 0 s.pool b1 x (Nat.zero_le _) (by have := x.isLt; omega)
  · rw [b3, hKz]
    rfl
  · rw [a7, zeromem_iv s.IV hIV]

/-- C35. A call of `fortuna_update_seed` that returns `CRYPT_OK`, on a key of 32 bytes
with a streaming hash of 32-byte digests: the key becomes the hash of the old key
followed by the first `inlen` bytes of the input (all of them when the input has
`inlen` bytes), the counter is updated once (its value grows by one modulo `2 ^ 128`),
and pools, `pool0_len`, `reset_cnt`, `pool_idx`, `wd`, the ready flag and the key
schedule are as before. -/
theorem fortuna_update_seed_effect {POOLS : Nat} {HashState SKey : Type}
    (P : Primitives HashState SKey) (hs : P.streaming) (hd : P.digest32)
    (inp : List Nat) (inlen : Nat) (s : prng_state POOLS HashState SKey)
    (hK : s.K.length = 32)
    (hok : (fortuna_update_seed P inp inlen s).1 = Err.CRYPT_OK) :
    (fortuna_update_seed P inp inlen s).2.K = sha256 P (s.K ++ inp.take inlen) ∧
    (inlen ≤ inp.length → (inp.take inlen).length = inlen) ∧
    (fortuna_update_seed P inp inlen s).2.IV = _fortuna_update_iv s.IV ∧
    (wf_iv s.IV → iv_value (fortuna_update_seed P inp inlen s).2.IV =
      (iv_value s.IV + 1) % 2 ^ 128) ∧
    (fortuna_update_seed P inp inlen s).2.pool = s.pool ∧
    (fortuna_update_seed P inp inlen s).2.pool0_len = s.pool0_len ∧
    (fortuna_update_seed P inp inlen s).2.reset_cnt = s.reset_cnt ∧
    (fortuna_update_seed P inp inlen s).2.pool_idx = s.pool_idx ∧
    (fortuna_update_seed P inp inlen s).2.wd = s.wd ∧
    (fortuna_update_seed P inp inlen s).2.ready = s.ready ∧
    (fortuna_update_seed P inp inlen s).2.skey = s.skey := by
  have e := update_seed_state P inp inlen s hok
  obtain ⟨f1, f2, f3, f4, f5, f6⟩ := update_seed_frame P inp inlen s
  have hiv : (fortuna_update_seed P inp inlen s).2.IV = _fortuna_update_iv s.IV := by
    rw [e]
  refine ⟨?_, ?_, hiv, ?_, f2, f3, f4, fortuna_update_seed_pool_idx P inp inlen s, f5, f6, f1⟩
  · rw [e]
    exact seed_key_hash P hs hd s.K (inp.take inlen) hK
  · intro hl
    rw [List.length_take]
    omega
  · intro hw
    rw [hiv]
    exact (update_iv_value s.IV hw).1

/-- C36. Timed mode: a reseed attempt whose clock reading equals the stored `wd` returns
`CRYPT_OK` and leaves the state as it was.  A performed reseed stores its clock reading,
so a second attempt with the same reading returns `CRYPT_OK` and changes nothing. -/
theorem reseed_timed_same_quantum {POOLS : Nat} {HashState SKey : Type}
    (P : Primitives HashState SKey) (now : Nat) (s : prng_state POOLS HashState SKey) :
    (now = s.wd → _fortuna_reseed P RateLimit.TIMED now s = (Err.CRYPT_OK, s)) ∧
    (now ≠ s.wd → (_fortuna_reseed P RateLimit.TIMED now s).1 = Err.CRYPT_OK →
      (_fortuna_reseed P RateLimit.TIMED now s).2.wd = now ∧
      _fortuna_reseed P RateLimit.TIMED now (_fortuna_reseed P RateLimit.TIMED now s).2 =
        (Err.CRYPT_OK, (_fortuna_reseed P RateLimit.TIMED now s).2)) := by
  have hskip : ∀ t : prng_state POOLS HashState SKey, now = t.wd →
      _fortuna_reseed P RateLimit.TIMED now t = (Err.CRYPT_OK, t) := by
    intro t ht
    simp only [_fortuna_reseed, ht, if_true]
  refine ⟨hskip s, ?_⟩
  intro hne hok
  have hwd : (_fortuna_reseed P RateLimit.TIMED now s).2.wd = now :=
    (reseed_performed P RateLimit.TIMED now s hne hok).2.2.2.2.2.2.2.2.1 rfl
  exact ⟨hwd, hskip _ hwd.symm⟩

/-- C39, the code at the failing input: for a clock reading of 100 microseconds the
function returns 1 where the claim and the comment above the function (steps of 100 ms)
give `floor(100 / 100000) = 0`; the readings 0 and 100 microseconds lie in the same step
of 100 ms and give different values. -/
theorem current_time_hundred_microseconds :
    cur_time (ClockReading.gettimeofday 0 100) = 100 ∧
    _fortuna_current_time (ClockReading.gettimeofday 0 100) = 1 ∧
    100 / 100000 = 0 ∧
    _fortuna_current_time (ClockReading.gettimeofday 0 0) ≠
      _fortuna_current_time (ClockReading.gettimeofday 0 100) := by
  refine ⟨by decide, by decide, by decide, by decide⟩

/-- What `return cur_time / 100;` computes: for a clock reading of `u` microseconds the
result is `floor(u / 100)` (with `gettimeofday`, `u = tv_sec * 1000000 + tv_usec` as long
as this is below `2 ^ 64`), so two readings give the same value exactly when they lie in
the same step of 100 microseconds, and readings at least 100 microseconds apart give
different values. -/
theorem current_time_steps (r1 r2 : ClockReading) :
    _fortuna_current_time r1 = cur_time r1 / 100 ∧
    100 * _fortuna_current_time r1 ≤ cur_time r1 ∧
    cur_time r1 < 100 * _fortuna_current_time r1 + 100 ∧
    (cur_time r1 + 100 ≤ cur_time r2 → _fortuna_current_time r1 < _fortuna_current_time r2) ∧
    (_fortuna_current_time r1 = _fortuna_current_time r2 →
      cur_time r1 < cur_time r2 + 100 ∧ cur_time r2 < cur_time r1 + 100) ∧
    (∀ tv_sec tv_usec : Nat, tv_sec * 1000000 + tv_usec < 2 ^ 64 →
      _fortuna_current_time (ClockReading.gettimeofday tv_sec tv_usec) =
        (tv_sec * 1000000 + tv_usec) / 100) := by
  unfold _fortuna_current_time
  refine ⟨rfl, by omega, by omega, by omega, by omega, ?_⟩
  intro tv_sec tv_usec hlt
  have h1 : tv_sec < 2 ^ 64 := by omega
  have h2 : tv_usec < 2 ^ 64 := by omega
  simp only [cur_time, Nat.mod_eq_of_lt h1, Nat.mod_eq_of_lt h2, Nat.mod_eq_of_lt hlt]

/-! ## The remaining claims at concrete inputs -/

/-- A counter with three `0xFF` bytes in front of a 7. -/
theorem fortuna_update_iv_adds_one_witness :
    iv_value (_fortuna_update_iv (List.replicate 3 255 ++ 7 :: List.replicate 12 0)) =
      (iv_value (List.replicate 3 255 ++ 7 :: List.replicate 12 0) + 1) % 2 ^ 128 ∧
    _fortuna_update_iv (List.replicate 3 255 ++ 7 :: List.replicate 12 0) =
      List.replicate 3 0 ++ (7 + 1) :: List.replicate 12 0 := by
  obtain ⟨h1, _, h3, _⟩ := fortuna_update_iv_adds_one
    (List.replicate 3 255 ++ 7 :: List.replicate 12 0) ⟨by decide, by decide⟩
  exact ⟨h1, h3 3 7 (List.replicate 12 0) (by decide) (by decide)⟩

/-- The key schedule after a seed update and after an import on `readyState`. -/
theorem skey_follows_key_witness :
    (fortuna_start toyPrimitives readyState).2.skey =
      (toyPrimitives.rijndael_setup ((fortuna_start toyPrimitives readyState).2.K.take 32) 0).2 ∧
    (fortuna_update_seed toyPrimitives importBuf 64 readyState).2.skey = readyState.skey ∧
    (fortuna_import toyPrimitives (some importBuf) 64 readyState).2.skey =
      (fortuna_start toyPrimitives readyState).2.skey := by
  obtain ⟨h1, _, _, _, h5, h6⟩ := skey_follows_key toyPrimitives (RateLimit.STATIC 10) 0 0 0
    [0] importBuf 1 64 readyState readyState
  exact ⟨h1 (fortuna_start_succeeds toyPrimitives toyPrimitives_succeed _), h5,
    h6 (by decide)⟩

/-- Start and ready on `zeroState`, counter rate limit 10. -/
theorem ready_implies_reseeded_witness :
    Reachable toyPrimitives (RateLimit.STATIC 10) startedReadyState ∧
    1 ≤ startedReadyState.reset_cnt :=
  ready_implies_reseeded toyPrimitives 10 (by decide) zeroState [Call.ready 0 0]
    startedReadyState (by decide) rfl (by decide) (by decide)

/-- Starting `readyState` afresh. -/
theorem fortuna_start_fresh_witness :
    (fortuna_start toyPrimitives readyState).1 = Err.CRYPT_OK ∧
    (fortuna_start toyPrimitives readyState).2.ready = false ∧
    (∀ x : Fin 4, (fortuna_start toyPrimitives readyState).2.pool x =
      toyPrimitives.sha256_init.2) ∧
    (fortuna_start toyPrimitives readyState).2.K = List.replicate 32 0 ∧
    (fortuna_start toyPrimitives readyState).2.reset_cnt = 0 := by
  obtain ⟨h1, h2, h3, h4, _, _, _, _, _, h10⟩ :=
    fortuna_start_fresh toyPrimitives toyPrimitives_succeed readyState rfl rfl
  exact ⟨h1, h2, h3, h4, h10⟩

/-- A seed update of `readyState` with `importBuf`. -/
theorem fortuna_update_seed_effect_witness :
    (fortuna_update_seed toyPrimitives importBuf 64 readyState).2.K =
      sha256 toyPrimitives (readyState.K ++ importBuf.take 64) ∧
    (fortuna_update_seed toyPrimitives importBuf 64 readyState).2.IV =
      _fortuna_update_iv readyState.IV ∧
    (fortuna_update_seed toyPrimitives importBuf 64 readyState).2.reset_cnt =
      readyState.reset_cnt := by
  obtain ⟨h1, _, h3, _, _, _, h7, _⟩ := fortuna_update_seed_effect toyPrimitives
    toyPrimitives_streaming toyPrimitives_digest32 importBuf 64 readyState rfl
    (fortuna_update_seed_succeeds toyPrimitives toyPrimitives_succeed _ _ _)
  exact ⟨h1, h3, h7⟩

/-- Two reseed attempts on `pooledState` with the clock reading 1, and one with the
stored reading 9. -/
theorem reseed_timed_same_quantum_witness :
    _fortuna_reseed toyPrimitives RateLimit.TIMED 9 pooledState =
      (Err.CRYPT_OK, pooledState) ∧
    _fortuna_reseed toyPrimitives RateLimit.TIMED 1
        (_fortuna_reseed toyPrimitives RateLimit.TIMED 1 pooledState).2 =
      (Err.CRYPT_OK, (_fortuna_reseed toyPrimitives RateLimit.TIMED 1 pooledState).2) :=
  ⟨(reseed_timed_same_quantum toyPrimitives 9 pooledState).1 rfl,
    ((reseed_timed_same_quantum toyPrimitives 1 pooledState).2 (by decide)
      (reseed_ok toyPrimitives toyPrimitives_succeed _ _ _)).2⟩

/-- Looking up "fortuna" and "sprng" in `tableA`. -/
theorem find_cipher_valid_witness :
    (cipher_is_valid (find_cipher strMem tableA 1).2 0).1 = some Err.CRYPT_OK ∧
    (cipher_is_valid (find_cipher strMem tableA 2).2 (-1)).1 =
      some Err.CRYPT_INVALID_CIPHER :=
  ⟨(find_cipher_valid strMem tableA 1 0 (by decide)).2.1 (by decide),
    (find_cipher_valid strMem tableA 2 (-1) (by decide)).2.2 (by decide)⟩

/-- Looking up "CRYPT_ERROR" and a name that is not in `constTable`. -/
theorem crypt_get_constant_result_witness :
    crypt_get_constant constMem constTable 2 7 = (0, (constTable 1).value) ∧
    crypt_get_constant constMem constTable 4 7 = (1, 7) :=
  ⟨(crypt_get_constant_result constMem constTable 2 7).2.1 1 (by decide) (by decide),
    (crypt_get_constant_result constMem constTable 4 7).1 (by decide)⟩

/-- The readings 3 s 250 microseconds and 3 s 350 microseconds. -/
theorem current_time_steps_witness :
    _fortuna_current_time (ClockReading.gettimeofday 3 250) = (3 * 1000000 + 250) / 100 ∧
    _fortuna_current_time (ClockReading.gettimeofday 3 250) <
      _fortuna_current_time (ClockReading.gettimeofday 3 350) := by
  obtain ⟨_, _, _, h4, _, h6⟩ := current_time_steps (ClockReading.gettimeofday 3 250)
    (ClockReading.gettimeofday 3 350)
  exact ⟨h6 3 250 (by decide), h4 (by decide)⟩

/-! ## Fortuna: the result code of the block cipher -/

/-- A read that follows `fortuna_update_seed` on a ready, seeded state does not depend
on the seed: the blocks are encrypted under the key schedule stored before the seed
update, which `fortuna_update_seed` has not set up again, and the read overwrites the
key.  Two seed updates with any two inputs are followed by the same count, the same
output and the same state. -/
theorem read_after_update_seed {POOLS : Nat} {HashState SKey : Type}
    (P : Primitives HashState SKey) (hb : P.block16) (hd : P.digest32)
    (rl : RateLimit) (now : Nat) (buf : List Nat) (outlen : Nat)
    (s : prng_state POOLS HashState SKey) (inp1 inp2 : List Nat) (inlen1 inlen2 : Nat)
    (hok1 : (fortuna_update_seed P inp1 inlen1 s).1 = Err.CRYPT_OK)
    (hok2 : (fortuna_update_seed P inp2 inlen2 s).1 = Err.CRYPT_OK)
    (hr : s.ready = true) (hc : s.reset_cnt ≠ 0) (hp : s.pool0_len < 64)
    (hn : outlen ≠ 0) (hK : s.K.length = 32) :
    fortuna_read P rl now (some buf) outlen (some (fortuna_update_seed P inp1 inlen1 s).2) =
      fortuna_read P rl now (some buf) outlen
        (some (fortuna_update_seed P inp2 inlen2 s).2) := by
  have key : ∀ (inp : List Nat) (inlen : Nat),
      (fortuna_update_seed P inp inlen s).1 = Err.CRYPT_OK →
      fortuna_read P rl now (some buf) outlen (some (fortuna_update_seed P inp inlen s).2) =
        ((if (P.rijndael_setup
            (((P.rijndael_ecb_encrypt
                (Nat.iterate _fortuna_update_iv ((outlen + 15) / 16) (_fortuna_update_iv s.IV))
                s.skey).2 ++
              (P.rijndael_ecb_encrypt
                (_fortuna_update_iv (Nat.iterate _fortuna_update_iv ((outlen + 15) / 16)
                  (_fortuna_update_iv s.IV))) s.skey).2).take 32) 0).1 ≠ Err.CRYPT_OK
            then 0 else outlen),
          some (if 0 < (read_blocks P s.skey outlen buf 0 (_fortuna_update_iv s.IV)).2.2.1 then
            store (read_blocks P s.skey outlen buf 0 (_fortuna_update_iv s.IV)).1
              (read_blocks P s.skey outlen buf 0 (_fortuna_update_iv s.IV)).2.1
              ((P.rijndael_ecb_encrypt
                (read_blocks P s.skey outlen buf 0 (_fortuna_update_iv s.IV)).2.2.2
                s.skey).2.take
                (read_blocks P s.skey outlen buf 0 (_fortuna_update_iv s.IV)).2.2.1)
            else (read_blocks P s.skey outlen buf 0 (_fortuna_update_iv s.IV)).1),
          some { s with
            K := (P.rijndael_ecb_encrypt
                (Nat.iterate _fortuna_update_iv ((outlen + 15) / 16) (_fortuna_update_iv s.IV))
                s.skey).2 ++
              (P.rijndael_ecb_encrypt
                (_fortuna_update_iv (Nat.iterate _fortuna_update_iv ((outlen + 15) / 16)
                  (_fortuna_update_iv s.IV))) s.skey).2
            IV := _fortuna_update_iv (_fortuna_update_iv
              (Nat.iterate _fortuna_update_iv ((outlen + 15) / 16) (_fortuna_update_iv s.IV)))
            skey := (P.rijndael_setup
              (((P.rijndael_ecb_encrypt
                  (Nat.iterate _fortuna_update_iv ((outlen + 15) / 16)
                    (_fortuna_update_iv s.IV)) s.skey).2 ++
                (P.rijndael_ecb_encrypt
                  (_fortuna_update_iv (Nat.iterate _fortuna_update_iv ((outlen + 15) / 16)
                    (_fortuna_update_iv s.IV))) s.skey).2).take 32) 0).2 }) := by
    intro inp inlen hok
    have e := update_seed_state P inp inlen s hok
    have hlen : (store s.K 0 (P.sha256_done (P.sha256_process
        (P.sha256_process P.sha256_init.2 (s.K.take 32)).2 (inp.take inlen)).2).2.2).length =
        32 := by
      rw [store_length _ _ _ (by rw [hd, hK]), hK]
    rw [e]
    have hgen := fortuna_read_generate P rl now buf outlen
      { s with
        K := store s.K 0 (P.sha256_done (P.sha256_process
          (P.sha256_process P.sha256_init.2 (s.K.take 32)).2 (inp.take inlen)).2).2.2
        IV := _fortuna_update_iv s.IV } _ hn hr (if_neg (by show ¬ 64 ≤ s.pool0_len; omega)) hc
    rw [hgen]
    simp only [store_two_blocks _ _ _ hlen (hb _ _) (hb _ _)]
  rw [key inp1 inlen1 hok1, key inp2 inlen2 hok2]

/-- C32, the code at the failing input: in `readyState` the key schedule is that of the
key.  `fortuna_update_seed` with 64 bytes of seed returns `CRYPT_OK` and stores a new
key, but the key schedule is still the one stored before the call, not the one
`rijndael_setup` derives from the new key.  A seed update with another seed stores
another key, and the read of 17 bytes that follows gives the same count, output, key and
key schedule after either of them: the seed bytes do not reach the generator. -/
theorem update_seed_skips_key_setup :
    readyState.skey = (toyPrimitives.rijndael_setup (readyState.K.take 32) 0).2 ∧
    (fortuna_update_seed toyPrimitives importBuf 64 readyState).1 = Err.CRYPT_OK ∧
    (fortuna_update_seed toyPrimitives importBuf 64 readyState).2.skey = readyState.skey ∧
    (fortuna_update_seed toyPrimitives importBuf 64 readyState).2.skey ≠
      (toyPrimitives.rijndael_setup
        ((fortuna_update_seed toyPrimitives importBuf 64 readyState).2.K.take 32) 0).2 ∧
    (fortuna_update_seed toyPrimitives importBuf 64 readyState).2.K ≠
      (fortuna_update_seed toyPrimitives (List.replicate 64 2) 64 readyState).2.K ∧
    fortuna_read toyPrimitives (RateLimit.STATIC 10) 0 (some (List.replicate 20 7)) 17
        (some (fortuna_update_seed toyPrimitives importBuf 64 readyState).2) =
      fortuna_read toyPrimitives (RateLimit.STATIC 10) 0 (some (List.replicate 20 7)) 17
        (some (fortuna_update_seed toyPrimitives (List.replicate 64 2) 64 readyState).2) := by
  refine ⟨by decide, by decide, by decide, by decide, by decide, ?_⟩
  exact read_after_update_seed toyPrimitives toyPrimitives_block16 toyPrimitives_digest32
    (RateLimit.STATIC 10) 0 (List.replicate 20 7) 17 readyState importBuf
    (List.replicate 64 2) 64 64 (by decide) (by decide) rfl (by decide) (by decide)
    (by decide) rfl

end LTC
